import Mathlib

/-!
# Space-invaders engine (`js/spaceinvaders.js`): state machine and per-tick simulation

A shallow embedding of the game object, its state stack and the `update`
procedures of the states, followed by theorems about them.

Conventions of the embedding.

* JavaScript numbers are rationals (`ℚ`) and arithmetic is exact, with two
  exceptions: the countdown of the level intro and the drop distance of the
  swarm, whose values after many updates decide on which update a phase ends,
  are computed as the source computes them, in double precision: every result
  is rounded to the nearest binary64 value (`fl`).  A value that may be
  `undefined` or `NaN` is an `Option ℚ` (`none`); every comparison with such a
  value is `false`, every arithmetic result with it is `none`.
* Arrays are lists in array order: the top of the state stack is the last entry.
* The wall clock (`(new Date()).valueOf()`) and `Math.random()` are inputs:
  `now : ℚ` and a stream `rnd : Nat → ℚ` read in call order.
* Drawing, sounds, the canvas and the interval timer are outside the model; of
  the global variables only `jumping` and `walking` are kept (`pace` and
  `brickBool` only select sprites, the global `shipSpeedY` is never read).
* A `TypeError` (reading a property of `null`) aborts the procedure: the
  embedding returns `none`.
-/

namespace SpaceInvaders

/-! ## Data model -/

/-- The settings object `Game.config`.  `shipspeed` (lower case) is the property
that the victory branch of `PlayState.update` creates; it is absent (`none`)
in the constructor. -/
structure Config where
  bombRate : ℚ
  bombMinVelocity : ℚ
  bombMaxVelocity : ℚ
  invaderInitialVelocity : ℚ
  invaderAcceleration : ℚ
  invaderDropDistance : ℚ
  rocketVelocity : ℚ
  rocketMaxFireRate : ℚ
  gameWidth : ℚ
  gameHeight : ℚ
  fps : ℚ
  debugMode : Bool
  invaderRanks : Nat
  invaderFiles : Nat
  shipSpeed : ℚ
  levelDifficultyMultiplier : ℚ
  pointsPerInvader : ℚ
  shipspeed : Option ℚ
deriving DecidableEq, Repr

/-- The default settings of the `Game` constructor. -/
def Config.default : Config where
  bombRate := 5 / 100
  bombMinVelocity := 50
  bombMaxVelocity := 50
  invaderInitialVelocity := 25
  invaderAcceleration := 0
  invaderDropDistance := 20
  rocketVelocity := 120
  rocketMaxFireRate := 2
  gameWidth := 700
  gameHeight := 300
  fps := 50
  debugMode := false
  invaderRanks := 5
  invaderFiles := 10
  shipSpeed := 150
  levelDifficultyMultiplier := 3 / 10
  pointsPerInvader := 5
  shipspeed := none

/-- The rectangle `Game.gameBounds`. -/
structure Bounds where
  left : ℚ
  top : ℚ
  right : ℚ
  bottom : ℚ
deriving DecidableEq, Repr

/-- A velocity vector `{x, y}` of the swarm. -/
structure Vec where
  x : ℚ
  y : ℚ
deriving DecidableEq, Repr

/-- The record built by `Ship(x, y)`; `y` becomes `NaN` (`none`) when the jump
code subtracts an undefined `shipSpeedY`. -/
structure Ship where
  x : ℚ
  y : Option ℚ
  width : ℚ
  height : ℚ
deriving DecidableEq, Repr

/-- The record built by `Wall(x, y)`. -/
structure Wall where
  x : ℚ
  y : ℚ
  width : ℚ
  height : ℚ
deriving DecidableEq, Repr

/-- The record built by `Rocket(x, y, velocity)`; `y` is derived from the ship's `y`. -/
structure Rocket where
  x : ℚ
  y : Option ℚ
  velocity : ℚ
deriving DecidableEq, Repr

/-- The record built by `Bomb(x, y, velocity)`; `image` is the sprite number
`Math.floor(Math.random() * 4 + 1)`. -/
structure Bomb where
  x : ℚ
  y : ℚ
  velocity : ℚ
  image : Int
deriving DecidableEq, Repr

/-- The record built by `Invader(x, y, rank, file, type)`. -/
structure Invader where
  x : ℚ
  y : ℚ
  rank : Nat
  file : Nat
  type : String
  width : ℚ
  height : ℚ
deriving DecidableEq, Repr

/-- `Ship(x, y)`. -/
def Ship.new (x : ℚ) (y : ℚ) : Ship := { x := x, y := some y, width := 50, height := 50 }

/-- `Wall(x, y)`. -/
def Wall.new (x y : ℚ) : Wall := { x := x, y := y, width := 18, height := 30 }

/-- `Invader(x, y, rank, file, type)`. -/
def Invader.new (x y : ℚ) (rank file : Nat) (type : String) : Invader :=
  { x := x, y := y, rank := rank, file := file, type := type, width := 40, height := 40 }

/-- A `PlayState` object after its `enter` has run.  `config` is not a field:
the constructor stores a reference to `game.config`, so the state reads and
writes the game's settings object. -/
structure PlayState where
  level : Int
  invaderCurrentVelocity : ℚ
  invaderCurrentDropDistance : ℚ
  invadersAreDropping : Bool
  lastRocketTime : Option ℚ
  ship : Ship
  invaders : List Invader
  rockets : List Rocket
  bombs : List Bomb
  wallBlocks : List Wall
  shipSpeed : ℚ
  invaderInitialVelocity : ℚ
  bombRate : ℚ
  bombMinVelocity : ℚ
  bombMaxVelocity : ℚ
  invaderVelocity : Option Vec
  invaderNextVelocity : Option Vec
  shipSpeedY : Option ℚ
deriving DecidableEq, Repr

/-- The states that can sit on the state stack.  `gameState` is an object built
by the generic `GameState(updateProc, drawProc, keyDown, keyUp, enter, leave)`
constructor: the flags say which of its last four procedures are present; the
procedures themselves are taken to leave the game unchanged. -/
inductive State where
  | welcome
  | gameOver
  | play (p : PlayState)
  | pause
  | levelIntro (level : Int) (countdown : Option ℚ) (countdownMessage : String)
  | gameState (keyDown keyUp enter leave : Bool)
deriving DecidableEq, Repr

/-- A freshly constructed state object, as passed to `moveToState` and
`pushState` before its `enter` has run. -/
inductive NewState where
  | welcome
  | gameOver
  | play (level : Int)
  | pause
  | levelIntro (level : Int)
  | gameState (keyDown keyUp enter leave : Bool)
deriving DecidableEq, Repr

/-- The `Game` object together with the global variables `jumping` and `walking`. -/
structure Game where
  config : Config
  lives : Nat
  width : ℚ
  height : ℚ
  gameBounds : Bounds
  score : ℚ
  level : Int
  stateStack : List State
  pressedKeys : List Nat
  jumping : Bool
  walking : Bool
deriving DecidableEq, Repr

/-! ## Double precision -/

/-- The number of binary digits of `n`; the first argument bounds the recursion
(`bitLength n n` is the length of `n`). -/
def bitLength : Nat → Nat → Nat
  | 0, _ => 0
  | fuel + 1, n => if n = 0 then 0 else bitLength fuel (n / 2) + 1

/-- The binary exponent of `a / d` for positive `a` and `d`: the `e` with
`2 ^ e ≤ a / d < 2 ^ (e + 1)`. -/
def binExp (a d : Nat) : Int :=
  let e0 : Int := (bitLength a a : Int) - (bitLength d d : Int)
  if 0 ≤ e0 then (if d * 2 ^ e0.toNat ≤ a then e0 else e0 - 1)
  else (if d ≤ a * 2 ^ (-e0).toNat then e0 else e0 - 1)

/-- The integer nearest to `num / den`, the even one of two that are equally near. -/
def roundHalfEven (num den : Nat) : Nat :=
  let k := num / den
  let r := num % den
  if 2 * r < den then k
  else if den < 2 * r then k + 1
  else if k % 2 = 0 then k else k + 1

/-- The result of an arithmetic operation of the source whose exact value is
`x`: the binary64 value nearest to `x`, ties to the even significand (IEEE 754
round-to-nearest-even).  A value with binary exponent `e` is rounded to a
multiple of `2 ^ (e - 52)` (53 significant bits), a value below `2 ^ (-1022)`
to a multiple of `2 ^ (-1074)` (subnormal).  Overflow to `Infinity`, at
magnitudes of `2 ^ 1024` and more, is not modelled. -/
def fl (x : ℚ) : ℚ :=
  if x = 0 then 0 else
  let a := x.num.natAbs
  let d := x.den
  let q := max (binExp a d - 52) (-1074)
  let r : ℚ :=
    if 0 ≤ q then ((roundHalfEven a (d * 2 ^ q.toNat) * 2 ^ q.toNat : Nat) : ℚ)
    else ((roundHalfEven (a * 2 ^ (-q).toNat) d : Nat) : ℚ) / ((2 ^ (-q).toNat : Nat) : ℚ)
  if x < 0 then -r else r

/-! ## Comparisons and arithmetic with a possibly-`NaN` operand -/

/-- `a >= b` where `a` may be `NaN`. -/
def geNum (a : Option ℚ) (b : ℚ) : Bool :=
  match a with
  | some v => decide (b ≤ v)
  | none => false

/-- `a <= b` where `a` may be `NaN`. -/
def leNum (a : Option ℚ) (b : ℚ) : Bool :=
  match a with
  | some v => decide (v ≤ b)
  | none => false

/-- `a < b` where `a` may be `NaN`. -/
def ltNum (a : Option ℚ) (b : ℚ) : Bool :=
  match a with
  | some v => decide (v < b)
  | none => false

/-- `a > b` where `b` may be `undefined`. -/
def gtUndef (a : ℚ) (b : Option ℚ) : Bool :=
  match b with
  | some v => decide (v < a)
  | none => false

/-- `a - b` where either operand may be `undefined` or `NaN`. -/
def subNum (a b : Option ℚ) : Option ℚ :=
  match a, b with
  | some v, some w => some (v - w)
  | _, _ => none

/-- `a + b` where `a` may be `undefined` or `NaN`. -/
def addNum (a : Option ℚ) (b : ℚ) : Option ℚ :=
  match a with
  | some v => some (v + b)
  | none => none

/-! ## The state stack -/

/-- `Game.prototype.currentState`. -/
def Game.currentState (g : Game) : Option State := g.stateStack.getLast?

/-- `Array.prototype.pop` on the state stack. -/
def Game.pop (g : Game) : Game := { g with stateStack := g.stateStack.dropLast }

/-- `Array.prototype.push` on the state stack. -/
def Game.push (g : Game) (s : State) : Game := { g with stateStack := g.stateStack ++ [s] }

/-- Whether a state object has a `leave` procedure: none of the five state
classes defines one, a `GameState` record has the one it was given. -/
def State.hasLeave : State → Bool
  | .gameState _ _ _ l => l
  | _ => false

/-- Whether a new state object has an `enter` procedure. -/
def NewState.hasEnter : NewState → Bool
  | .welcome => true
  | .play _ => true
  | .gameState _ _ e _ => e
  | _ => false

/-- `PlayState.prototype.enter` on a `PlayState` built by the constructor for
`level` (no rocket fired, no rockets, no bombs, `shipSpeedY` undefined). -/
def PlayState.enter (game : Game) (level : Int) : PlayState :=
  let config := game.config
  let levelMultiplier : ℚ := (level : ℚ) * config.levelDifficultyMultiplier
  let invaderInitialVelocity :=
    config.invaderInitialVelocity + levelMultiplier * config.invaderInitialVelocity
  let ranks := config.invaderRanks
  let files := config.invaderFiles
  let wallRank : Nat := 3
  let wallFiles : Nat := 50
  { level := level
    invaderCurrentVelocity := invaderInitialVelocity
    invaderCurrentDropDistance := 0
    invadersAreDropping := false
    lastRocketTime := none
    ship := Ship.new (game.width / 2) game.gameBounds.bottom
    invaders :=
      (List.range ranks).flatMap fun (rank : Nat) =>
        (List.range files).map fun (file : Nat) =>
          Invader.new (game.width / 2 + (((files : ℚ) / 2 - (file : ℚ)) * 510 / (files : ℚ)))
            (game.gameBounds.top + (rank : ℚ) * 40) rank file "Invader"
    rockets := []
    bombs := []
    wallBlocks :=
      (List.range wallRank).flatMap fun (_ : Nat) =>
        (List.range wallFiles).map fun (file : Nat) =>
          Wall.new (game.width / 2 + (((wallFiles : ℚ) / 2 - (file : ℚ)) * 780 / (wallFiles : ℚ)))
            (game.gameBounds.bottom + 70)
    shipSpeed := config.shipSpeed
    invaderInitialVelocity := invaderInitialVelocity
    bombRate := config.bombRate + levelMultiplier * config.bombRate
    bombMinVelocity := config.bombMinVelocity + levelMultiplier * config.bombMinVelocity
    bombMaxVelocity := config.bombMaxVelocity + levelMultiplier * config.bombMaxVelocity
    invaderVelocity := some { x := -invaderInitialVelocity, y := 0 }
    invaderNextVelocity := none
    shipSpeedY := none }

/-- The state object as it is pushed: `state.enter(game)` has run if the object
has an `enter`.  `WelcomeState.enter` only loads sounds; `PlayState.enter`
fills the state in; a `LevelIntroState` starts with `countdown` undefined and
the message "3". -/
def NewState.entered (game : Game) : NewState → State
  | .welcome => .welcome
  | .gameOver => .gameOver
  | .play level => .play (PlayState.enter game level)
  | .pause => .pause
  | .levelIntro level => .levelIntro level none "3"
  | .gameState kd ku e l => .gameState kd ku e l

/-- `Game.prototype.moveToState`: leave and pop the current state if it has a
`leave`; enter the new state; pop; push the new state. -/
def Game.moveToState (g : Game) (state : NewState) : Game :=
  let g1 :=
    match g.currentState with
    | some cur => if cur.hasLeave then g.pop else g
    | none => g
  let s := state.entered g1
  (g1.pop).push s

/-- `Game.prototype.pushState`: enter the new state and push it. -/
def Game.pushState (g : Game) (state : NewState) : Game :=
  g.push (state.entered g)

/-- `Game.prototype.popState`: leave the current state, if any, and pop it. -/
def Game.popState (g : Game) : Game :=
  match g.currentState with
  | some _ => g.pop
  | none => g

/-- The mutations of the current state object seen through the stack: `update`
and `keyDown` are invoked on the top entry, and change it in place. -/
def Game.setCurrent (g : Game) (s : State) : Game :=
  match g.stateStack with
  | [] => g
  | _ :: _ => { g with stateStack := g.stateStack.dropLast ++ [s] }

/-! ## Loops that remove while iterating -/

/-- The loop `for (i = start; i < xs.length; i++) { ... }` whose body updates
`xs[i]` and some state `s`, and may remove the element with `xs.splice(i--, 1)`.
`body s x` gives the new state, the updated element and whether it is removed.
The first argument bounds the number of iterations; `xs.length - start` is
enough (`forSplice_fuel`). -/
def forSplice {σ α : Type} (body : σ → α → σ × α × Bool) :
    Nat → Nat → σ → List α → σ × List α
  | 0, _, s, xs => (s, xs)
  | fuel + 1, i, s, xs =>
    match xs[i]? with
    | none => (s, xs)
    | some x =>
      match body s x with
      | (s1, x1, true) => forSplice body fuel i s1 ((xs.set i x1).eraseIdx i)
      | (s1, x1, false) => forSplice body fuel (i + 1) s1 (xs.set i x1)

/-! ## `PlayState.prototype.fireRocket` -/

/-- The guard of `fireRocket`: no rocket fired yet, or the time since the last
one exceeds `1000 / rocketMaxFireRate` (`Infinity` for a rate of `0`). -/
def PlayState.canFire (game : Game) (p : PlayState) (now : ℚ) : Bool :=
  match p.lastRocketTime with
  | none => true
  | some last =>
    decide (game.config.rocketMaxFireRate ≠ 0) &&
      decide (1000 / game.config.rocketMaxFireRate < now - last)

/-- `PlayState.prototype.fireRocket`, with the clock reading `now`. -/
def PlayState.fireRocket (game : Game) (p : PlayState) (now : ℚ) : Game × PlayState :=
  if p.canFire game now then
    ({ game with score := game.score - 1 },
     { p with
        rockets := p.rockets ++
          [{ x := p.ship.x, y := subNum p.ship.y (some 12), velocity := game.config.rocketVelocity }]
        lastRocketTime := some now })
  else (game, p)

/-! ## The phases of `PlayState.prototype.update` -/

/-- The property `this.height` read by the bomb loop: a `PlayState` has none. -/
def PlayState.height (_p : PlayState) : Option ℚ := none

/-- The body of the bomb loop: advance the bomb, remove it if `bomb.y > this.height`. -/
def moveBombBody (p : PlayState) (dt : ℚ) (_ : Unit) (bomb : Bomb) : Unit × Bomb × Bool :=
  let bomb1 := { bomb with y := bomb.y + dt * bomb.velocity }
  ((), bomb1, gtUndef bomb1.y p.height)

/-- Move each bomb. -/
def moveBombs (p : PlayState) (dt : ℚ) (bombs : List Bomb) : List Bomb :=
  (forSplice (moveBombBody p dt) bombs.length 0 () bombs).2

/-- The body of the rocket loop: advance the rocket, remove it if `rocket.y < 0`. -/
def moveRocketBody (dt : ℚ) (_ : Unit) (rocket : Rocket) : Unit × Rocket × Bool :=
  let rocket1 := { rocket with y := subNum rocket.y (some (dt * rocket.velocity)) }
  ((), rocket1, ltNum rocket1.y 0)

/-- Move each rocket. -/
def moveRockets (dt : ℚ) (rockets : List Rocket) : List Rocket :=
  (forSplice (moveRocketBody dt) rockets.length 0 () rockets).2

/-- Move the invaders: the loop over the swarm with its flags `hitLeft` and
`hitRight` (`hitBottom` is never set).  Reads `this.invaderVelocity.x` once per
invader, so a `null` velocity aborts when there is an invader. -/
def moveInvaders (bounds : Bounds) (velocity : Option Vec) (dt : ℚ) :
    List Invader → Bool → Bool → Option (List Invader × Bool × Bool)
  | [], hitLeft, hitRight => some ([], hitLeft, hitRight)
  | invader :: rest, hitLeft, hitRight =>
    match velocity with
    | none => none
    | some v =>
      let newx := invader.x + v.x * dt
      let hitLeft1 := hitLeft || decide (newx < bounds.left)
      let hitRight1 :=
        if !hitLeft && decide (newx < bounds.left) then hitRight
        else hitRight || decide (newx > bounds.right)
      let invader1 := if !hitLeft1 && !hitRight1 then { invader with x := newx } else invader
      match moveInvaders bounds velocity dt rest hitLeft1 hitRight1 with
      | none => none
      | some (rest1, l, r) => some (invader1 :: rest1, l, r)

/-- Update invader velocities: the drop accumulator, then the two bounce branches.
The accumulator is a sum of doubles: the product `invaderVelocity.y * dt` and
the sum are each rounded (`fl`). -/
def updateInvaderVelocities (config : Config) (p : PlayState) (dt : ℚ)
    (hitLeft hitRight : Bool) : Option PlayState :=
  let dropped : Option PlayState :=
    if p.invadersAreDropping then
      match p.invaderVelocity with
      | none => none
      | some v =>
        let d := fl (p.invaderCurrentDropDistance + fl (v.y * dt))
        if config.invaderDropDistance ≤ d then
          some { p with
            invadersAreDropping := false
            invaderVelocity := p.invaderNextVelocity
            invaderCurrentDropDistance := 0 }
        else some { p with invaderCurrentDropDistance := d }
    else some p
  match dropped with
  | none => none
  | some p1 =>
    let p2 :=
      if hitLeft then
        let c := p1.invaderCurrentVelocity + config.invaderAcceleration
        { p1 with
          invaderCurrentVelocity := c
          invaderVelocity := some { x := 0, y := c }
          invadersAreDropping := true
          invaderNextVelocity := some { x := c, y := 0 } }
      else p1
    let p3 :=
      if hitRight then
        let c := p2.invaderCurrentVelocity + config.invaderAcceleration
        { p2 with
          invaderCurrentVelocity := c
          invaderVelocity := some { x := 0, y := c }
          invadersAreDropping := true
          invaderNextVelocity := some { x := -c, y := 0 } }
      else p2
    some p3

/-- The hit test of the rocket/invader pass. -/
def rocketHits (invader : Invader) (rocket : Rocket) : Bool :=
  decide (invader.x - invader.width ≤ rocket.x) && decide (rocket.x ≤ invader.x + invader.width) &&
    geNum rocket.y ((invader.y - invader.height) / (12 / 10)) &&
    leNum rocket.y ((invader.y + invader.height) / (12 / 10))

/-- The body of the rocket/invader pass for one invader: the inner loop removes
the first rocket that hits it, adds `pointsPerInvader` to the score and breaks;
the invader is then removed. The state is the rocket list and the score. -/
def rocketInvaderBody (config : Config) (s : List Rocket × ℚ) (invader : Invader) :
    (List Rocket × ℚ) × Invader × Bool :=
  match s.1.findIdx? (rocketHits invader) with
  | some j => ((s.1.eraseIdx j, s.2 + config.pointsPerInvader), invader, true)
  | none => (s, invader, false)

/-- Check for rocket/invader collisions. -/
def rocketInvaderCollisions (config : Config) (rockets : List Rocket) (score : ℚ)
    (invaders : List Invader) : (List Rocket × ℚ) × List Invader :=
  forSplice (rocketInvaderBody config) invaders.length 0 (rockets, score) invaders

/-- Find all of the front rank invaders: the map from file to invader. -/
def frontRankInvaders (invaders : List Invader) : Nat → Option Invader :=
  invaders.foldl
    (fun m invader =>
      match m invader.file with
      | none => Function.update m invader.file (some invader)
      | some front =>
        if front.rank < invader.rank then Function.update m invader.file (some invader) else m)
    (fun _ => none)

/-- `Bomb(x, y, velocity)`, with the value `r` that `Math.random()` returns in it. -/
def Bomb.new (x y velocity r : ℚ) : Bomb :=
  { x := x, y := y, velocity := velocity, image := Int.floor (r * 4 + 1) }

/-- Give each front rank invader a chance to drop a bomb.  The state is the bomb
list and the number of values read from `Math.random()` so far. -/
def dropBombs (p : PlayState) (dt : ℚ) (rnd : Nat → ℚ) (front : Nat → Option Invader)
    (files : Nat) (bombs : List Bomb) : List Bomb × Nat :=
  (List.range files).foldl
    (fun (s : List Bomb × Nat) i =>
      match front i with
      | none => s
      | some invader =>
        let chance := p.bombRate * dt
        if rnd s.2 < chance then
          (s.1 ++ [Bomb.new invader.x (invader.y + invader.height / 2)
              (p.bombMinVelocity + rnd (s.2 + 1) * (p.bombMaxVelocity - p.bombMinVelocity))
              (rnd (s.2 + 2))],
            s.2 + 3)
        else (s.1, s.2 + 1))
    (bombs, 0)

/-- The hit test of the bomb/ship pass. -/
def bombHitsShip (ship : Ship) (bomb : Bomb) : Bool :=
  match ship.y with
  | none => false
  | some sy =>
    decide (ship.x - ship.width / 2 ≤ bomb.x) && decide (bomb.x ≤ ship.x + ship.width / 2) &&
      decide (sy - ship.height / 2 ≤ bomb.y) && decide (bomb.y ≤ sy + ship.height / 2)

/-- The body of the bomb/ship pass: a hit removes the bomb and increments `lives`. -/
def bombShipBody (ship : Ship) (lives : Nat) (bomb : Bomb) : Nat × Bomb × Bool :=
  if bombHitsShip ship bomb then (lives + 1, bomb, true) else (lives, bomb, false)

/-- Check for bomb/ship collisions. -/
def bombShipCollisions (ship : Ship) (lives : Nat) (bombs : List Bomb) : Nat × List Bomb :=
  forSplice (bombShipBody ship) bombs.length 0 lives bombs

/-- The hit test of the bomb/wall pass. -/
def bombHitsWall (bomb : Bomb) (wall : Wall) : Bool :=
  decide (wall.x - wall.width / 2 ≤ bomb.x) && decide (bomb.x ≤ wall.x + wall.width / 2) &&
    decide (wall.y - wall.height / 2 ≤ bomb.y) && decide (bomb.y ≤ wall.y + wall.height / 2)

/-- The body of the bomb/wall pass: at the first block hit the bomb is removed,
`bombCollision()` takes 5 from the score, and the inner loop breaks. -/
def bombWallBody (wallBlocks : List Wall) (score : ℚ) (bomb : Bomb) : ℚ × Bomb × Bool :=
  if wallBlocks.any (bombHitsWall bomb) then (score - 5, bomb, true) else (score, bomb, false)

/-- Check for bomb/wall collisions. -/
def bombWallCollisions (wallBlocks : List Wall) (score : ℚ) (bombs : List Bomb) :
    ℚ × List Bomb :=
  forSplice (bombWallBody wallBlocks) bombs.length 0 score bombs

/-- The overlap test of the invader/ship pass. -/
def invaderHitsShip (ship : Ship) (invader : Invader) : Bool :=
  match ship.y with
  | none => false
  | some sy =>
    decide (ship.x - ship.width / 2 < invader.x + invader.width / 2) &&
      decide (invader.x - invader.width / 2 < ship.x + ship.width / 2) &&
      decide (sy - ship.height / 2 < invader.y + invader.height / 2) &&
      decide (invader.y - invader.height / 2 < sy + ship.height / 2)

/-- The first part of `PlayState.prototype.update`: the arrow keys, the jump,
`fireRocket` on space, the fall and the clamp of the ship to the play area.
The third component says whether `fireRocket` fired. -/
def PlayState.control (game : Game) (p : PlayState) (dt now : ℚ) : Game × PlayState × Bool :=
  let keys := game.pressedKeys
  -- left / right arrow keys
  let ship1 := if 37 ∈ keys then { p.ship with x := p.ship.x - p.shipSpeed * dt } else p.ship
  let ship2 := if 39 ∈ keys then { ship1 with x := ship1.x + p.shipSpeed * dt } else ship1
  let walking := decide (37 ∈ keys) || decide (39 ∈ keys)
  -- up arrow key: start a jump
  let startJump := decide (38 ∈ keys) && !game.jumping
  let g1 := { game with walking := walking, jumping := game.jumping || decide (38 ∈ keys) }
  let p1 := { p with ship := ship2, shipSpeedY := if startJump then some 20 else p.shipSpeedY }
  -- space: fire
  let fire := if 32 ∈ keys then p1.fireRocket g1 now else (g1, p1)
  let g2 := fire.1
  let p2 := fire.2
  -- falling
  let ship3 :=
    if g2.jumping then { p2.ship with y := subNum p2.ship.y p2.shipSpeedY } else p2.ship
  let speedY3 := if g2.jumping then subNum p2.shipSpeedY (some (25 / 10)) else p2.shipSpeedY
  let jumping3 := g2.jumping && !geNum ship3.y game.gameBounds.bottom
  -- keep the ship in bounds
  let ship4 :=
    if ship3.x < game.gameBounds.left then { ship3 with x := game.gameBounds.left } else ship3
  let ship5 :=
    if game.gameBounds.right < ship4.x then { ship4 with x := game.gameBounds.right } else ship4
  ({ g2 with jumping := jumping3 }, { p2 with ship := ship5, shipSpeedY := speedY3 },
    decide (32 ∈ keys) && p1.canFire g1 now)

/-- The second part of `PlayState.prototype.update`: move each bomb, each rocket
and the invaders, then update the invader velocities. -/
def PlayState.advance (game : Game) (p : PlayState) (dt : ℚ) : Option PlayState :=
  let bombs1 := moveBombs p dt p.bombs
  let rockets1 := moveRockets dt p.rockets
  match moveInvaders game.gameBounds p.invaderVelocity dt p.invaders false false with
  | none => none
  | some (invaders1, hitLeft, hitRight) =>
    updateInvaderVelocities game.config
      { p with bombs := bombs1, rockets := rockets1, invaders := invaders1 } dt hitLeft hitRight

/-- What happened in one update, read off the lists it worked on: whether
`fireRocket` fired, how many invaders the rocket/invader pass removed, how many
bombs the bomb/ship pass removed and how many the bomb/wall pass removed. -/
structure TickReport where
  fired : Bool
  invadersRemoved : Nat
  bombsCaught : Nat
  bombsWalled : Nat
deriving DecidableEq, Repr

/-- The third part of `PlayState.prototype.update`: the rocket/invader pass,
the bomb spawn, the bomb/ship, bomb/wall and invader/ship passes.  The report
carries the `fired` flag it is given. -/
def PlayState.collide (game : Game) (p : PlayState) (dt : ℚ) (rnd : Nat → ℚ) (fired : Bool) :
    Game × PlayState × TickReport :=
  let hits := rocketInvaderCollisions game.config p.rockets game.score p.invaders
  let rockets2 := hits.1.1
  let score2 := hits.1.2
  let invaders2 := hits.2
  let bombs2 :=
    (dropBombs p dt rnd (frontRankInvaders invaders2) game.config.invaderFiles p.bombs).1
  let caught := bombShipCollisions p.ship game.lives bombs2
  let walled := bombWallCollisions p.wallBlocks score2 caught.2
  let lives3 := if invaders2.any (invaderHitsShip p.ship) then 0 else caught.1
  ({ game with score := walled.1, lives := lives3 },
   { p with rockets := rockets2, invaders := invaders2, bombs := walled.2 },
   { fired := fired
     invadersRemoved := p.invaders.length - invaders2.length
     bombsCaught := bombs2.length - caught.2.length
     bombsWalled := caught.2.length - walled.2.length })

/-- The part of `PlayState.prototype.update` before the end-of-tick checks.
Returns the game (score, lives, `jumping`, `walking`) and the state object as
they are when the failure check is reached, with the report of the tick. -/
def PlayState.simulate (game : Game) (p : PlayState) (dt now : ℚ) (rnd : Nat → ℚ) :
    Option (Game × PlayState × TickReport) :=
  let c := p.control game dt now
  match c.2.1.advance c.1 dt with
  | none => none
  | some p4 => some (p4.collide c.1 dt rnd c.2.2)

/-- The condition of the `Check for failure` statement. -/
def PlayState.failure (game : Game) (p : PlayState) : Bool :=
  decide (game.score ≤ 0) || (decide (game.score < 100) && decide (p.invaders.length = 0)) ||
    decide (((p.invaders.length : ℚ)) * 5 ≤ 100 - game.score)

/-- The `Check for failure` statement. -/
def PlayState.checkFailure (game : Game) (p : PlayState) : Game :=
  if p.failure game then game.moveToState .gameOver else game

/-- The `Check for victory` statement. -/
def PlayState.checkVictory (game : Game) : Game :=
  if 100 ≤ game.score then
    let level := game.level + 1
    let g1 := { game with
      level := level
      score := if level ≤ 9 then 50 - 5 * (level : ℚ) else 5
      config := { game.config with shipspeed := addNum game.config.shipspeed 8 } }
    g1.moveToState (.levelIntro level)
  else game

/-- `PlayState.prototype.update`, invoked on the current state `p` of `game`. -/
def PlayState.update (game : Game) (p : PlayState) (dt now : ℚ) (rnd : Nat → ℚ) :
    Option Game :=
  match p.simulate game dt now rnd with
  | none => none
  | some (g, p1, _) => some (PlayState.checkVictory (p1.checkFailure (g.setCurrent (.play p1))))

/-! ## The other states -/

/-- `LevelIntroState.prototype.update` on a level-intro state with the given
fields, which is the current state of `game`.  The countdown is a double: the
difference `countdown - dt` is rounded (`fl`). -/
def LevelIntroState.update (game : Game) (level : Int) (countdown : Option ℚ)
    (countdownMessage : String) (dt : ℚ) : Game :=
  let c := fl (countdown.getD 3 - dt)
  let m1 := if c < 2 then "2" else countdownMessage
  let m2 := if c < 1 then "1" else m1
  let g := game.setCurrent (.levelIntro level (some c) m2)
  if c ≤ 1 then g.moveToState (.play level) else g

/-- `WelcomeState.prototype.keyDown`. -/
def WelcomeState.keyDown (game : Game) (keyCode : Nat) : Game :=
  if keyCode = 13 then
    let g := { game with level := 1, score := 50, lives := 0 }
    g.moveToState (.levelIntro g.level)
  else game

/-- `GameOverState.prototype.keyDown`. -/
def GameOverState.keyDown (game : Game) (keyCode : Nat) : Game :=
  if keyCode = 13 then
    let g := { game with lives := 0, score := 50, level := 1 }
    g.moveToState (.levelIntro 1)
  else game

/-- `PlayState.prototype.keyDown`, invoked on the current state `p` of `game`. -/
def PlayState.keyDown (game : Game) (p : PlayState) (keyCode : Nat) (now : ℚ) : Game :=
  let fire := if keyCode = 32 then p.fireRocket game now else (game, p)
  let g2 := fire.1.setCurrent (.play fire.2)
  if keyCode = 80 then g2.pushState .pause else g2

/-- `PauseState.prototype.keyDown`. -/
def PauseState.keyDown (game : Game) (keyCode : Nat) : Game :=
  if keyCode = 80 then game.popState else game

/-- `Game.prototype.keyDown`: record the key, then delegate to the current state. -/
def Game.keyDown (g : Game) (keyCode : Nat) (now : ℚ) : Game :=
  let g1 := { g with
    pressedKeys := if keyCode ∈ g.pressedKeys then g.pressedKeys else g.pressedKeys ++ [keyCode] }
  match g1.currentState with
  | some .welcome => WelcomeState.keyDown g1 keyCode
  | some .gameOver => GameOverState.keyDown g1 keyCode
  | some (.play p) => PlayState.keyDown g1 p keyCode now
  | some .pause => PauseState.keyDown g1 keyCode
  | _ => g1

/-- `Game.prototype.keyUp`: forget the key; no state class reacts to it. -/
def Game.keyUp (g : Game) (keyCode : Nat) : Game :=
  { g with pressedKeys := g.pressedKeys.filter fun k => k != keyCode }

/-- The `dt` that `GameLoop` computes, `1 / game.config.fps`, a double. -/
def frameTime (config : Config) : ℚ := fl (1 / config.fps)

/-- The update half of `GameLoop`, with `dt` as a parameter (`frameTime` in the
source) and followed by the one effect of `draw` on the modelled globals:
`LevelIntroState.prototype.draw` clears `jumping`. -/
def GameLoop (game : Game) (dt now : ℚ) (rnd : Nat → ℚ) : Option Game :=
  match game.currentState with
  | some (.play p) => p.update game dt now rnd
  | some (.levelIntro level countdown message) =>
    some { LevelIntroState.update game level countdown message dt with jumping := false }
  | _ => some game

/-! ## Concrete games and the wording of the specification -/

/-- A game on an 800 x 600 canvas with the default settings and an empty stack. -/
def sampleGame : Game :=
  { config := Config.default, lives := 0, width := 800, height := 600,
    gameBounds := { left := 50, top := 150, right := 750, bottom := 450 },
    score := 50, level := 1, stateStack := [], pressedKeys := [], jumping := false,
    walking := false }

/-- A level-1 Play state with one invader at (300, 190), one wall block and a
rocket at (300, 152), which the next update moves into the invader. -/
def samplePlay : PlayState :=
  { PlayState.enter sampleGame 1 with
    invaders := [Invader.new 300 190 0 0 "Invader"]
    wallBlocks := [Wall.new 400 520]
    rockets := [{ x := 300, y := some 152, velocity := 120 }] }

/-- Score 96, space held down, `samplePlay` current: the update fires a rocket
(95) and destroys the last invader (100). -/
def lastKillGame : Game :=
  { sampleGame with score := 96, pressedKeys := [32], stateStack := [.play samplePlay] }

/-- The outcome of the collision passes in the update of `lastKillGame`. -/
def lastKillOutcome : Game × PlayState × TickReport :=
  (samplePlay.simulate lastKillGame (1 / 50) 0 (fun _ => 1)).getD
    (lastKillGame, samplePlay, ⟨false, 0, 0, 0⟩)

/-- The failure rule as the specification words it: the third alternative
compares the potential point value of the remaining invaders, counted with
`config.pointsPerInvader`, with the points still needed to reach 100. -/
def failureRuleSpec (config : Config) (score : ℚ) (remaining : Nat) : Bool :=
  decide (score ≤ 0) || (decide (score < 100) && decide (remaining = 0)) ||
    decide ((remaining : ℚ) * config.pointsPerInvader ≤ 100 - score)

/-- Five invaders of the top rank, standing still well inside the play area. -/
def fiveInvaders : List Invader :=
  [Invader.new 200 190 0 0 "Invader", Invader.new 300 190 0 1 "Invader",
   Invader.new 400 190 0 2 "Invader", Invader.new 500 190 0 3 "Invader",
   Invader.new 600 190 0 4 "Invader"]

/-- A level-1 Play state with five invaders, no rocket and no bomb. -/
def fivePlay : PlayState :=
  { PlayState.enter sampleGame 1 with
    invaders := fiveInvaders
    wallBlocks := [Wall.new 400 520] }

/-- A game whose settings award 10 points per invader, at score 60, with
`fivePlay` current and no key pressed. -/
def tenPointGame : Game :=
  { sampleGame with
    config := { Config.default with pointsPerInvader := 10 }
    score := 60
    stateStack := [.play fivePlay] }

/-- The outcome of the collision passes in the update of `tenPointGame`. -/
def tenPointOutcome : Game × PlayState × TickReport :=
  (fivePlay.simulate tenPointGame (1 / 50) 0 (fun _ => 1)).getD
    (tenPointGame, fivePlay, ⟨false, 0, 0, 0⟩)

/-- A level-1 Play state whose only invader, of rank 7 (y = top + 7 * 40 = 430),
stands over the ship at (400, 450). -/
def rammedPlay : PlayState :=
  { PlayState.enter sampleGame 1 with
    invaders := [Invader.new 400 430 7 5 "Invader"]
    wallBlocks := [Wall.new 400 520] }

/-- Eight ranks of invaders, score 99, three bombs caught so far, `rammedPlay`
current, no key pressed. -/
def rammedGame : Game :=
  { sampleGame with
    config := { Config.default with invaderRanks := 8 }
    score := 99, lives := 3, stateStack := [.play rammedPlay] }

/-- The outcome of the collision passes in the update of `rammedGame`. -/
def rammedOutcome : Game × PlayState × TickReport :=
  (rammedPlay.simulate rammedGame (1 / 50) 0 (fun _ => 1)).getD
    (rammedGame, rammedPlay, ⟨false, 0, 0, 0⟩)

/-- The inputs of one call of `GameLoop`: the tick length, the clock reading and
the values that `Math.random()` returns. -/
structure TickInput where
  dt : ℚ
  now : ℚ
  rnd : Nat → ℚ

/-- `GameLoop` called once per input, in order. -/
def runTicks : Game → List TickInput → Option Game
  | g, [] => some g
  | g, i :: rest =>
    match GameLoop g i.dt i.now i.rnd with
    | none => none
    | some g1 => runTicks g1 rest

/-- A tick with `dt = 1 / 50`, the frame time of the default settings taken
exactly, and no random value below the bomb chance. -/
def fixedTick : TickInput := { dt := 1 / 50, now := 0, rnd := fun _ => 1 }

/-- The tick of the driver at the default settings: `dt` is the double `1 / 50`. -/
def frameTick : TickInput := { dt := frameTime Config.default, now := 0, rnd := fun _ => 1 }

/-- The tick of the driver at 20 frames per second: `dt` is the double `1 / 20`. -/
def slowTick : TickInput :=
  { dt := frameTime { Config.default with fps := 20 }, now := 0, rnd := fun _ => 1 }

/-- The countdown of a LevelIntro state as the source computes it: the value
after updates with the given `dt`s, one after the other, from the value `c`,
every difference rounded to a double. -/
def countdownFrom (c : ℚ) : List ℚ → ℚ
  | [] => c
  | dt :: rest => countdownFrom (fl (c - dt)) rest

/-- A game whose current state is a fresh LevelIntro state for level 1. -/
def introGame : Game := { sampleGame with stateStack := [.levelIntro 1 none "3"] }

/-- The totals of a run of Play updates: rockets fired, invaders removed by the
rocket/invader pass, bombs removed by the bomb/wall pass. -/
structure RunTotals where
  shots : Nat
  kills : Nat
  walled : Nat
deriving DecidableEq, Repr

/-- A run of Play updates, one per input, none of which ends in a victory
rebase: at each step a Play state is current and its `update` is run; the
totals add up the reports of the steps.  The run is undefined when another
state is current, when an update aborts, or when an update ends in victory. -/
def playRun : Game → List TickInput → Option (Game × RunTotals)
  | g, [] => some (g, ⟨0, 0, 0⟩)
  | g, i :: rest =>
    match g.currentState with
    | some (.play p) =>
      match p.simulate g i.dt i.now i.rnd, p.update g i.dt i.now i.rnd with
      | some out, some g1 =>
        if out.1.score < 100 then
          match playRun g1 rest with
          | some (g2, t) =>
            some (g2,
              ⟨t.shots + (if out.2.2.fired then 1 else 0),
               t.kills + out.2.2.invadersRemoved,
               t.walled + out.2.2.bombsWalled⟩)
          | none => none
        else none
      | _, _ => none
    | _ => none

/-- Thirteen invaders at y = 200 above the ship, at x = 370, 375, ..., 430. -/
def thirteenInvaders : List Invader :=
  (List.range 13).map fun (file : Nat) => Invader.new (370 + 5 * (file : ℚ)) 200 1 file "Invader"

/-- A level-1 Play state with the thirteen invaders standing still and one
rocket in flight at (400, 318). -/
def tenShotPlay : PlayState :=
  { PlayState.enter sampleGame 1 with
    invaders := thirteenInvaders
    invaderVelocity := some { x := 0, y := 0 }
    wallBlocks := [Wall.new 400 520]
    rockets := [{ x := 400, y := some 318, velocity := 120 }] }

/-- Score 50, space held down, `tenShotPlay` current. -/
def tenShotGame : Game :=
  { sampleGame with pressedKeys := [32], stateStack := [.play tenShotPlay] }

/-- Ten ticks of one second, one second apart on the clock, without bombs. -/
def tenShotTicks : List TickInput :=
  (List.range 10).map fun (j : Nat) =>
    { dt := 1, now := 1000 * ((j : ℚ) + 1), rnd := fun _ => 1 }

/-- The end of the run of `tenShotGame` over `tenShotTicks`. -/
def tenShotResult : Game × RunTotals :=
  (playRun tenShotGame tenShotTicks).getD (tenShotGame, ⟨0, 0, 0⟩)

/-- The removing loop read as one pass over the list, element by element: the
body sees each element once, with the state left by the elements before it,
and the list that remains holds the updated elements that were not removed,
in their order.  `forSplice_eq_spliceFold` shows that the index loop with
`splice(i--, 1)` computes exactly this. -/
def spliceFold {σ α : Type} (body : σ → α → σ × α × Bool) : σ → List α → σ × List α
  | s, [] => (s, [])
  | s, x :: rest =>
    match body s x with
    | (s1, _, true) => spliceFold body s1 rest
    | (s1, x1, false) => ((spliceFold body s1 rest).1, x1 :: (spliceFold body s1 rest).2)

/-- A rocket after one advance: `rocket.y -= dt * rocket.velocity`. -/
def Rocket.advance (dt : ℚ) (rocket : Rocket) : Rocket :=
  { rocket with y := subNum rocket.y (some (dt * rocket.velocity)) }

/-- A bomb after one advance: `bomb.y += dt * bomb.velocity`. -/
def Bomb.advance (dt : ℚ) (bomb : Bomb) : Bomb :=
  { bomb with y := bomb.y + dt * bomb.velocity }

/-- Three invaders of one rank: the first out of reach of `pairRocket`, the
other two both containing it in their hit regions. -/
def pairInvaders : List Invader :=
  [Invader.new 200 190 0 2 "Invader", Invader.new 290 190 0 1 "Invader",
   Invader.new 310 190 0 0 "Invader"]

/-- A rocket at (300, 150), inside the hit regions of two of the `pairInvaders`. -/
def pairRocket : Rocket := { x := 300, y := some 150, velocity := 120 }

/-- A rocket at (100, 10), far from every invader. -/
def strayRocket : Rocket := { x := 100, y := some 10, velocity := 120 }

/-- Two invaders in list order: the first in the middle of the play area, the
second 0.2 from the left bound. -/
def edgeInvaders : List Invader :=
  [Invader.new 400 190 0 0 "Invader", Invader.new (502 / 10) 190 0 9 "Invader"]

/-- A level-1 Play state whose swarm, moving left at 32.5, is about to cross the
left bound with its second invader. -/
def edgePlay : PlayState :=
  { PlayState.enter sampleGame 1 with
    invaders := edgeInvaders
    wallBlocks := [Wall.new 400 520] }

/-- Score 95, `edgePlay` current, no key pressed. -/
def edgeGame : Game := { sampleGame with score := 95, stateStack := [.play edgePlay] }

/-- The game `edgeGame` with the acceleration of the settings at -40. -/
def brakeGame : Game :=
  { edgeGame with config := { Config.default with invaderAcceleration := -40 } }

/-- The outcome of the collision passes in the update of `edgeGame`. -/
def edgeOutcome : Game × PlayState × TickReport :=
  (edgePlay.simulate edgeGame (1 / 50) 0 (fun _ => 1)).getD
    (edgeGame, edgePlay, ⟨false, 0, 0, 0⟩)

/-- A level-1 Play state in the dropping phase: velocity (0, 32.5), queued
velocity (32.5, 0), the five invaders at y = 190. -/
def dropPlay : PlayState :=
  { PlayState.enter sampleGame 1 with
    invaders := fiveInvaders
    wallBlocks := [Wall.new 400 520]
    invadersAreDropping := true
    invaderVelocity := some { x := 0, y := 65 / 2 }
    invaderNextVelocity := some { x := 65 / 2, y := 0 } }

/-- Score 90, `dropPlay` current, no key pressed. -/
def dropGame : Game := { sampleGame with score := 90, stateStack := [.play dropPlay] }

/-- The outcome of the collision passes in the update of `dropGame`. -/
def dropOutcome : Game × PlayState × TickReport :=
  (dropPlay.simulate dropGame (1 / 50) 0 (fun _ => 1)).getD
    (dropGame, dropPlay, ⟨false, 0, 0, 0⟩)

/-- A level-1 Play state with a bomb at (400, 519) falling at 50 onto the wall
block at (400, 520), and a bomb at (100, 599.5) about to leave the screen. -/
def bombPlay : PlayState :=
  { PlayState.enter sampleGame 1 with
    invaders := fiveInvaders
    wallBlocks := [Wall.new 400 520]
    bombs := [{ x := 400, y := 519, velocity := 50, image := 1 },
              { x := 100, y := 1199 / 2, velocity := 50, image := 2 }] }

/-- Score 90, `bombPlay` current, no key pressed. -/
def bombGame : Game := { sampleGame with score := 90, stateStack := [.play bombPlay] }

/-- The outcome of the collision passes in the update of `bombGame`. -/
def bombOutcome : Game × PlayState × TickReport :=
  (bombPlay.simulate bombGame (1 / 50) 0 (fun _ => 1)).getD
    (bombGame, bombPlay, ⟨false, 0, 0, 0⟩)

/-- The state `bombPlay` at collision time in the update of `bombGame`: the
bombs moved, the first one to (400, 520). -/
def bombPlayMoved : PlayState := (bombPlay.advance bombGame (1 / 50)).getD bombPlay

/-- A level-1 Play state whose ship stands on the left bound of the play area. -/
def leftEdgePlay : PlayState :=
  { PlayState.enter sampleGame 1 with
    ship := { x := 50, y := some 450, width := 50, height := 50 }
    invaders := fiveInvaders
    wallBlocks := [Wall.new 400 520] }

/-- Score 90, the left arrow key (37) down, `leftEdgePlay` current. -/
def leftEdgeGame : Game :=
  { sampleGame with score := 90, pressedKeys := [37], stateStack := [.play leftEdgePlay] }

/-- The outcome of the collision passes in the update of `leftEdgeGame`. -/
def leftEdgeOutcome : Game × PlayState × TickReport :=
  (leftEdgePlay.simulate leftEdgeGame (1 / 50) 0 (fun _ => 1)).getD
    (leftEdgeGame, leftEdgePlay, ⟨false, 0, 0, 0⟩)

/-- The (rank, file) pair of an invader. -/
def Invader.key (invader : Invader) : Nat × Nat := (invader.rank, invader.file)

/-- The height of the ship above the ground after `k` updates of a jump, as the
specification gives it: `20 * k - 1.25 * k * (k - 1)`. -/
def jumpHeight (k : Nat) : ℚ := 20 * (k : ℚ) - 125 / 100 * (k : ℚ) * ((k : ℚ) - 1)

/-- The Play states of a run of `GameLoop` calls with key events in between:
each call finds the given keys down (`game.pressedKeys`), and the run stops
with `none` when a call fails or leaves a state other than Play current. -/
def playStatesKeys : Game → List (List Nat × TickInput) → Option (List (Game × PlayState))
  | _, [] => some []
  | g, (keys, i) :: rest =>
    match g.currentState with
    | some (.play _) =>
      match GameLoop { g with pressedKeys := keys } i.dt i.now i.rnd with
      | some g1 =>
        match g1.currentState with
        | some (.play p1) =>
          match playStatesKeys g1 rest with
          | some tr => some ((g1, p1) :: tr)
          | none => none
        | _ => none
      | none => none
    | _ => none

/-- The phase of the jump after an update that starts in phase `j` and finds
`keys` down: phase 0 is the ship on the ground, phase `m` the ship airborne
after `m` updates. -/
def jumpPhase (j : Nat) (keys : List Nat) : Nat :=
  if j = 0 then (if 38 ∈ keys then 1 else 0) else (j + 1) % 17

/-- Score 90, no key down, `fivePlay` current with its ship on the ground. -/
def jumpGame : Game :=
  { sampleGame with score := 90, stateStack := [.play fivePlay] }

/-- Seventeen updates: the up arrow key (38) is down at the first and released
before the second; the right arrow key (39) is down from the tenth on. -/
def jumpTicks : List (List Nat × TickInput) :=
  ([38], fixedTick) :: (List.replicate 8 ([], fixedTick) ++ List.replicate 8 ([39], fixedTick))

/-- The Play states of the seventeen calls of `GameLoop` from `jumpGame`. -/
def jumpTrace : List (Game × PlayState) :=
  (playStatesKeys jumpGame jumpTicks).getD []

/-- A tick of half a second, no random value below the bomb chance. -/
def halfTick : TickInput := { dt := 1 / 2, now := 0, rnd := fun _ => 1 }

/-- Two half-second updates, no key down at the first, the left arrow key (37)
at the second. -/
def dropTicks : List (List Nat × TickInput) := [([], halfTick), ([37], halfTick)]

/-- The Play states of the updates `dropTicks` from `dropGame`. -/
def dropTrace : List (Game × PlayState) :=
  (playStatesKeys dropGame dropTicks).getD []

/-- The drop accumulator as the source computes it: the value after `k` updates
from 0, each adding the double `v * dt`, every sum rounded to a double. -/
def dropSum (v dt : ℚ) : Nat → ℚ
  | 0 => 0
  | k + 1 => fl (dropSum v dt k + fl (v * dt))

/-- The tick of the driver at 45 frames per second: `dt` is the double `1 / 45`. -/
def fastTick : TickInput :=
  { dt := frameTime { Config.default with fps := 45 }, now := 0, rnd := fun _ => 1 }

/-- A level-10 Play state in the dropping phase: velocity (0, 100), the speed of
level 10, queued velocity (100, 0), the five invaders at y = 190. -/
def fastDropPlay : PlayState :=
  { PlayState.enter sampleGame 10 with
    invaders := fiveInvaders
    wallBlocks := [Wall.new 400 520]
    invadersAreDropping := true
    invaderVelocity := some { x := 0, y := 100 }
    invaderNextVelocity := some { x := 100, y := 0 } }

/-- Level 10 at 45 frames per second, score 90, `fastDropPlay` current. -/
def fastDropGame : Game :=
  { sampleGame with
    config := { Config.default with fps := 45 }
    level := 10
    score := 90
    stateStack := [.play fastDropPlay] }

/-- The state `dropPlay` with a sixth invader at x = 40, left of the left bound 50. -/
def strayPlay : PlayState :=
  { dropPlay with invaders := Invader.new 40 190 0 5 "Invader" :: fiveInvaders }

/-- Score 90, `strayPlay` current. -/
def strayGame : Game := { sampleGame with score := 90, stateStack := [.play strayPlay] }

/-! ## Facts about the removing loop -/

/-- With the fuel `xs.length - i` the loop has run to its exit test: more fuel
does not change the result. -/
theorem forSplice_fuel {σ α : Type} (body : σ → α → σ × α × Bool) :
    ∀ (n i : Nat) (s : σ) (xs : List α) (k : Nat), xs.length - i ≤ n →
      forSplice body (n + k) i s xs = forSplice body n i s xs := by
  intro n
  induction n with
  | zero =>
    intro i s xs k h
    have hi : xs.length ≤ i := by omega
    cases k with
    | zero => rfl
    | succ k =>
      simp only [forSplice, Nat.zero_add]
      rw [List.getElem?_eq_none hi]
  | succ n ih =>
    intro i s xs k h
    rw [show n + 1 + k = (n + k) + 1 by omega]
    simp only [forSplice]
    cases hx : xs[i]? with
    | none => rfl
    | some x =>
      have hi : i < xs.length := by
        by_contra hc
        rw [List.getElem?_eq_none (by omega)] at hx
        cases hx
      simp only []
      rcases hb : body s x with ⟨s1, x1, b⟩
      cases b with
      | true =>
        simp only []
        apply ih
        rw [List.length_eraseIdx, List.length_set]
        simp [hi]; omega
      | false =>
        simp only []
        apply ih
        rw [List.length_set]; omega

/-- A quantity `μ` of the loop state that changes by `c` exactly when the body
removes an element: the loop keeps `μ s + c * length` constant with the sign
reversed, that is `μ s' = μ s + c * (removed elements)`. -/
theorem forSplice_account {σ α : Type} (body : σ → α → σ × α × Bool) (μ : σ → ℚ) (c : ℚ)
    (hrem : ∀ s x s1 x1, body s x = (s1, x1, true) → μ s1 = μ s + c)
    (hkeep : ∀ s x s1 x1, body s x = (s1, x1, false) → μ s1 = μ s) :
    ∀ (n i : Nat) (s : σ) (xs : List α),
      μ (forSplice body n i s xs).1 + c * ((forSplice body n i s xs).2.length : ℚ)
        = μ s + c * (xs.length : ℚ) ∧ (forSplice body n i s xs).2.length ≤ xs.length := by
  intro n
  induction n with
  | zero => intro i s xs; simp [forSplice]
  | succ n ih =>
    intro i s xs
    simp only [forSplice]
    cases hx : xs[i]? with
    | none => simp
    | some x =>
      have hi : i < xs.length := by
        by_contra hc
        rw [List.getElem?_eq_none (by omega)] at hx
        cases hx
      simp only []
      rcases hb : body s x with ⟨s1, x1, b⟩
      cases b with
      | true =>
        simp only []
        have h1 := ih i s1 ((xs.set i x1).eraseIdx i)
        have hlen : ((xs.set i x1).eraseIdx i).length = xs.length - 1 := by
          rw [List.length_eraseIdx, List.length_set]; simp [hi]
        rw [hlen] at h1
        have hpos : 1 ≤ xs.length := by omega
        refine ⟨?_, by omega⟩
        rw [h1.1, hrem s x s1 x1 hb]
        push_cast [Nat.cast_sub hpos]
        ring
      | false =>
        simp only []
        have h1 := ih (i + 1) s1 (xs.set i x1)
        rw [List.length_set] at h1
        refine ⟨?_, h1.2⟩
        rw [h1.1, hkeep s x s1 x1 hb]

/-- What `fireRocket` does to the game: one point less when it fires. -/
theorem fireRocket_game (game : Game) (p : PlayState) (now : ℚ) :
    (p.fireRocket game now).1 =
      { game with score := game.score - (if p.canFire game now then 1 else 0) } := by
  unfold PlayState.fireRocket
  split <;> simp

/-- The rocket/invader pass adds `pointsPerInvader` per invader it removes. -/
theorem rocketInvader_account (config : Config) (rockets : List Rocket) (score : ℚ)
    (invaders : List Invader) :
    (rocketInvaderCollisions config rockets score invaders).1.2 =
      score + config.pointsPerInvader *
        ((invaders.length - (rocketInvaderCollisions config rockets score invaders).2.length : Nat) : ℚ) := by
  have h := forSplice_account (rocketInvaderBody config) (fun s => s.2) config.pointsPerInvader
    (by
      intro s x s1 x1 hb
      unfold rocketInvaderBody at hb
      split at hb <;> simp at hb
      obtain ⟨rfl, -, -⟩ := hb
      rfl)
    (by
      intro s x s1 x1 hb
      unfold rocketInvaderBody at hb
      split at hb <;> simp at hb
      obtain ⟨rfl, -⟩ := hb
      rfl)
    invaders.length 0 (rockets, score) invaders
  unfold rocketInvaderCollisions
  obtain ⟨h1, h2⟩ := h
  rw [Nat.cast_sub h2]
  simp only at h1
  linarith

/-- The bomb/wall pass takes 5 points per bomb it removes. -/
theorem bombWall_account (wallBlocks : List Wall) (score : ℚ) (bombs : List Bomb) :
    (bombWallCollisions wallBlocks score bombs).1 =
      score - 5 * ((bombs.length - (bombWallCollisions wallBlocks score bombs).2.length : Nat) : ℚ) := by
  have h := forSplice_account (bombWallBody wallBlocks) id (-5)
    (by
      intro s x s1 x1 hb
      unfold bombWallBody at hb
      split at hb <;> simp at hb
      obtain ⟨rfl, -⟩ := hb
      simp only [id]; ring)
    (by
      intro s x s1 x1 hb
      unfold bombWallBody at hb
      split at hb <;> simp at hb
      obtain ⟨rfl, -⟩ := hb
      rfl)
    bombs.length 0 score bombs
  unfold bombWallCollisions
  obtain ⟨h1, h2⟩ := h
  rw [Nat.cast_sub h2]
  simp only [id] at h1
  linarith

theorem control_game (game : Game) (p : PlayState) (dt now : ℚ) :
    (p.control game dt now).1.level = game.level ∧
    (p.control game dt now).1.config = game.config ∧
    (p.control game dt now).1.stateStack = game.stateStack ∧
    (p.control game dt now).1.score = game.score - (if (p.control game dt now).2.2 then 1 else 0) := by
  unfold PlayState.control
  simp only []
  by_cases h32 : 32 ∈ game.pressedKeys
  · simp only [h32, if_true, fireRocket_game, decide_True, Bool.true_and]
    simp
  · simp [h32]

theorem collide_game (game : Game) (p : PlayState) (dt : ℚ) (rnd : Nat → ℚ) (fired : Bool) :
    (p.collide game dt rnd fired).1.level = game.level ∧
    (p.collide game dt rnd fired).1.config = game.config ∧
    (p.collide game dt rnd fired).1.stateStack = game.stateStack ∧
    (p.collide game dt rnd fired).2.2.fired = fired ∧
    (p.collide game dt rnd fired).1.score = game.score
        + game.config.pointsPerInvader * ((p.collide game dt rnd fired).2.2.invadersRemoved : ℚ)
        - 5 * ((p.collide game dt rnd fired).2.2.bombsWalled : ℚ) := by
  unfold PlayState.collide
  simp only []
  refine ⟨trivial, trivial, trivial, trivial, ?_⟩
  rw [bombWall_account, rocketInvader_account]

theorem simulate_spec (game : Game) (p : PlayState) (dt now : ℚ) (rnd : Nat → ℚ)
    (out : Game × PlayState × TickReport)
    (h : p.simulate game dt now rnd = some out) :
    out.1.level = game.level ∧ out.1.config = game.config ∧
      out.1.stateStack = game.stateStack ∧
      out.1.score = game.score - (if out.2.2.fired then 1 else 0)
        + game.config.pointsPerInvader * (out.2.2.invadersRemoved : ℚ)
        - 5 * (out.2.2.bombsWalled : ℚ) := by
  unfold PlayState.simulate at h
  simp only [] at h
  split at h
  · cases h
  · rename_i p4 hp4
    simp only [Option.some.injEq] at h
    have hc := control_game game p dt now
    have hd := collide_game (p.control game dt now).1 p4 dt rnd (p.control game dt now).2.2
    rw [h] at hd
    obtain ⟨h1, h2, h3, h4, h5⟩ := hd
    obtain ⟨c1, c2, c3, c4⟩ := hc
    refine ⟨by rw [h1, c1], by rw [h2, c2], by rw [h3, c3], ?_⟩
    rw [h5, c4, h4, c2]

/-! ## Facts about the state stack -/

theorem moveToState_fields (g : Game) (ns : NewState) :
    (g.moveToState ns).level = g.level ∧ (g.moveToState ns).score = g.score ∧
    (g.moveToState ns).config = g.config ∧ (g.moveToState ns).lives = g.lives := by
  unfold Game.moveToState Game.push Game.pop
  simp only []
  cases g.currentState with
  | none => simp
  | some cur => cases h : cur.hasLeave <;> simp [h]

theorem setCurrent_fields (g : Game) (s : State) :
    (g.setCurrent s).level = g.level ∧ (g.setCurrent s).score = g.score ∧
    (g.setCurrent s).config = g.config ∧ (g.setCurrent s).lives = g.lives := by
  unfold Game.setCurrent
  cases g.stateStack <;> simp

theorem moveToState_currentState (g : Game) (ns : NewState) :
    ∃ g1 : Game, g1.config = g.config ∧ g1.width = g.width ∧ g1.gameBounds = g.gameBounds ∧
      (g.moveToState ns).currentState = some (ns.entered g1) := by
  unfold Game.moveToState Game.push Game.pop Game.currentState
  simp only []
  cases g.stateStack.getLast? with
  | none => exact ⟨g, rfl, rfl, rfl, by simp⟩
  | some cur =>
    cases h : cur.hasLeave
    · exact ⟨g, rfl, rfl, rfl, by simp [h]⟩
    · exact ⟨{ g with stateStack := g.stateStack.dropLast }, rfl, rfl, rfl, by simp [h]⟩

/-- When the current state has no `leave`, `moveToState` replaces the top entry. -/
theorem moveToState_stack (g : Game) (ns : NewState)
    (h : ∀ cur, g.currentState = some cur → cur.hasLeave = false) :
    (g.moveToState ns).stateStack = g.stateStack.dropLast ++ [ns.entered g] := by
  unfold Game.moveToState Game.push Game.pop
  simp only []
  cases hc : g.currentState with
  | none => simp
  | some cur => simp [h cur hc]

theorem checkFailure_fields (g : Game) (p : PlayState) :
    (p.checkFailure g).level = g.level ∧ (p.checkFailure g).score = g.score ∧
    (p.checkFailure g).config = g.config ∧ (p.checkFailure g).lives = g.lives := by
  unfold PlayState.checkFailure
  split
  · exact moveToState_fields g _
  · exact ⟨rfl, rfl, rfl, rfl⟩

theorem checkVictory_of_ge (g : Game) (h : 100 ≤ g.score) :
    (PlayState.checkVictory g).level = g.level + 1 ∧
    (PlayState.checkVictory g).score = (if g.level + 1 ≤ 9 then 50 - 5 * ((g.level + 1 : Int) : ℚ) else 5) ∧
    (PlayState.checkVictory g).currentState = some (.levelIntro (g.level + 1) none "3") := by
  unfold PlayState.checkVictory
  simp only [h, if_true]
  refine ⟨?_, ?_, ?_⟩
  · rw [(moveToState_fields _ _).1]
  · rw [(moveToState_fields _ _).2.1]
  · obtain ⟨g1, -, -, -, hcur⟩ := moveToState_currentState
      { g with
        level := g.level + 1
        score := if g.level + 1 ≤ 9 then 50 - 5 * ((g.level + 1 : Int) : ℚ) else 5
        config := { g.config with shipspeed := addNum g.config.shipspeed 8 } }
      (.levelIntro (g.level + 1))
    rw [hcur]; rfl

theorem checkVictory_of_lt (g : Game) (h : g.score < 100) : PlayState.checkVictory g = g := by
  unfold PlayState.checkVictory
  simp [not_le.mpr h]

/-- The game that reaches the failure check of an update. -/
theorem update_eq (game : Game) (p : PlayState) (dt now : ℚ) (rnd : Nat → ℚ)
    (out : Game × PlayState × TickReport)
    (hsim : p.simulate game dt now rnd = some out) :
    p.update game dt now rnd =
      some (PlayState.checkVictory (out.2.1.checkFailure (out.1.setCurrent (.play out.2.1)))) := by
  unfold PlayState.update
  rw [hsim]

/-- C2 (victory transition). For every Play update whose end-of-tick evaluation
finds `score >= 100`, whatever the invader list, the update returns a game
whose level is the old level plus one and whose current state is a fresh
LevelIntro state holding that new level. -/
theorem victory_transition (game : Game) (p : PlayState) (dt now : ℚ) (rnd : Nat → ℚ)
    (out : Game × PlayState × TickReport)
    (hsim : p.simulate game dt now rnd = some out)
    (hscore : 100 ≤ out.1.score) :
    ∃ g2, p.update game dt now rnd = some g2 ∧ g2.level = game.level + 1 ∧
      g2.currentState = some (.levelIntro (game.level + 1) none "3") := by
  refine ⟨_, update_eq game p dt now rnd out hsim, ?_⟩
  have hs := simulate_spec game p dt now rnd out hsim
  have hf := checkFailure_fields (out.1.setCurrent (.play out.2.1)) out.2.1
  have hc := setCurrent_fields out.1 (.play out.2.1)
  have hge : 100 ≤ (out.2.1.checkFailure (out.1.setCurrent (.play out.2.1))).score := by
    rw [hf.2.1, hc.2.1]; exact hscore
  have hv := checkVictory_of_ge _ hge
  have hl : (out.2.1.checkFailure (out.1.setCurrent (.play out.2.1))).level = game.level := by
    rw [hf.1, hc.1, hs.1]
  rw [hl] at hv
  exact ⟨hv.1, hv.2.2⟩

/-- C2 witness: the update of `lastKillGame` ends with score 100 and no invader
left, and moves to LevelIntro for level 2. -/
theorem victory_transition_witness :
    samplePlay.simulate lastKillGame (1 / 50) 0 (fun _ => 1) = some lastKillOutcome ∧
    100 ≤ lastKillOutcome.1.score ∧ lastKillOutcome.2.1.invaders = [] ∧
    ∃ g2, samplePlay.update lastKillGame (1 / 50) 0 (fun _ => 1) = some g2 ∧
      g2.level = lastKillGame.level + 1 ∧
      g2.currentState = some (.levelIntro (lastKillGame.level + 1) none "3") :=
  ⟨by decide!, by decide!, by decide!,
    victory_transition lastKillGame samplePlay (1 / 50) 0 (fun _ => 1) lastKillOutcome
      (by decide!) (by decide!)⟩

/-! ## End-of-tick evaluation -/

/-- The failure statement of the code, read on the stack: when a Play state is
current, GameOver is current after the statement exactly if `score <= 0`, or
`score < 100` with no invader left, or `5 * (invaders left) <= 100 - score`. -/
theorem checkFailure_iff (g : Game) (p p1 : PlayState) (h : g.currentState = some (.play p)) :
    (p1.checkFailure g).currentState = some .gameOver ↔
      (g.score ≤ 0 ∨ (g.score < 100 ∧ p1.invaders.length = 0) ∨
        (p1.invaders.length : ℚ) * 5 ≤ 100 - g.score) := by
  unfold PlayState.checkFailure PlayState.failure
  constructor
  · intro hc
    by_contra hn
    simp only [not_or] at hn
    have : (decide (g.score ≤ 0) || (decide (g.score < 100) && decide (p1.invaders.length = 0)) ||
        decide (((p1.invaders.length : ℚ)) * 5 ≤ 100 - g.score)) = false := by
      simp only [Bool.or_eq_false_iff, Bool.and_eq_false_iff, decide_eq_false_iff_not]
      refine ⟨⟨hn.1, ?_⟩, hn.2.2⟩
      by_cases hs : g.score < 100
      · right; intro h0; exact hn.2.1 ⟨hs, h0⟩
      · left; exact hs
    rw [this] at hc
    simp only [Bool.false_eq_true, if_false] at hc
    rw [h] at hc
    cases hc
  · intro hc
    have : (decide (g.score ≤ 0) || (decide (g.score < 100) && decide (p1.invaders.length = 0)) ||
        decide (((p1.invaders.length : ℚ)) * 5 ≤ 100 - g.score)) = true := by
      simp only [Bool.or_eq_true, Bool.and_eq_true, decide_eq_true_eq]
      rcases hc with h1 | h2 | h3
      · exact Or.inl (Or.inl h1)
      · exact Or.inl (Or.inr h2)
      · exact Or.inr h3
    rw [this]
    simp only [if_true]
    obtain ⟨g1, -, -, -, hcur⟩ := moveToState_currentState g .gameOver
    rw [hcur]; rfl

/-- The failure condition and the victory condition hold together exactly when
the score is 100 and no invader is left. -/
theorem failure_and_victory_iff (g : Game) (p : PlayState) :
    (p.failure g = true ∧ 100 ≤ g.score) ↔ (g.score = 100 ∧ p.invaders.length = 0) := by
  unfold PlayState.failure
  simp only [Bool.or_eq_true, Bool.and_eq_true, decide_eq_true_eq]
  constructor
  · rintro ⟨hf, hv⟩
    have hn : (0 : ℚ) ≤ (p.invaders.length : ℚ) := Nat.cast_nonneg _
    rcases hf with (h1 | ⟨h2, -⟩) | h3
    · linarith
    · linarith
    · have h100 : g.score = 100 := by linarith
      refine ⟨h100, ?_⟩
      have : (p.invaders.length : ℚ) ≤ 0 := by linarith
      have h0 : (p.invaders.length : ℚ) = 0 := le_antisymm this hn
      exact_mod_cast h0
  · rintro ⟨hs, hn⟩
    refine ⟨Or.inr ?_, by rw [hs]⟩
    rw [hs, hn]
    norm_num

/-- C1 (end-of-tick failure rule), on the code: with `pointsPerInvader = 10`,
score 60 and five invaders left after the collision passes, the rule of the
specification does not hold (5 x 10 = 50 > 40 points needed), yet the update
performs the transition to GameOver, because the failure statement multiplies
the number of invaders by the literal 5 (25 <= 40). -/
theorem failure_rule_literal_five :
    fivePlay.simulate tenPointGame (1 / 50) 0 (fun _ => 1) = some tenPointOutcome ∧
    tenPointOutcome.1.score = 60 ∧ tenPointOutcome.2.1.invaders.length = 5 ∧
    tenPointGame.config.pointsPerInvader = 10 ∧
    failureRuleSpec tenPointGame.config tenPointOutcome.1.score
      tenPointOutcome.2.1.invaders.length = false ∧
    tenPointOutcome.2.1.failure tenPointOutcome.1 = true ∧
    (fivePlay.update tenPointGame (1 / 50) 0 (fun _ => 1)).map Game.currentState
      = some (some State.gameOver) := by
  refine ⟨?_, ?_, ?_, ?_, ?_, ?_, ?_⟩ <;> decide!

/-- C3 (victory and failure in one tick), on the code: in the update of
`lastKillGame` the collision passes end with score 100 and no invader, so the
failure condition holds (0 * 5 <= 100 - 100) and the victory condition holds
too; the failure statement moves to GameOver, and the victory statement then
advances the level, rebases the score and moves on to LevelIntro. -/
theorem failure_and_victory_same_tick :
    samplePlay.simulate lastKillGame (1 / 50) 0 (fun _ => 1) = some lastKillOutcome ∧
    lastKillOutcome.1.score = 100 ∧ lastKillOutcome.2.1.invaders = [] ∧
    lastKillOutcome.2.1.failure lastKillOutcome.1 = true ∧
    (lastKillOutcome.2.1.checkFailure
        (lastKillOutcome.1.setCurrent (.play lastKillOutcome.2.1))).currentState
      = some State.gameOver ∧
    (samplePlay.update lastKillGame (1 / 50) 0 (fun _ => 1)).map
        (fun g => (g.currentState, g.level, g.score))
      = some (some (State.levelIntro 2 none "3"), 2, 40) := by
  refine ⟨?_, ?_, ?_, ?_, ?_, ?_⟩ <;> decide!

/-- C4 (invader on the ship), on the code: in the update of `rammedGame` the
invader overlaps the ship after movement and `lives` is set to 0, but the
session does not end: the failure statement does not read `lives`, and the
Play state is still the current state after the update. -/
theorem invader_ship_collision_no_game_over :
    rammedPlay.simulate rammedGame (1 / 50) 0 (fun _ => 1) = some rammedOutcome ∧
    rammedOutcome.2.1.invaders.any (invaderHitsShip rammedOutcome.2.1.ship) = true ∧
    rammedGame.lives = 3 ∧ rammedOutcome.1.lives = 0 ∧
    rammedPlay.update rammedGame (1 / 50) 0 (fun _ => 1)
      = some (rammedOutcome.1.setCurrent (.play rammedOutcome.2.1)) ∧
    (rammedOutcome.1.setCurrent (.play rammedOutcome.2.1)).stateStack
      = [State.play rammedOutcome.2.1] ∧
    (rammedPlay.update rammedGame (1 / 50) 0 (fun _ => 1)).map Game.currentState
      ≠ some (some State.gameOver) := by
  refine ⟨?_, ?_, ?_, ?_, ?_, ?_, ?_⟩ <;> decide!

/-- C6 (`moveToState` replaces), on the code: when the current state has a
`leave` procedure and another state lies beneath it, `moveToState` pops twice:
from the stack [Welcome, S] it leaves [GameOver], one entry instead of two,
and the Welcome entry beneath the old top is gone. -/
theorem moveToState_pops_twice :
    ({ sampleGame with stateStack := [.welcome, .gameState false false false true] }.moveToState
        .gameOver).stateStack = [State.gameOver] := by
  decide!

/-- C5 (level-transition formula), amended: for every victory tick, with L the
level at the start of the tick, the score after the update is computed from
the level just advanced to: it equals `50 - 5 * (L + 1)` when `L + 1 <= 9` and
the fixed floor 5 when `L + 1 > 9`. -/
theorem victory_rebase (game : Game) (p : PlayState) (dt now : ℚ) (rnd : Nat → ℚ)
    (out : Game × PlayState × TickReport)
    (hsim : p.simulate game dt now rnd = some out)
    (hscore : 100 ≤ out.1.score) :
    ∃ g2, p.update game dt now rnd = some g2 ∧
      g2.score = if game.level + 1 ≤ 9 then 50 - 5 * (((game.level + 1 : Int)) : ℚ) else 5 := by
  refine ⟨_, update_eq game p dt now rnd out hsim, ?_⟩
  have hs := simulate_spec game p dt now rnd out hsim
  have hf := checkFailure_fields (out.1.setCurrent (.play out.2.1)) out.2.1
  have hc := setCurrent_fields out.1 (.play out.2.1)
  have hge : 100 ≤ (out.2.1.checkFailure (out.1.setCurrent (.play out.2.1))).score := by
    rw [hf.2.1, hc.2.1]; exact hscore
  have hv := checkVictory_of_ge _ hge
  have hl : (out.2.1.checkFailure (out.1.setCurrent (.play out.2.1))).level = game.level := by
    rw [hf.1, hc.1, hs.1]
  rw [hl] at hv
  exact hv.2.1

/-- C5 witness: the victory at level 1 in `lastKillGame` leaves the score at
`50 - 5 * 2 = 40`. -/
theorem victory_rebase_witness :
    samplePlay.simulate lastKillGame (1 / 50) 0 (fun _ => 1) = some lastKillOutcome ∧
    100 ≤ lastKillOutcome.1.score ∧
    ∃ g2, samplePlay.update lastKillGame (1 / 50) 0 (fun _ => 1) = some g2 ∧
      g2.score = if lastKillGame.level + 1 ≤ 9
        then 50 - 5 * (((lastKillGame.level + 1 : Int)) : ℚ) else 5 :=
  ⟨by decide!, by decide!,
    victory_rebase lastKillGame samplePlay (1 / 50) 0 (fun _ => 1) lastKillOutcome
      (by decide!) (by decide!)⟩

/-- C5 as stated fails: it is not the case that every victory tick at a level L
with `1 <= L <= 9` leaves the score at `50 - 5 * L` (and at 5 for `L > 9`);
the victory at level 1 in `lastKillGame` leaves 40, not 45. -/
theorem old_level_formula_fails :
    ¬ ∀ (game : Game) (p : PlayState) (dt now : ℚ) (rnd : Nat → ℚ)
        (out : Game × PlayState × TickReport) (g2 : Game),
        p.simulate game dt now rnd = some out → 100 ≤ out.1.score →
        p.update game dt now rnd = some g2 →
        (1 ≤ game.level ∧ game.level ≤ 9 → g2.score = 50 - 5 * (game.level : ℚ)) ∧
        (9 < game.level → g2.score = 5) := by
  intro h
  have hu : samplePlay.update lastKillGame (1 / 50) 0 (fun _ => 1) =
      some ((samplePlay.update lastKillGame (1 / 50) 0 (fun _ => 1)).getD lastKillGame) := by
    decide!
  have h1 := (h lastKillGame samplePlay (1 / 50) 0 (fun _ => 1) lastKillOutcome _
    (by decide!) (by decide!) hu).1 (by decide)
  have h2 : ((samplePlay.update lastKillGame (1 / 50) 0 (fun _ => 1)).getD lastKillGame).score
      = 40 := by decide!
  rw [h2] at h1
  have h3 : lastKillGame.level = 1 := rfl
  rw [h3] at h1
  norm_num at h1

/-- C7 (pause round trip). For every game whose current state is a Play state
`p`: `keyDown(80)` pushes Pause on top of the unchanged stack, so the Play
state lies directly beneath it; a second `keyDown(80)` pops it, and the stack
is exactly the previous one, with the same Play state (all its fields, since
it is the same value `p`) current again, and score, lives and level unchanged. -/
theorem pause_round_trip (g : Game) (p : PlayState) (now1 now2 : ℚ)
    (h : g.currentState = some (.play p)) :
    (g.keyDown 80 now1).stateStack = g.stateStack ++ [.pause] ∧
    (g.keyDown 80 now1).currentState = some .pause ∧
    (g.keyDown 80 now1).stateStack.dropLast.getLast? = some (.play p) ∧
    ((g.keyDown 80 now1).keyDown 80 now2).stateStack = g.stateStack ∧
    ((g.keyDown 80 now1).keyDown 80 now2).currentState = some (.play p) ∧
    ((g.keyDown 80 now1).keyDown 80 now2).score = g.score ∧
    ((g.keyDown 80 now1).keyDown 80 now2).lives = g.lives ∧
    ((g.keyDown 80 now1).keyDown 80 now2).level = g.level := by
  have hstack : g.stateStack.dropLast ++ [.play p] = g.stateStack := by
    unfold Game.currentState at h
    exact List.dropLast_append_getLast? (State.play p) (by simpa using h)
  have hne : g.stateStack ≠ [] := by
    intro h0
    unfold Game.currentState at h
    rw [h0] at h
    cases h
  have h1 : g.keyDown 80 now1 =
      { g with
        pressedKeys := if 80 ∈ g.pressedKeys then g.pressedKeys else g.pressedKeys ++ [80]
        stateStack := g.stateStack ++ [.pause] } := by
    unfold Game.keyDown
    simp only []
    have hc : Game.currentState { g with
        pressedKeys := if 80 ∈ g.pressedKeys then g.pressedKeys else g.pressedKeys ++ [80] }
        = some (.play p) := h
    rw [hc]
    simp only [PlayState.keyDown, Game.setCurrent, Game.pushState, Game.push, NewState.entered]
    cases hs : g.stateStack with
    | nil => exact absurd hs hne
    | cons a l =>
      rw [hs] at hstack
      simp [hstack]
  have h2 : (g.keyDown 80 now1).keyDown 80 now2 =
      { g with
        pressedKeys := if 80 ∈ g.pressedKeys then g.pressedKeys else g.pressedKeys ++ [80] } := by
    have hmem : 80 ∈ (if 80 ∈ g.pressedKeys then g.pressedKeys else g.pressedKeys ++ [80]) := by
      split <;> simp [*]
    rw [h1]
    unfold Game.keyDown
    simp [PauseState.keyDown, Game.popState, Game.pop, Game.currentState, hmem]
  rw [h2, h1]
  refine ⟨rfl, ?_, ?_, rfl, h, rfl, rfl, rfl⟩
  · simp [Game.currentState]
  · simpa [Game.currentState] using h

/-- C7 witness: the round trip in `lastKillGame`, whose current state is `samplePlay`. -/
theorem pause_round_trip_witness :
    lastKillGame.currentState = some (.play samplePlay) ∧
    (lastKillGame.keyDown 80 0).stateStack = lastKillGame.stateStack ++ [.pause] ∧
    (lastKillGame.keyDown 80 0).currentState = some .pause ∧
    (lastKillGame.keyDown 80 0).stateStack.dropLast.getLast? = some (.play samplePlay) ∧
    ((lastKillGame.keyDown 80 0).keyDown 80 1).stateStack = lastKillGame.stateStack ∧
    ((lastKillGame.keyDown 80 0).keyDown 80 1).currentState = some (.play samplePlay) ∧
    ((lastKillGame.keyDown 80 0).keyDown 80 1).score = lastKillGame.score ∧
    ((lastKillGame.keyDown 80 0).keyDown 80 1).lives = lastKillGame.lives ∧
    ((lastKillGame.keyDown 80 0).keyDown 80 1).level = lastKillGame.level :=
  ⟨by decide!, pause_round_trip lastKillGame samplePlay 0 1 (by decide!)⟩

/-! ## The level intro -/

theorem setCurrent_currentState (g : Game) (s : State) (h : g.stateStack ≠ []) :
    (g.setCurrent s).currentState = some s := by
  unfold Game.setCurrent Game.currentState
  cases hs : g.stateStack with
  | nil => exact absurd hs h
  | cons a l => simp

theorem stack_ne_nil_of_current (g : Game) (s : State) (h : g.currentState = some s) :
    g.stateStack ≠ [] := by
  intro h0
  unfold Game.currentState at h
  rw [h0] at h
  cases h

theorem enter_congr (g1 g2 : Game) (L : Int) (hc : g1.config = g2.config)
    (hw : g1.width = g2.width) (hb : g1.gameBounds = g2.gameBounds) :
    PlayState.enter g1 L = PlayState.enter g2 L := by
  unfold PlayState.enter
  simp only [hc, hw, hb]

/-- An update of a LevelIntro state that leaves a countdown above 1. -/
theorem levelIntro_update_stay (g : Game) (L : Int) (c : Option ℚ) (m : String) (dt : ℚ)
    (hrem : 1 < fl (c.getD 3 - dt)) :
    ∃ m1, LevelIntroState.update g L c m dt =
      g.setCurrent (.levelIntro L (some (fl (c.getD 3 - dt))) m1) := by
  unfold LevelIntroState.update
  simp only [not_le.mpr hrem, if_false]
  exact ⟨_, rfl⟩

theorem levelIntro_update_leave (g : Game) (L : Int) (c : Option ℚ) (m : String) (dt : ℚ)
    (hrem : fl (c.getD 3 - dt) ≤ 1) :
    ∃ m1, LevelIntroState.update g L c m dt =
      (g.setCurrent (.levelIntro L (some (fl (c.getD 3 - dt))) m1)).moveToState (.play L) := by
  unfold LevelIntroState.update
  simp only [hrem, if_true]
  exact ⟨_, rfl⟩

theorem setCurrent_geometry (g : Game) (s : State) :
    (g.setCurrent s).config = g.config ∧ (g.setCurrent s).width = g.width ∧
      (g.setCurrent s).gameBounds = g.gameBounds := by
  unfold Game.setCurrent
  cases g.stateStack <;> exact ⟨rfl, rfl, rfl⟩

theorem setCurrent_stack (g : Game) (s : State) (h : g.stateStack ≠ []) :
    (g.setCurrent s).stateStack = g.stateStack.dropLast ++ [s] := by
  unfold Game.setCurrent
  cases hs : g.stateStack with
  | nil => exact absurd hs h
  | cons a rest => rfl

/-- One tick of a LevelIntro state whose countdown stays above 1. -/
theorem levelIntro_tick_stay (g : Game) (L : Int) (c : Option ℚ) (m : String) (i : TickInput)
    (hcur : g.currentState = some (.levelIntro L c m)) (hrem : 1 < fl (c.getD 3 - i.dt)) :
    ∃ g1 m1, GameLoop g i.dt i.now i.rnd = some g1 ∧
      g1.currentState = some (.levelIntro L (some (fl (c.getD 3 - i.dt))) m1) ∧
      g1.config = g.config ∧ g1.width = g.width ∧ g1.gameBounds = g.gameBounds ∧
      g1.stateStack.dropLast = g.stateStack.dropLast := by
  have hne := stack_ne_nil_of_current g _ hcur
  obtain ⟨m1, hu⟩ := levelIntro_update_stay g L c m i.dt hrem
  have hgeo := setCurrent_geometry g (.levelIntro L (some (fl (c.getD 3 - i.dt))) m1)
  have hst := setCurrent_stack g (.levelIntro L (some (fl (c.getD 3 - i.dt))) m1) hne
  unfold GameLoop
  rw [hcur]
  simp only [hu]
  refine ⟨_, m1, rfl, ?_, hgeo.1, hgeo.2.1, hgeo.2.2, ?_⟩
  · exact setCurrent_currentState g _ hne
  · show (g.setCurrent _).stateStack.dropLast = _
    rw [hst, List.dropLast_concat]

/-- One tick of a LevelIntro state whose countdown reaches 1 or less: the Play
state entered for the level takes its place on the stack. -/
theorem levelIntro_tick_leave (g : Game) (L : Int) (c : Option ℚ) (m : String) (i : TickInput)
    (hcur : g.currentState = some (.levelIntro L c m)) (hrem : fl (c.getD 3 - i.dt) ≤ 1) :
    ∃ g1, GameLoop g i.dt i.now i.rnd = some g1 ∧
      g1.currentState = some (.play (PlayState.enter g L)) ∧
      g1.stateStack = g.stateStack.dropLast ++ [.play (PlayState.enter g L)] := by
  have hne := stack_ne_nil_of_current g _ hcur
  obtain ⟨m1, hu⟩ := levelIntro_update_leave g L c m i.dt hrem
  have hgeo := setCurrent_geometry g (.levelIntro L (some (fl (c.getD 3 - i.dt))) m1)
  have hst := setCurrent_stack g (.levelIntro L (some (fl (c.getD 3 - i.dt))) m1) hne
  have hcs := setCurrent_currentState g (.levelIntro L (some (fl (c.getD 3 - i.dt))) m1) hne
  have hms := moveToState_stack
    (g.setCurrent (.levelIntro L (some (fl (c.getD 3 - i.dt))) m1)) (.play L)
    (fun cur hc => by rw [hcs] at hc; cases hc; rfl)
  have hent : PlayState.enter
      (g.setCurrent (.levelIntro L (some (fl (c.getD 3 - i.dt))) m1)) L
        = PlayState.enter g L := enter_congr _ _ _ hgeo.1 hgeo.2.1 hgeo.2.2
  have hstack : ((g.setCurrent (.levelIntro L (some (fl (c.getD 3 - i.dt))) m1)).moveToState
      (.play L)).stateStack = g.stateStack.dropLast ++ [.play (PlayState.enter g L)] := by
    rw [hms, hst, List.dropLast_concat]
    simp only [NewState.entered, hent]
  unfold GameLoop
  rw [hcur]
  simp only [hu]
  refine ⟨_, rfl, ?_, ?_⟩
  · show Game.currentState ((g.setCurrent _).moveToState (.play L)) = _
    unfold Game.currentState
    rw [hstack, List.getLast?_concat]
  · exact hstack

theorem countdownFrom_append (a b : List ℚ) :
    ∀ c : ℚ, countdownFrom c (a ++ b) = countdownFrom (countdownFrom c a) b := by
  induction a with
  | nil => intro c; rfl
  | cons dt rest ih => intro c; exact ih (fl (c - dt))

/-- The countdown is the remaining time when no subtraction is rounded. -/
theorem countdownFrom_exact :
    ∀ (dts : List ℚ) (c : ℚ),
      (∀ k, 1 ≤ k → k ≤ dts.length → fl (c - (dts.take k).sum) = c - (dts.take k).sum) →
      countdownFrom c dts = c - dts.sum := by
  intro dts
  induction dts with
  | nil => intro c _; simp [countdownFrom]
  | cons dt rest ih =>
    intro c h
    have h1 := h 1 (le_refl 1) (by simp)
    simp only [List.take_succ_cons, List.take_zero, List.sum_cons, List.sum_nil, add_zero] at h1
    simp only [countdownFrom, h1]
    rw [ih (c - dt)]
    · simp only [List.sum_cons]; ring
    · intro k hk1 hk
      have := h (k + 1) (by omega) (by simpa using hk)
      simp only [List.take_succ_cons, List.sum_cons] at this
      rw [sub_sub]
      exact this

/-- A run of ticks along which the countdown stays above 1. -/
theorem levelIntro_run (L : Int) :
    ∀ (ticks : List TickInput) (g : Game) (c : Option ℚ) (m : String),
      g.currentState = some (.levelIntro L c m) →
      (∀ k, 1 ≤ k → k ≤ ticks.length →
        1 < countdownFrom (c.getD 3) ((ticks.take k).map TickInput.dt)) →
      ∃ g1 c1 m1, runTicks g ticks = some g1 ∧
        g1.currentState = some (.levelIntro L c1 m1) ∧
        c1.getD 3 = countdownFrom (c.getD 3) (ticks.map TickInput.dt) ∧
        g1.config = g.config ∧ g1.width = g.width ∧ g1.gameBounds = g.gameBounds ∧
        g1.stateStack.dropLast = g.stateStack.dropLast := by
  intro ticks
  induction ticks with
  | nil =>
    intro g c m hcur _
    exact ⟨g, c, m, rfl, hcur, rfl, rfl, rfl, rfl, rfl⟩
  | cons i rest ih =>
    intro g c m hcur habove
    have h1 := habove 1 (le_refl 1) (by simp)
    simp only [List.take_succ_cons, List.take_zero, List.map_cons, List.map_nil,
      countdownFrom] at h1
    obtain ⟨g1, m1, hg1, hcur1, hcfg, hw, hb, hs⟩ := levelIntro_tick_stay g L c m i hcur h1
    obtain ⟨g2, c2, m2, hrun, hcur2, hc2, hcfg2, hw2, hb2, hs2⟩ :=
      ih g1 (some (fl (c.getD 3 - i.dt))) m1 hcur1
        (fun k hk1 hk => by
          have := habove (k + 1) (by omega) (by simpa using hk)
          simpa only [List.take_succ_cons, List.map_cons, countdownFrom, Option.getD_some]
            using this)
    refine ⟨g2, c2, m2, ?_, hcur2, ?_, hcfg2.trans hcfg, hw2.trans hw, hb2.trans hb,
      hs2.trans hs⟩
    · simp only [runTicks, hg1, hrun]
    · rw [hc2]; simp only [Option.getD_some, List.map_cons, countdownFrom]

theorem runTicks_append (a b : List TickInput) :
    ∀ g : Game, runTicks g (a ++ b) = (runTicks g a).bind fun g1 => runTicks g1 b := by
  induction a with
  | nil => intro g; rfl
  | cons i rest ih =>
    intro g
    simp only [List.cons_append, runTicks]
    cases GameLoop g i.dt i.now i.rnd with
    | none => rfl
    | some g1 => exact ih g1

/-- C8 (LevelIntro countdown), amended. Let a fresh LevelIntro state for level
`L` be current.  Its countdown starts at 3 and every update subtracts its `dt`
in double precision (`countdownFrom`: each difference is rounded).  For every
sequence of ticks after each of which the countdown so computed is above 1,
followed by a tick that brings it to 1 or less: after each tick of the
sequence the LevelIntro state for `L` is still current and holds that
countdown, and the last tick replaces it, on the state stack, with the Play
state entered for the same level `L`.  Where no subtraction is rounded the
countdown is the remaining time `3 - (sum of dt)`.  With `dt` the double
`1 / 50` of the default settings LevelIntro is still current after 99 updates
and Play is current after the 100th. -/
theorem levelIntro_countdown (g : Game) (L : Int)
    (hcur : g.currentState = some (.levelIntro L none "3")) :
    (∀ (ticks : List TickInput) (last : TickInput),
      (∀ k, k ≤ ticks.length → 1 < countdownFrom 3 ((ticks.take k).map TickInput.dt)) →
      countdownFrom 3 ((ticks ++ [last]).map TickInput.dt) ≤ 1 →
      (∀ k, k ≤ ticks.length → ∃ g1 c1 m1, runTicks g (ticks.take k) = some g1 ∧
        g1.currentState = some (.levelIntro L c1 m1) ∧
        c1.getD 3 = countdownFrom 3 ((ticks.take k).map TickInput.dt)) ∧
      ∃ g2, runTicks g (ticks ++ [last]) = some g2 ∧
        g2.currentState = some (.play (PlayState.enter g L)) ∧
        g2.stateStack = g.stateStack.dropLast ++ [.play (PlayState.enter g L)]) ∧
    (∀ dts : List ℚ,
      (∀ k, 1 ≤ k → k ≤ dts.length → fl (3 - (dts.take k).sum) = 3 - (dts.take k).sum) →
      countdownFrom 3 dts = 3 - dts.sum) ∧
    (∀ t : TickInput, t.dt = frameTime Config.default →
      (∃ g1 c1 m1, runTicks g (List.replicate 99 t) = some g1 ∧
        g1.currentState = some (.levelIntro L c1 m1)) ∧
      ∃ g2, runTicks g (List.replicate 100 t) = some g2 ∧
        g2.currentState = some (.play (PlayState.enter g L)) ∧
        g2.stateStack = g.stateStack.dropLast ++ [.play (PlayState.enter g L)]) := by
  have main : ∀ (ticks : List TickInput) (last : TickInput),
      (∀ k, k ≤ ticks.length → 1 < countdownFrom 3 ((ticks.take k).map TickInput.dt)) →
      countdownFrom 3 ((ticks ++ [last]).map TickInput.dt) ≤ 1 →
      (∀ k, k ≤ ticks.length → ∃ g1 c1 m1, runTicks g (ticks.take k) = some g1 ∧
        g1.currentState = some (.levelIntro L c1 m1) ∧
        c1.getD 3 = countdownFrom 3 ((ticks.take k).map TickInput.dt)) ∧
      ∃ g2, runTicks g (ticks ++ [last]) = some g2 ∧
        g2.currentState = some (.play (PlayState.enter g L)) ∧
        g2.stateStack = g.stateStack.dropLast ++ [.play (PlayState.enter g L)] := by
    intro ticks last habove hlast
    constructor
    · intro k hk
      obtain ⟨g1, c1, m1, hrun, hc, hrem, -, -, -, -⟩ :=
        levelIntro_run L (ticks.take k) g none "3" hcur
          (fun j _ hj => by
            have hjk : j ≤ k := by
              rw [List.length_take] at hj
              exact le_trans hj (min_le_left _ _)
            rw [List.take_take, min_eq_left hjk]
            exact habove j (le_trans hjk hk))
      exact ⟨g1, c1, m1, hrun, hc, hrem⟩
    · obtain ⟨g1, c1, m1, hrun, hc, hrem, hcfg, hw, hb, hs⟩ :=
        levelIntro_run L ticks g none "3" hcur
          (fun j _ hj => habove j hj)
      simp only [Option.getD_none] at hrem
      rw [List.map_append, countdownFrom_append] at hlast
      simp only [List.map_cons, List.map_nil, countdownFrom] at hlast
      obtain ⟨g2, hg2, hcur2, hst2⟩ := levelIntro_tick_leave g1 L c1 m1 last hc
        (by rw [hrem]; exact hlast)
      refine ⟨g2, ?_, ?_, ?_⟩
      · rw [runTicks_append, hrun]
        simp only [Option.bind, runTicks, hg2]
      · rw [hcur2, enter_congr g1 g L hcfg hw hb]
      · rw [hst2, hs, enter_congr g1 g L hcfg hw hb]
  refine ⟨main, fun dts h => countdownFrom_exact dts 3 h, ?_⟩
  intro t ht
  have hm := main (List.replicate 99 t) t
    (fun k hk => by
      rw [List.length_replicate] at hk
      rw [List.take_replicate, min_eq_left hk, List.map_replicate, ht]
      revert k
      decide!)
    (by
      rw [← List.replicate_succ', List.map_replicate, ht]
      decide!)
  constructor
  · obtain ⟨g1, c1, m1, hrun, hc, -⟩ := hm.1 99 (by simp)
    rw [List.take_of_length_le (by simp)] at hrun
    exact ⟨g1, c1, m1, hrun, hc⟩
  · have h100 : List.replicate 100 t = List.replicate 99 t ++ [t] := by
      rw [← List.replicate_succ']
    rw [h100]
    exact hm.2

/-- C8 witness: `introGame`, whose current state is a fresh LevelIntro state for
level 1, run with the tick of the driver at the default settings. -/
theorem levelIntro_countdown_witness :
    introGame.currentState = some (.levelIntro 1 none "3") ∧
    (∃ g1 c1 m1, runTicks introGame (List.replicate 99 frameTick) = some g1 ∧
        g1.currentState = some (.levelIntro 1 c1 m1)) ∧
    ∃ g2, runTicks introGame (List.replicate 100 frameTick) = some g2 ∧
        g2.currentState = some (.play (PlayState.enter introGame 1)) ∧
        g2.stateStack = introGame.stateStack.dropLast ++ [.play (PlayState.enter introGame 1)] :=
  ⟨by decide!, (levelIntro_countdown introGame 1 (by decide!)).2.2 frameTick rfl⟩

/-- C8 as stated fails: at 20 frames per second `dt` is the double nearest to
`1 / 20`.  After 39 updates the remaining time `3 - 39 * dt` is above 1 and
after 40 it is not (also with `dt = 1 / 20` exactly), so the 40th update is
the first at which the remaining time is 1 or less; but the countdown that the
40 subtractions leave is `1 + 3 * 2 ^ (-50)`, and the LevelIntro state is
still current. -/
theorem countdown_real_time_fails :
    introGame.currentState = some (.levelIntro 1 none "3") ∧
    0 < slowTick.dt ∧ 1 < 3 - 39 * slowTick.dt ∧ 3 - 40 * slowTick.dt ≤ 1 ∧
    (1 : ℚ) < 3 - 39 * (1 / 20) ∧ (3 : ℚ) - 40 * (1 / 20) ≤ 1 ∧
    (runTicks introGame (List.replicate 40 slowTick)).bind Game.currentState
      = some (.levelIntro 1 (some (1 + 3 / 2 ^ 50)) "2") := by
  refine ⟨?_, ?_, ?_, ?_, ?_, ?_, ?_⟩ <;> decide!

/-! ## Score accounting -/

/-- An update that does not end in victory: the score and the settings after it. -/
theorem update_no_victory (game : Game) (p : PlayState) (dt now : ℚ) (rnd : Nat → ℚ)
    (out : Game × PlayState × TickReport)
    (hsim : p.simulate game dt now rnd = some out) (hno : out.1.score < 100) :
    ∃ g2, p.update game dt now rnd = some g2 ∧ g2.config = game.config ∧
      g2.score = game.score - (if out.2.2.fired then 1 else 0)
        + game.config.pointsPerInvader * (out.2.2.invadersRemoved : ℚ)
        - 5 * (out.2.2.bombsWalled : ℚ) := by
  refine ⟨_, update_eq game p dt now rnd out hsim, ?_⟩
  have hs := simulate_spec game p dt now rnd out hsim
  have hf := checkFailure_fields (out.1.setCurrent (.play out.2.1)) out.2.1
  have hc := setCurrent_fields out.1 (.play out.2.1)
  have hlt : (out.2.1.checkFailure (out.1.setCurrent (.play out.2.1))).score < 100 := by
    rw [hf.2.1, hc.2.1]; exact hno
  rw [checkVictory_of_lt _ hlt]
  exact ⟨by rw [hf.2.2.1, hc.2.2.1, hs.2.1], by rw [hf.2.1, hc.2.1, hs.2.2.2]⟩

/-- The score at the end of a run of Play updates without victory. -/
theorem playRun_score :
    ∀ (inputs : List TickInput) (g g2 : Game) (t : RunTotals),
      playRun g inputs = some (g2, t) →
      g2.config = g.config ∧
      g2.score = g.score - (t.shots : ℚ) + g.config.pointsPerInvader * (t.kills : ℚ)
        - 5 * (t.walled : ℚ) := by
  intro inputs
  induction inputs with
  | nil =>
    intro g g2 t h
    simp only [playRun, Option.some.injEq, Prod.mk.injEq] at h
    obtain ⟨rfl, rfl⟩ := h
    simp
  | cons i rest ih =>
    intro g g2 t h
    unfold playRun at h
    split at h
    · rename_i p hcur
      split at h
      · rename_i out g1 hsim hupd
        split at h
        · rename_i hno
          split at h
          · rename_i g3 t3 hrun
            simp only [Option.some.injEq, Prod.mk.injEq] at h
            obtain ⟨rfl, rfl⟩ := h
            obtain ⟨g1', hupd', hcfg, hscore⟩ := update_no_victory g p i.dt i.now i.rnd out hsim hno
            rw [hupd] at hupd'
            cases hupd'
            obtain ⟨hcfg3, hscore3⟩ := ih g1 g3 t3 hrun
            refine ⟨hcfg3.trans hcfg, ?_⟩
            rw [hscore3, hscore, hcfg]
            cases out.2.2.fired <;> simp <;> ring
          · cases h
        · cases h
      · cases h
    · cases h

/-- C9 (score accounting). For every Play update that ends without a victory
rebase, `score_after = score_before - f + pointsPerInvader * k - 5 * w`, with
`f` 1 if `fireRocket` fired in the update and 0 otherwise, `k` the number of
invaders the rocket/invader pass removed and `w` the number of bombs the
bomb/wall pass removed.  Hence over every run of such updates the score ends
at the initial score minus the shots, plus `pointsPerInvader` per kill, minus 5
per bomb absorbed by the wall; starting from 50 with 5 points per invader, ten
shots and ten kills with no wall hit leave 90. -/
theorem score_accounting :
    (∀ (game : Game) (p : PlayState) (dt now : ℚ) (rnd : Nat → ℚ)
        (out : Game × PlayState × TickReport),
      p.simulate game dt now rnd = some out → out.1.score < 100 →
      ∃ g2, p.update game dt now rnd = some g2 ∧
        g2.score = game.score - (if out.2.2.fired then 1 else 0)
          + game.config.pointsPerInvader * (out.2.2.invadersRemoved : ℚ)
          - 5 * (out.2.2.bombsWalled : ℚ)) ∧
    (∀ (g : Game) (inputs : List TickInput) (g2 : Game) (t : RunTotals),
      playRun g inputs = some (g2, t) →
      g2.score = g.score - (t.shots : ℚ) + g.config.pointsPerInvader * (t.kills : ℚ)
          - 5 * (t.walled : ℚ) ∧
      (g.score = 50 → g.config.pointsPerInvader = 5 → t.shots = 10 → t.kills = 10 →
        t.walled = 0 → g2.score = 90)) := by
  constructor
  · intro game p dt now rnd out hsim hno
    obtain ⟨g2, h1, -, h3⟩ := update_no_victory game p dt now rnd out hsim hno
    exact ⟨g2, h1, h3⟩
  · intro g inputs g2 t h
    have hs := (playRun_score inputs g g2 t h).2
    refine ⟨hs, ?_⟩
    intro h50 h5 hshots hkills hwalled
    rw [hs, h50, h5, hshots, hkills, hwalled]
    norm_num

/-- C9 witness: the run of `tenShotGame` over ten ticks, in each of which a
rocket is fired and an invader destroyed, goes from 50 to 90; its first update
alone goes from 50 to 54. -/
theorem score_accounting_witness :
    playRun tenShotGame tenShotTicks = some tenShotResult ∧
    tenShotGame.score = 50 ∧ tenShotGame.config.pointsPerInvader = 5 ∧
    tenShotResult.2 = ⟨10, 10, 0⟩ ∧ tenShotResult.1.score = 90 ∧
    ∃ g2, tenShotPlay.update tenShotGame 1 1000 (fun _ => 1) = some g2 ∧
      g2.score = 50 - 1 + 5 * 1 - 5 * 0 :=
  ⟨by decide!, by decide!, by decide!, by decide!,
    (score_accounting.2 tenShotGame tenShotTicks tenShotResult.1 tenShotResult.2
      (by decide!)).2 (by decide!) (by decide!) (by decide!) (by decide!) (by decide!),
    by
      obtain ⟨g2, h1, h2⟩ := score_accounting.1 tenShotGame tenShotPlay 1 1000 (fun _ => 1)
        ((tenShotPlay.simulate tenShotGame 1 1000 (fun _ => 1)).getD
          (tenShotGame, tenShotPlay, ⟨false, 0, 0, 0⟩))
        (by decide!) (by decide!)
      refine ⟨g2, h1, ?_⟩
      rw [h2]
      have hf : ((tenShotPlay.simulate tenShotGame 1 1000 (fun _ => 1)).getD
          (tenShotGame, tenShotPlay, ⟨false, 0, 0, 0⟩)).2.2 = ⟨true, 1, 0, 0⟩ := by decide!
      rw [hf]
      have hs : tenShotGame.score = 50 := by decide!
      have hp : tenShotGame.config.pointsPerInvader = 5 := by decide!
      rw [hs, hp]
      norm_num⟩

/-! ## The fire-rate limiter -/

/-- C10 (fire-rate limiter). With the clock reading `now` as an input,
`fireRocket` fires exactly if no rocket has been fired yet by this Play state
(`lastRocketTime` is null) or `now - lastRocketTime > 1000 / rocketMaxFireRate`
(for a rate of 0 the quotient is `Infinity` and the comparison fails).  When it
fires, exactly one rocket at `(ship.x, ship.y - 12)` with velocity
`config.rocketVelocity` is appended to `rockets`, `lastRocketTime` becomes
`now` and the score decreases by exactly 1, nothing else changing; when it
does not fire, the game and the state are unchanged.  Hence a fire at `t2`
that follows a fire at `t1` has `t2 - t1 > 1000 / rocketMaxFireRate`. -/
theorem fire_rate_limiter (game : Game) (p : PlayState) (now : ℚ) :
    (p.canFire game now = true ↔
      (p.lastRocketTime = none ∨
        ∃ last, p.lastRocketTime = some last ∧ game.config.rocketMaxFireRate ≠ 0 ∧
          1000 / game.config.rocketMaxFireRate < now - last)) ∧
    (p.canFire game now = true →
      p.fireRocket game now =
        ({ game with score := game.score - 1 },
         { p with
            rockets := p.rockets ++
              [{ x := p.ship.x, y := subNum p.ship.y (some 12),
                 velocity := game.config.rocketVelocity }]
            lastRocketTime := some now })) ∧
    (p.canFire game now = false → p.fireRocket game now = (game, p)) ∧
    (p.canFire game now = true →
      ∀ (game2 : Game) (q : PlayState) (t2 : ℚ),
        q.lastRocketTime = (p.fireRocket game now).2.lastRocketTime →
        q.canFire game2 t2 = true →
        game2.config.rocketMaxFireRate ≠ 0 ∧
          1000 / game2.config.rocketMaxFireRate < t2 - now) := by
  have hiff : ∀ (game : Game) (p : PlayState) (now : ℚ), (p.canFire game now = true ↔
      (p.lastRocketTime = none ∨
        ∃ last, p.lastRocketTime = some last ∧ game.config.rocketMaxFireRate ≠ 0 ∧
          1000 / game.config.rocketMaxFireRate < now - last)) := by
    intro game p now
    unfold PlayState.canFire
    cases hl : p.lastRocketTime with
    | none => simp
    | some last => simp
  refine ⟨hiff game p now, ?_, ?_, ?_⟩
  · intro h
    unfold PlayState.fireRocket
    rw [if_pos h]
  · intro h
    unfold PlayState.fireRocket
    rw [if_neg (by simp [h])]
  · intro h game2 q t2 hq hfire
    have hlast : (p.fireRocket game now).2.lastRocketTime = some now := by
      unfold PlayState.fireRocket
      rw [if_pos h]
    rw [hlast] at hq
    rcases (hiff game2 q t2).mp hfire with h0 | ⟨last, h1, h2, h3⟩
    · rw [hq] at h0; cases h0
    · rw [hq] at h1
      cases h1
      exact ⟨h2, h3⟩

/-- C10 witness: `samplePlay` has fired no rocket, so it fires at time 0; the
state it leaves fires again at 600 ms, more than `1000 / 2` ms later, and
does not fire at 400 ms. -/
theorem fire_rate_limiter_witness :
    samplePlay.canFire sampleGame 0 = true ∧
    (samplePlay.fireRocket sampleGame 0).1.score = sampleGame.score - 1 ∧
    (samplePlay.fireRocket sampleGame 0).2.rockets =
      samplePlay.rockets ++ [{ x := 400, y := some 438, velocity := 120 }] ∧
    (samplePlay.fireRocket sampleGame 0).2.canFire sampleGame 400 = false ∧
    (samplePlay.fireRocket sampleGame 0).2.canFire sampleGame 600 = true ∧
    (sampleGame.config.rocketMaxFireRate ≠ 0 ∧
      1000 / sampleGame.config.rocketMaxFireRate < 600 - 0) :=
  ⟨by decide!, by decide!, by decide!, by decide!, by decide!,
    (fire_rate_limiter sampleGame samplePlay 0).2.2.2 (by decide!) sampleGame
      (samplePlay.fireRocket sampleGame 0).2 600 rfl (by decide!)⟩

/-! ## The removing loop as one pass -/

theorem forSplice_append {σ α : Type} (body : σ → α → σ × α × Bool) :
    ∀ (n : Nat) (pre suf : List α) (s : σ), suf.length ≤ n →
      forSplice body n pre.length s (pre ++ suf) =
        ((spliceFold body s suf).1, pre ++ (spliceFold body s suf).2) := by
  intro n
  induction n with
  | zero =>
    intro pre suf s h
    have : suf = [] := List.length_eq_zero.mp (by omega)
    subst this
    simp [forSplice, spliceFold]
  | succ n ih =>
    intro pre suf s h
    cases suf with
    | nil => simp [forSplice, spliceFold]
    | cons x rest =>
      have hget : (pre ++ x :: rest)[pre.length]? = some x := by
        rw [List.getElem?_append_right (Nat.le_refl _)]
        simp
      simp only [forSplice, hget, spliceFold]
      have hlen : rest.length ≤ n := by simpa using h
      rcases hb : body s x with ⟨s1, x1, b⟩
      have hset : (pre ++ x :: rest).set pre.length x1 = pre ++ x1 :: rest := by
        simp
      cases b with
      | true =>
        simp only [hset]
        have herase : (pre ++ x1 :: rest).eraseIdx pre.length = pre ++ rest := by
          rw [List.eraseIdx_append_of_length_le (Nat.le_refl _)]
          simp
        rw [herase]
        exact ih pre rest s1 hlen
      | false =>
        simp only [hset]
        have h2 := ih (pre ++ [x1]) rest s1 hlen
        simp only [List.length_append, List.length_singleton, List.append_assoc,
          List.singleton_append] at h2
        exact h2

/-- The index loop over the whole list is the one-pass reading of it. -/
theorem forSplice_eq_spliceFold {σ α : Type} (body : σ → α → σ × α × Bool) (s : σ)
    (xs : List α) : forSplice body xs.length 0 s xs = spliceFold body s xs := by
  have h := forSplice_append body xs.length [] xs s (Nat.le_refl _)
  simpa using h

/-- The rocket loop: every rocket is advanced once, and exactly those whose new
`y` is below 0 are removed; the order is kept. -/
theorem moveRockets_eq (dt : ℚ) (rockets : List Rocket) :
    moveRockets dt rockets =
      (rockets.map (Rocket.advance dt)).filter fun r => !ltNum r.y 0 := by
  unfold moveRockets
  rw [forSplice_eq_spliceFold]
  induction rockets with
  | nil => rfl
  | cons r rest ih =>
    simp only [spliceFold, moveRocketBody, List.map_cons]
    cases h : ltNum (subNum r.y (some (dt * r.velocity))) 0
    · simp only [List.filter_cons, Rocket.advance, h, Bool.not_false, if_true]
      rw [← ih]
    · simp only [List.filter_cons, Rocket.advance, h, Bool.not_true, Bool.false_eq_true,
        if_false]
      rw [← ih]

/-- The bomb loop: every bomb is advanced once and none is removed, since the
test `bomb.y > this.height` compares with an undefined value. -/
theorem moveBombs_eq (p : PlayState) (dt : ℚ) (bombs : List Bomb) :
    moveBombs p dt bombs = bombs.map (Bomb.advance dt) := by
  unfold moveBombs
  rw [forSplice_eq_spliceFold]
  induction bombs with
  | nil => rfl
  | cons b rest ih =>
    simp only [spliceFold, moveBombBody, PlayState.height, gtUndef, List.map_cons]
    rw [← ih]
    rfl

/-- The bomb/ship pass: the bombs that hit the ship are removed, one `lives`
increment each. -/
theorem bombShip_eq (ship : Ship) (lives : Nat) (bombs : List Bomb) :
    bombShipCollisions ship lives bombs =
      (lives + bombs.countP (bombHitsShip ship),
        bombs.filter fun b => !bombHitsShip ship b) := by
  unfold bombShipCollisions
  rw [forSplice_eq_spliceFold]
  induction bombs generalizing lives with
  | nil => rfl
  | cons b rest ih =>
    simp only [spliceFold, bombShipBody]
    cases h : bombHitsShip ship b
    · simp only [Bool.false_eq_true, if_false, ih, List.countP_cons, h, List.filter_cons,
        Bool.not_false, if_true, Nat.add_zero]
    · simp only [if_true, ih, List.countP_cons, h, List.filter_cons, Bool.not_true,
        Bool.false_eq_true, if_false]
      congr 1
      omega

/-- The bomb/wall pass: the bombs inside some wall block are removed, 5 points each. -/
theorem bombWall_eq (wallBlocks : List Wall) (score : ℚ) (bombs : List Bomb) :
    bombWallCollisions wallBlocks score bombs =
      (score - 5 * ((bombs.countP fun b => wallBlocks.any (bombHitsWall b) : Nat) : ℚ),
        bombs.filter fun b => !wallBlocks.any (bombHitsWall b)) := by
  unfold bombWallCollisions
  rw [forSplice_eq_spliceFold]
  induction bombs generalizing score with
  | nil => simp [spliceFold]
  | cons b rest ih =>
    simp only [spliceFold, bombWallBody]
    cases h : wallBlocks.any (bombHitsWall b)
    · simp only [Bool.false_eq_true, if_false, ih, List.countP_cons, h, List.filter_cons,
        Bool.not_false, if_true, Nat.add_zero]
    · simp only [if_true, ih, List.countP_cons, h, List.filter_cons, Bool.not_true,
        Bool.false_eq_true, if_false]
      congr 1
      push_cast
      ring

/-! ## The rocket/invader pass -/

/-- The pass as a fold: what remains of both lists are sub-sequences of the
lists it started from, and it removes as many rockets as invaders. -/
theorem rocketInvader_fold (config : Config) :
    ∀ (invaders : List Invader) (rockets : List Rocket) (score : ℚ),
      (spliceFold (rocketInvaderBody config) (rockets, score) invaders).1.1.Sublist rockets ∧
      (spliceFold (rocketInvaderBody config) (rockets, score) invaders).2.Sublist invaders ∧
      (spliceFold (rocketInvaderBody config) (rockets, score) invaders).1.1.length
          + invaders.length
        = rockets.length
          + (spliceFold (rocketInvaderBody config) (rockets, score) invaders).2.length := by
  intro invaders
  induction invaders with
  | nil => intro rockets score; simp [spliceFold]
  | cons inv rest ih =>
    intro rockets score
    simp only [spliceFold, rocketInvaderBody]
    cases hf : rockets.findIdx? (rocketHits inv) with
    | none =>
      simp only []
      obtain ⟨h1, h2, h3⟩ := ih rockets score
      refine ⟨h1, h2.cons₂ inv, ?_⟩
      simp only [List.length_cons]
      omega
    | some j =>
      simp only []
      obtain ⟨h1, h2, h3⟩ := ih (rockets.eraseIdx j) (score + config.pointsPerInvader)
      have hj : j < rockets.length := by
        obtain ⟨h, -⟩ := List.findIdx?_eq_some_iff_getElem.mp hf
        exact h
      have hlen : (rockets.eraseIdx j).length = rockets.length - 1 := by
        rw [List.length_eraseIdx]; simp [hj]
      refine ⟨h1.trans (List.eraseIdx_sublist _ _), h2.cons inv, ?_⟩
      simp only [List.length_cons]
      omega

/-- When no rocket hits any invader the pass changes nothing. -/
theorem rocketInvader_fold_none (config : Config) :
    ∀ (invaders : List Invader) (rockets : List Rocket) (score : ℚ),
      (∀ inv ∈ invaders, ∀ q ∈ rockets, rocketHits inv q = false) →
      spliceFold (rocketInvaderBody config) (rockets, score) invaders
        = ((rockets, score), invaders) := by
  intro invaders
  induction invaders with
  | nil => intro rockets score _; rfl
  | cons inv rest ih =>
    intro rockets score h
    have hnone : rockets.findIdx? (rocketHits inv) = none :=
      List.findIdx?_eq_none_iff.mpr fun q hq => h inv (List.mem_cons_self _ _) q hq
    simp only [spliceFold, rocketInvaderBody, hnone]
    rw [ih rockets score fun i hi q hq => h i (List.mem_cons_of_mem _ hi) q hq]

/-- When one rocket `r` is the only one that hits anything, the pass removes it
together with the first invader of the list that it hits, and nothing else. -/
theorem rocketInvader_fold_single (config : Config) (r : Rocket) (pre post : List Rocket) :
    ∀ (invaders : List Invader) (score : ℚ) (i : Nat),
      (∀ inv ∈ invaders, ∀ q ∈ pre ++ post, rocketHits inv q = false) →
      invaders.findIdx? (fun inv => rocketHits inv r) = some i →
      spliceFold (rocketInvaderBody config) (pre ++ r :: post, score) invaders
        = ((pre ++ post, score + config.pointsPerInvader), invaders.eraseIdx i) := by
  intro invaders
  induction invaders with
  | nil => intro score i _ hi; simp at hi
  | cons inv rest ih =>
    intro score i h hi
    have hpre : pre.findIdx? (rocketHits inv) = none :=
      List.findIdx?_eq_none_iff.mpr fun q hq =>
        h inv (List.mem_cons_self _ _) q (List.mem_append_left _ hq)
    have hpost : post.findIdx? (rocketHits inv) = none :=
      List.findIdx?_eq_none_iff.mpr fun q hq =>
        h inv (List.mem_cons_self _ _) q (List.mem_append_right _ hq)
    simp only [List.findIdx?_cons, Nat.zero_add] at hi
    cases hr : rocketHits inv r with
    | true =>
      simp only [hr, if_true, Option.some.injEq] at hi
      subst hi
      have hfind : (pre ++ r :: post).findIdx? (rocketHits inv) = some pre.length := by
        simp [List.findIdx?_append, hpre, hr]
      have herase : (pre ++ r :: post).eraseIdx pre.length = pre ++ post := by
        rw [List.eraseIdx_append_of_length_le (Nat.le_refl _)]
        simp
      simp only [spliceFold, rocketInvaderBody, hfind, herase, List.eraseIdx_cons_zero]
      exact rocketInvader_fold_none config rest (pre ++ post) _
        fun j hj q hq => h j (List.mem_cons_of_mem _ hj) q hq
    | false =>
      simp only [hr, Bool.false_eq_true, if_false] at hi
      have hfind : (pre ++ r :: post).findIdx? (rocketHits inv) = none := by
        simp [List.findIdx?_append, hpre, hr, hpost]
      rw [List.findIdx?_start_succ] at hi
      cases hk : rest.findIdx? (fun inv => rocketHits inv r) with
      | none => rw [hk] at hi; simp at hi
      | some k =>
        rw [hk] at hi
        simp only [Option.map_some', Option.some.injEq] at hi
        subst hi
        simp only [spliceFold, rocketInvaderBody, hfind]
        rw [ih score k (fun j hj q hq => h j (List.mem_cons_of_mem _ hj) q hq) hk]
        simp

/-! ## What each part of the update leaves alone -/

theorem fireRocket_frame (game : Game) (p : PlayState) (now : ℚ) :
    (p.fireRocket game now).2.wallBlocks = p.wallBlocks ∧
    (p.fireRocket game now).2.invaders = p.invaders ∧
    (p.fireRocket game now).2.bombs = p.bombs ∧
    (p.fireRocket game now).2.ship = p.ship ∧
    (p.fireRocket game now).2.shipSpeedY = p.shipSpeedY ∧
    (p.fireRocket game now).2.invaderVelocity = p.invaderVelocity ∧
    (p.fireRocket game now).2.invaderNextVelocity = p.invaderNextVelocity ∧
    (p.fireRocket game now).2.invaderCurrentVelocity = p.invaderCurrentVelocity ∧
    (p.fireRocket game now).2.invadersAreDropping = p.invadersAreDropping ∧
    (p.fireRocket game now).2.invaderCurrentDropDistance = p.invaderCurrentDropDistance ∧
    (p.fireRocket game now).1.gameBounds = game.gameBounds ∧
    (p.fireRocket game now).1.jumping = game.jumping := by
  unfold PlayState.fireRocket
  split <;> simp

theorem control_frame (game : Game) (p : PlayState) (dt now : ℚ) :
    (p.control game dt now).2.1.wallBlocks = p.wallBlocks ∧
    (p.control game dt now).2.1.invaders = p.invaders ∧
    (p.control game dt now).2.1.bombs = p.bombs ∧
    (p.control game dt now).2.1.invaderVelocity = p.invaderVelocity ∧
    (p.control game dt now).2.1.invaderNextVelocity = p.invaderNextVelocity ∧
    (p.control game dt now).2.1.invaderCurrentVelocity = p.invaderCurrentVelocity ∧
    (p.control game dt now).2.1.invadersAreDropping = p.invadersAreDropping ∧
    (p.control game dt now).2.1.invaderCurrentDropDistance = p.invaderCurrentDropDistance ∧
    (p.control game dt now).1.gameBounds = game.gameBounds := by
  unfold PlayState.control
  simp only []
  by_cases h32 : 32 ∈ game.pressedKeys
  · simp only [h32, if_true]
    have h := fireRocket_frame
      { game with
        walking := decide (37 ∈ game.pressedKeys) || decide (39 ∈ game.pressedKeys)
        jumping := game.jumping || decide (38 ∈ game.pressedKeys) }
      { p with
        ship := if 39 ∈ game.pressedKeys then
            { (if 37 ∈ game.pressedKeys then { p.ship with x := p.ship.x - p.shipSpeed * dt }
                else p.ship) with
              x := (if 37 ∈ game.pressedKeys then { p.ship with x := p.ship.x - p.shipSpeed * dt }
                else p.ship).x + p.shipSpeed * dt }
          else (if 37 ∈ game.pressedKeys then { p.ship with x := p.ship.x - p.shipSpeed * dt }
            else p.ship)
        shipSpeedY := if (decide (38 ∈ game.pressedKeys) && !game.jumping) = true then some 20
          else p.shipSpeedY } now
    obtain ⟨h1, h2, h3, -, -, h6, h7, h8, h9, h10, h11, -⟩ := h
    exact ⟨h1, h2, h3, h6, h7, h8, h9, h10, h11⟩
  · simp [h32]

/-- The two clamping statements, on any ship. -/
theorem clamp_ship_x (s : Ship) (l r : ℚ) (h : l ≤ r) :
    l ≤ (if r < (if s.x < l then { s with x := l } else s).x
          then { (if s.x < l then { s with x := l } else s) with x := r }
          else (if s.x < l then { s with x := l } else s)).x ∧
      (if r < (if s.x < l then { s with x := l } else s).x
          then { (if s.x < l then { s with x := l } else s) with x := r }
          else (if s.x < l then { s with x := l } else s)).x ≤ r := by
  by_cases h1 : s.x < l
  · simp only [h1, if_true]
    by_cases h2 : r < l
    · exact absurd h (not_le.mpr h2)
    · simp only [h2, if_false]
      exact ⟨le_refl _, h⟩
  · simp only [h1, if_false]
    by_cases h2 : r < s.x
    · simp only [h2, if_true]
      exact ⟨h, le_refl _⟩
    · simp only [h2, if_false]
      exact ⟨not_lt.mp h1, not_lt.mp h2⟩

/-- The clamp of the ship: after the first part of the update the ship is
between the left and the right bound, whenever these are in order. -/
theorem control_ship_x (game : Game) (p : PlayState) (dt now : ℚ)
    (h : game.gameBounds.left ≤ game.gameBounds.right) :
    game.gameBounds.left ≤ (p.control game dt now).2.1.ship.x ∧
      (p.control game dt now).2.1.ship.x ≤ game.gameBounds.right := by
  unfold PlayState.control
  simp only []
  exact clamp_ship_x _ _ _ h

theorem updateInvaderVelocities_frame (config : Config) (p p1 : PlayState) (dt : ℚ)
    (hitLeft hitRight : Bool)
    (h : updateInvaderVelocities config p dt hitLeft hitRight = some p1) :
    p1.ship = p.ship ∧ p1.wallBlocks = p.wallBlocks ∧ p1.rockets = p.rockets ∧
      p1.bombs = p.bombs ∧ p1.invaders = p.invaders := by
  unfold updateInvaderVelocities at h
  simp only [] at h
  split at h
  · cases h
  · rename_i q hq
    simp only [Option.some.injEq] at h
    have hq' : q.ship = p.ship ∧ q.wallBlocks = p.wallBlocks ∧ q.rockets = p.rockets ∧
        q.bombs = p.bombs ∧ q.invaders = p.invaders := by
      split at hq
      · split at hq
        · cases hq
        · split at hq <;> simp only [Option.some.injEq] at hq <;> subst hq <;>
            exact ⟨rfl, rfl, rfl, rfl, rfl⟩
      · simp only [Option.some.injEq] at hq
        subst hq
        exact ⟨rfl, rfl, rfl, rfl, rfl⟩
    subst h
    cases hitLeft <;> cases hitRight <;> simpa using hq'

theorem moveInvaders_some (bounds : Bounds) (v : Vec) (dt : ℚ) :
    ∀ (invaders : List Invader) (hitLeft hitRight : Bool),
      ∃ r, moveInvaders bounds (some v) dt invaders hitLeft hitRight = some r ∧
        r.1.length = invaders.length := by
  intro invaders
  induction invaders with
  | nil => intro hl hr; exact ⟨_, rfl, rfl⟩
  | cons inv rest ih =>
    intro hl hr
    simp only [moveInvaders]
    obtain ⟨r, hr1, hr2⟩ := ih (hl || decide (inv.x + v.x * dt < bounds.left))
      (if (!hl && decide (inv.x + v.x * dt < bounds.left)) = true then hr
        else hr || decide (inv.x + v.x * dt > bounds.right))
    rw [hr1]
    exact ⟨_, rfl, by simp [hr2]⟩

/-- The flag `hitLeft` after the invader loop. -/
theorem moveInvaders_hitLeft (bounds : Bounds) (v : Vec) (dt : ℚ) :
    ∀ (invaders : List Invader) (hitLeft hitRight : Bool) (r : List Invader × Bool × Bool),
      moveInvaders bounds (some v) dt invaders hitLeft hitRight = some r →
      r.2.1 = (hitLeft || invaders.any fun inv => decide (inv.x + v.x * dt < bounds.left)) := by
  intro invaders
  induction invaders with
  | nil =>
    intro hl hr r h
    simp only [moveInvaders, Option.some.injEq] at h
    subst h
    simp
  | cons inv rest ih =>
    intro hl hr r h
    simp only [moveInvaders] at h
    split at h
    · cases h
    · rename_i rest1 l r1 hrec
      simp only [Option.some.injEq] at h
      subst h
      have := ih _ _ _ hrec
      simp only at this
      simp only [this, List.any_cons, Bool.or_assoc]

/-- The flag `hitRight` after the invader loop, when no invader would cross the
left bound. -/
theorem moveInvaders_hitRight (bounds : Bounds) (v : Vec) (dt : ℚ) :
    ∀ (invaders : List Invader) (hitLeft hitRight : Bool) (r : List Invader × Bool × Bool),
      (∀ inv ∈ invaders, ¬ inv.x + v.x * dt < bounds.left) →
      moveInvaders bounds (some v) dt invaders hitLeft hitRight = some r →
      r.2.2 = (hitRight || invaders.any fun inv => decide (inv.x + v.x * dt > bounds.right)) := by
  intro invaders
  induction invaders with
  | nil =>
    intro hl hr r _ h
    simp only [moveInvaders, Option.some.injEq] at h
    subst h
    simp
  | cons inv rest ih =>
    intro hl hr r hno h
    have hinv : decide (inv.x + v.x * dt < bounds.left) = false :=
      decide_eq_false (hno inv (List.mem_cons_self _ _))
    simp only [moveInvaders, hinv, Bool.and_false, Bool.false_eq_true, if_false] at h
    split at h
    · cases h
    · rename_i rest1 l r1 hrec
      simp only [Option.some.injEq] at h
      subst h
      have := ih _ _ _ (fun i hi => hno i (List.mem_cons_of_mem _ hi)) hrec
      simp only at this
      simp only [this, List.any_cons, Bool.or_assoc]

/-- The flag `hitRight` stays as it is when no invader would cross the right bound. -/
theorem moveInvaders_hitRight_none (bounds : Bounds) (v : Vec) (dt : ℚ) :
    ∀ (invaders : List Invader) (hitLeft hitRight : Bool) (r : List Invader × Bool × Bool),
      (∀ inv ∈ invaders, ¬ inv.x + v.x * dt > bounds.right) →
      moveInvaders bounds (some v) dt invaders hitLeft hitRight = some r →
      r.2.2 = hitRight := by
  intro invaders
  induction invaders with
  | nil =>
    intro hl hr r _ h
    simp only [moveInvaders, Option.some.injEq] at h
    subst h
    rfl
  | cons inv rest ih =>
    intro hl hr r hno h
    have hinv : decide (inv.x + v.x * dt > bounds.right) = false :=
      decide_eq_false (hno inv (List.mem_cons_self _ _))
    simp only [moveInvaders, hinv, Bool.or_false, ite_self] at h
    split at h
    · cases h
    · rename_i rest1 l r1 hrec
      simp only [Option.some.injEq] at h
      subst h
      exact ih _ _ (rest1, l, r1) (fun i hi => hno i (List.mem_cons_of_mem _ hi)) hrec

/-- With no horizontal velocity the invader loop leaves every invader as it is. -/
theorem moveInvaders_still (bounds : Bounds) (vy : ℚ) (dt : ℚ) :
    ∀ (invaders : List Invader) (hitLeft hitRight : Bool) (r : List Invader × Bool × Bool),
      moveInvaders bounds (some { x := 0, y := vy }) dt invaders hitLeft hitRight = some r →
      r.1 = invaders := by
  intro invaders
  induction invaders with
  | nil =>
    intro hl hr r h
    simp only [moveInvaders, Option.some.injEq] at h
    subst h
    rfl
  | cons inv rest ih =>
    intro hl hr r h
    simp only [moveInvaders] at h
    split at h
    · cases h
    · rename_i rest1 l r1 hrec
      simp only [Option.some.injEq] at h
      subst h
      have := ih _ _ _ hrec
      simp only at this
      simp only [this, zero_mul, add_zero, ite_self]

theorem simulate_parts (game : Game) (p : PlayState) (dt now : ℚ) (rnd : Nat → ℚ)
    (out : Game × PlayState × TickReport) (h : p.simulate game dt now rnd = some out) :
    ∃ p4, (p.control game dt now).2.1.advance (p.control game dt now).1 dt = some p4 ∧
      out = p4.collide (p.control game dt now).1 dt rnd (p.control game dt now).2.2 := by
  unfold PlayState.simulate at h
  simp only [] at h
  split at h
  · cases h
  · rename_i p4 hp4
    simp only [Option.some.injEq] at h
    exact ⟨p4, hp4, h.symm⟩

theorem advance_spec (game : Game) (p p4 : PlayState) (dt : ℚ)
    (h : p.advance game dt = some p4) :
    p4.ship = p.ship ∧ p4.wallBlocks = p.wallBlocks ∧ p4.rockets = moveRockets dt p.rockets ∧
      p4.bombs = moveBombs p dt p.bombs ∧
      ∃ r, moveInvaders game.gameBounds p.invaderVelocity dt p.invaders false false = some r ∧
        p4.invaders = r.1 ∧
        updateInvaderVelocities game.config
          { p with bombs := moveBombs p dt p.bombs, rockets := moveRockets dt p.rockets,
                   invaders := r.1 } dt r.2.1 r.2.2 = some p4 := by
  unfold PlayState.advance at h
  simp only [] at h
  split at h
  · cases h
  · rename_i invaders1 hitLeft hitRight hm
    obtain ⟨h1, h2, h3, h4, h5⟩ := updateInvaderVelocities_frame _ _ _ _ _ _ h
    exact ⟨h1, h2, h3, h4, (invaders1, hitLeft, hitRight), hm, h5, h⟩

theorem collide_frame (game : Game) (p : PlayState) (dt : ℚ) (rnd : Nat → ℚ) (fired : Bool) :
    (p.collide game dt rnd fired).2.1.ship = p.ship ∧
    (p.collide game dt rnd fired).2.1.wallBlocks = p.wallBlocks ∧
    (p.collide game dt rnd fired).2.1.invaderVelocity = p.invaderVelocity ∧
    (p.collide game dt rnd fired).2.1.invaderNextVelocity = p.invaderNextVelocity ∧
    (p.collide game dt rnd fired).2.1.invaderCurrentVelocity = p.invaderCurrentVelocity ∧
    (p.collide game dt rnd fired).2.1.invadersAreDropping = p.invadersAreDropping ∧
    (p.collide game dt rnd fired).2.1.rockets =
      (rocketInvaderCollisions game.config p.rockets game.score p.invaders).1.1 ∧
    (p.collide game dt rnd fired).2.1.invaders =
      (rocketInvaderCollisions game.config p.rockets game.score p.invaders).2 := by
  unfold PlayState.collide
  exact ⟨rfl, rfl, rfl, rfl, rfl, rfl, rfl, rfl⟩

/-- The rocket/invader pass of the update, as a sub-sequence statement. -/
theorem rocketInvader_sublist (config : Config) (rockets : List Rocket) (score : ℚ)
    (invaders : List Invader) :
    (rocketInvaderCollisions config rockets score invaders).1.1.Sublist rockets ∧
    (rocketInvaderCollisions config rockets score invaders).2.Sublist invaders ∧
    (rocketInvaderCollisions config rockets score invaders).1.1.length + invaders.length
      = rockets.length + (rocketInvaderCollisions config rockets score invaders).2.length := by
  unfold rocketInvaderCollisions
  rw [forSplice_eq_spliceFold]
  exact rocketInvader_fold config invaders rockets score

/-! ## Collision passes -/

/-- C11 (rocket/invader pairing). In the rocket/invader pass the rockets left
are a sub-sequence of the rockets before and the invaders left a sub-sequence
of the invaders before, and the pass removes exactly as many invaders as
rockets: each removal takes one rocket and one invader.  When one rocket `r`
is the only rocket that hits anything and `i` is the first position in the
invader list (rank-major order) of an invader it hits, the pass removes `r`
and that invader and nothing else, so every other invader that `r` overlaps
survives; the score goes up by `pointsPerInvader` once. -/
theorem rocket_invader_pairing (config : Config) (rockets : List Rocket) (score : ℚ)
    (invaders : List Invader) :
    (rocketInvaderCollisions config rockets score invaders).1.1.Sublist rockets ∧
    (rocketInvaderCollisions config rockets score invaders).2.Sublist invaders ∧
    invaders.length - (rocketInvaderCollisions config rockets score invaders).2.length
      = rockets.length - (rocketInvaderCollisions config rockets score invaders).1.1.length ∧
    (∀ (r : Rocket) (pre post : List Rocket) (i : Nat),
      rockets = pre ++ r :: post →
      (∀ inv ∈ invaders, ∀ q ∈ pre ++ post, rocketHits inv q = false) →
      invaders.findIdx? (fun inv => rocketHits inv r) = some i →
      rocketInvaderCollisions config rockets score invaders
        = ((pre ++ post, score + config.pointsPerInvader), invaders.eraseIdx i)) := by
  obtain ⟨h1, h2, h3⟩ := rocketInvader_sublist config rockets score invaders
  refine ⟨h1, h2, ?_, ?_⟩
  · have := h1.length_le
    have := h2.length_le
    omega
  · intro r pre post i hr hsingle hi
    subst hr
    unfold rocketInvaderCollisions
    rw [forSplice_eq_spliceFold]
    exact rocketInvader_fold_single config r pre post invaders score i hsingle hi

/-- C11 witness: `pairRocket` overlaps the second and the third of the
`pairInvaders`; the pass removes it with the second one, and the third survives. -/
theorem rocket_invader_pairing_witness :
    (pairInvaders.map fun inv => rocketHits inv pairRocket) = [false, true, true] ∧
    rocketInvaderCollisions Config.default [strayRocket, pairRocket] 50 pairInvaders
      = (([strayRocket], 50 + Config.default.pointsPerInvader),
          [Invader.new 200 190 0 2 "Invader", Invader.new 310 190 0 0 "Invader"]) :=
  ⟨by decide!,
    (rocket_invader_pairing Config.default [strayRocket, pairRocket] 50 pairInvaders).2.2.2
      pairRocket [strayRocket] [] 1 rfl (by decide!) (by decide!)⟩

/-- The two bomb passes on a list, by classes: a bomb hits the ship (`a`); or it
misses the ship and is inside a wall block (`w`); or it is left over. -/
theorem bomb_classes (a w : Bomb → Bool) (bombs : List Bomb) :
    (bombs.filter fun b => !a b).filter (fun b => !w b)
      = bombs.filter (fun b => !a b && !w b) ∧
    (bombs.filter fun b => !a b).countP w = bombs.countP (fun b => !a b && w b) ∧
    (bombs.filter fun b => !a b).length + bombs.countP a = bombs.length ∧
    (bombs.filter fun b => !a b && !w b).length + bombs.countP (fun b => !a b && w b)
      = (bombs.filter fun b => !a b).length := by
  induction bombs with
  | nil => simp
  | cons b rest ih =>
    obtain ⟨h1, h2, h3, h4⟩ := ih
    simp only [List.length_cons, List.countP_cons, List.filter_cons]
    cases ha : a b <;> cases hw : w b <;>
      simp [List.countP_cons, ha, hw, h1, h2] <;> omega

/-- The bomb/ship pass followed by the bomb/wall pass, on any bomb list. -/
theorem bomb_passes (ship : Ship) (wallBlocks : List Wall) (lives : Nat) (score : ℚ)
    (bombs : List Bomb) :
    (bombWallCollisions wallBlocks score (bombShipCollisions ship lives bombs).2).2
      = bombs.filter (fun b => !bombHitsShip ship b && !wallBlocks.any (bombHitsWall b)) ∧
    (bombShipCollisions ship lives bombs).1 = lives + bombs.countP (bombHitsShip ship) ∧
    (bombWallCollisions wallBlocks score (bombShipCollisions ship lives bombs).2).1
      = score - 5 * ((bombs.countP
          fun b => !bombHitsShip ship b && wallBlocks.any (bombHitsWall b) : Nat) : ℚ) ∧
    bombs.length - (bombShipCollisions ship lives bombs).2.length
      = bombs.countP (bombHitsShip ship) ∧
    (bombShipCollisions ship lives bombs).2.length
        - (bombWallCollisions wallBlocks score (bombShipCollisions ship lives bombs).2).2.length
      = bombs.countP (fun b => !bombHitsShip ship b && wallBlocks.any (bombHitsWall b)) := by
  obtain ⟨h1, h2, h3, h4⟩ :=
    bomb_classes (bombHitsShip ship) (fun b => wallBlocks.any (bombHitsWall b)) bombs
  rw [bombShip_eq, bombWall_eq]
  simp only []
  rw [h1, h2]
  refine ⟨?_, ?_, ?_, ?_, ?_⟩ <;> first | rfl | trivial | omega

/-- C12 (no bomb is counted twice). In every update, with `spawned` the bomb
list at collision time (after the bomb spawn): the bombs left are those of
`spawned` that neither hit the ship nor lie in a wall block; the bomb/ship
pass removes and counts (one `lives` increment each) exactly the bombs that
hit the ship; the bomb/wall pass removes and charges (5 points each) exactly
the bombs that missed the ship and lie in a wall block, so no bomb is in both
counts; and the number of bombs removed by the two passes is the number of
`lives` increments plus the number of wall penalties. -/
theorem bomb_counted_once (game : Game) (p : PlayState) (dt : ℚ) (rnd : Nat → ℚ)
    (fired : Bool) :
    (p.collide game dt rnd fired).2.1.bombs =
      ((dropBombs p dt rnd (frontRankInvaders (p.collide game dt rnd fired).2.1.invaders)
          game.config.invaderFiles p.bombs).1.filter
        fun b => !bombHitsShip p.ship b && !p.wallBlocks.any (bombHitsWall b)) ∧
    (p.collide game dt rnd fired).2.2.bombsCaught =
      (dropBombs p dt rnd (frontRankInvaders (p.collide game dt rnd fired).2.1.invaders)
          game.config.invaderFiles p.bombs).1.countP (bombHitsShip p.ship) ∧
    (p.collide game dt rnd fired).2.2.bombsWalled =
      (dropBombs p dt rnd (frontRankInvaders (p.collide game dt rnd fired).2.1.invaders)
          game.config.invaderFiles p.bombs).1.countP
        (fun b => !bombHitsShip p.ship b && p.wallBlocks.any (bombHitsWall b)) ∧
    (p.collide game dt rnd fired).1.lives =
      (if (p.collide game dt rnd fired).2.1.invaders.any (invaderHitsShip p.ship) then 0
        else game.lives + (p.collide game dt rnd fired).2.2.bombsCaught) ∧
    (p.collide game dt rnd fired).1.score =
      (rocketInvaderCollisions game.config p.rockets game.score p.invaders).1.2
        - 5 * ((p.collide game dt rnd fired).2.2.bombsWalled : ℚ) ∧
    (dropBombs p dt rnd (frontRankInvaders (p.collide game dt rnd fired).2.1.invaders)
          game.config.invaderFiles p.bombs).1.length
        - (p.collide game dt rnd fired).2.1.bombs.length
      = (p.collide game dt rnd fired).2.2.bombsCaught
        + (p.collide game dt rnd fired).2.2.bombsWalled := by
  obtain ⟨h1, h2, h3, h4, h5⟩ := bomb_passes p.ship p.wallBlocks game.lives
    (rocketInvaderCollisions game.config p.rockets game.score p.invaders).1.2
    (dropBombs p dt rnd
      (frontRankInvaders (rocketInvaderCollisions game.config p.rockets game.score p.invaders).2)
      game.config.invaderFiles p.bombs).1
  have hle1 := (bomb_classes (bombHitsShip p.ship) (fun b => p.wallBlocks.any (bombHitsWall b))
    (dropBombs p dt rnd
      (frontRankInvaders (rocketInvaderCollisions game.config p.rockets game.score p.invaders).2)
      game.config.invaderFiles p.bombs).1)
  unfold PlayState.collide
  simp only []
  refine ⟨h1, h4, h5, ?_, ?_, ?_⟩
  · rw [h2, h4]
  · rw [h3, h5]
  · rw [h4, h5, h1]
    obtain ⟨-, -, c3, c4⟩ := hle1
    omega

/-! ## The swarm -/

/-- The velocity statements after a tick in which only the flag `hitLeft` is set. -/
theorem updateInvaderVelocities_hitLeft (config : Config) (p : PlayState) (dt : ℚ) (v : Vec)
    (hv : p.invaderVelocity = some v) :
    ∃ q, updateInvaderVelocities config p dt true false = some q ∧
      q.invadersAreDropping = true ∧
      q.invaderCurrentVelocity = p.invaderCurrentVelocity + config.invaderAcceleration ∧
      q.invaderVelocity
        = some { x := 0, y := p.invaderCurrentVelocity + config.invaderAcceleration } ∧
      q.invaderNextVelocity
        = some { x := p.invaderCurrentVelocity + config.invaderAcceleration, y := 0 } := by
  unfold updateInvaderVelocities
  simp only [hv]
  by_cases hd : p.invadersAreDropping = true
  · by_cases hdist : config.invaderDropDistance ≤ fl (p.invaderCurrentDropDistance + fl (v.y * dt))
    · simp only [hd, hdist, if_true, Bool.false_eq_true, if_false]
      exact ⟨_, rfl, rfl, rfl, rfl, rfl⟩
    · simp only [hd, hdist, if_true, Bool.false_eq_true, if_false]
      exact ⟨_, rfl, rfl, rfl, rfl, rfl⟩
  · simp only [hd, if_true, Bool.false_eq_true, if_false]
    exact ⟨_, rfl, rfl, rfl, rfl, rfl⟩

/-- The velocity statements after a tick in which only the flag `hitRight` is set. -/
theorem updateInvaderVelocities_hitRight (config : Config) (p : PlayState) (dt : ℚ) (v : Vec)
    (hv : p.invaderVelocity = some v) :
    ∃ q, updateInvaderVelocities config p dt false true = some q ∧
      q.invadersAreDropping = true ∧
      q.invaderCurrentVelocity = p.invaderCurrentVelocity + config.invaderAcceleration ∧
      q.invaderVelocity
        = some { x := 0, y := p.invaderCurrentVelocity + config.invaderAcceleration } ∧
      q.invaderNextVelocity
        = some { x := -(p.invaderCurrentVelocity + config.invaderAcceleration), y := 0 } := by
  unfold updateInvaderVelocities
  simp only [hv]
  by_cases hd : p.invadersAreDropping = true
  · by_cases hdist : config.invaderDropDistance ≤ fl (p.invaderCurrentDropDistance + fl (v.y * dt))
    · simp only [hd, hdist, if_true, Bool.false_eq_true, if_false]
      exact ⟨_, rfl, rfl, rfl, rfl, rfl⟩
    · simp only [hd, hdist, if_true, Bool.false_eq_true, if_false]
      exact ⟨_, rfl, rfl, rfl, rfl, rfl⟩
  · simp only [hd, if_true, Bool.false_eq_true, if_false]
    exact ⟨_, rfl, rfl, rfl, rfl, rfl⟩

/-- The second part of the update when the swarm has a velocity: it completes,
and its flags are those of the invader loop. -/
theorem advance_flags (game : Game) (p : PlayState) (dt : ℚ) (v : Vec)
    (hv : p.invaderVelocity = some v) :
    ∃ r, moveInvaders game.gameBounds (some v) dt p.invaders false false = some r ∧
      p.advance game dt =
        updateInvaderVelocities game.config
          { p with bombs := moveBombs p dt p.bombs, rockets := moveRockets dt p.rockets,
                   invaders := r.1 } dt r.2.1 r.2.2 := by
  obtain ⟨r, hr, -⟩ := moveInvaders_some game.gameBounds v dt p.invaders false false
  refine ⟨r, hr, ?_⟩
  unfold PlayState.advance
  simp only [hv, hr]

/-- C18 (swarm velocity reversal), amended. Let the swarm move horizontally with
velocity `(vx, 0)` and speed `c = invaderCurrentVelocity = |vx| > 0`, let some
invader's prospective x cross the bound in the direction of motion while no
invader's prospective x crosses the other bound, and let `c + a` be positive,
`a` being the configured acceleration (as it is for every acceleration that is
not negative).  Then the update completes, and after it the swarm is in the
dropping phase with velocity `(0, c + a)`, and the queued next velocity is
horizontal: `c + a` to the right after a bounce on the left bound, `c + a` to
the left after a bounce on the right bound.  So its sign is opposite to that
of `vx` and its magnitude is exactly `c + a`, the speed before the bounce
increased by the acceleration. -/
theorem swarm_bounce (game : Game) (p : PlayState) (dt now : ℚ) (rnd : Nat → ℚ) (vx : ℚ)
    (hvel : p.invaderVelocity = some { x := vx, y := 0 })
    (hc : p.invaderCurrentVelocity = |vx|) (hpos : 0 < p.invaderCurrentVelocity)
    (hsum : 0 < p.invaderCurrentVelocity + game.config.invaderAcceleration)
    (hdir :
      (vx < 0 ∧ (∃ inv ∈ p.invaders, inv.x + vx * dt < game.gameBounds.left) ∧
        ∀ inv ∈ p.invaders, ¬ inv.x + vx * dt > game.gameBounds.right) ∨
      (0 < vx ∧ (∃ inv ∈ p.invaders, inv.x + vx * dt > game.gameBounds.right) ∧
        ∀ inv ∈ p.invaders, ¬ inv.x + vx * dt < game.gameBounds.left)) :
    ∃ out, p.simulate game dt now rnd = some out ∧
      out.2.1.invadersAreDropping = true ∧
      out.2.1.invaderVelocity
        = some { x := 0, y := p.invaderCurrentVelocity + game.config.invaderAcceleration } ∧
      ∃ nx, out.2.1.invaderNextVelocity = some { x := nx, y := 0 } ∧
        (vx < 0 → nx = p.invaderCurrentVelocity + game.config.invaderAcceleration) ∧
        (0 < vx → nx = -(p.invaderCurrentVelocity + game.config.invaderAcceleration)) ∧
        nx * vx < 0 ∧ |nx| = p.invaderCurrentVelocity + game.config.invaderAcceleration ∧
        |nx| = |vx| + game.config.invaderAcceleration := by
  obtain ⟨-, -, -, cv, -, ccur, -, -, cb⟩ := control_frame game p dt now
  have cinv := (control_frame game p dt now).2.1
  have ccfg := (control_game game p dt now).2.1
  have hv1 : (p.control game dt now).2.1.invaderVelocity = some { x := vx, y := 0 } := by
    rw [cv, hvel]
  obtain ⟨r, hr, hadv⟩ := advance_flags (p.control game dt now).1 (p.control game dt now).2.1
    dt { x := vx, y := 0 } hv1
  rw [cb, cinv] at hr
  have hl := moveInvaders_hitLeft _ _ _ _ _ _ _ hr
  simp only [Bool.false_or] at hl
  rcases hdir with ⟨hneg, ⟨inv, hmem, hcross⟩, hnone⟩ | ⟨hposv, ⟨inv, hmem, hcross⟩, hnone⟩
  · have hr2 := moveInvaders_hitRight_none _ _ _ _ _ _ _ hnone hr
    have hl1 : r.2.1 = true := by
      rw [hl]
      exact List.any_eq_true.mpr ⟨inv, hmem, decide_eq_true hcross⟩
    rw [hl1, hr2] at hadv
    obtain ⟨q, hq, q1, -, q3, q4⟩ := updateInvaderVelocities_hitLeft
      (p.control game dt now).1.config
      { (p.control game dt now).2.1 with
        bombs := moveBombs (p.control game dt now).2.1 dt (p.control game dt now).2.1.bombs
        rockets := moveRockets dt (p.control game dt now).2.1.rockets
        invaders := r.1 } dt { x := vx, y := 0 } hv1
    rw [← hadv] at hq
    refine ⟨q.collide (p.control game dt now).1 dt rnd (p.control game dt now).2.2, ?_, ?_, ?_,
      p.invaderCurrentVelocity + game.config.invaderAcceleration, ?_, ?_, ?_, ?_⟩
    · unfold PlayState.simulate
      simp only [hq]
    · rw [(collide_frame _ q dt rnd _).2.2.2.2.2.1, q1]
    · rw [(collide_frame _ q dt rnd _).2.2.1, q3]
      simp only [ccur, ccfg]
    · rw [(collide_frame _ q dt rnd _).2.2.2.1, q4]
      simp only [ccur, ccfg]
    · intro _; rfl
    · intro h; exact absurd hneg (not_lt.mpr (le_of_lt h))
    · exact ⟨mul_neg_of_pos_of_neg hsum hneg, abs_of_pos hsum, by rw [← hc]; exact abs_of_pos hsum⟩
  · have hr2 := moveInvaders_hitRight _ _ _ _ _ _ _ hnone hr
    simp only [Bool.false_or] at hr2
    have hl1 : r.2.1 = false := by
      rw [hl]
      apply List.any_eq_false.mpr
      intro i hi
      simpa using hnone i hi
    have hr1 : r.2.2 = true := by
      rw [hr2]
      exact List.any_eq_true.mpr ⟨inv, hmem, decide_eq_true hcross⟩
    rw [hl1, hr1] at hadv
    obtain ⟨q, hq, q1, -, q3, q4⟩ := updateInvaderVelocities_hitRight
      (p.control game dt now).1.config
      { (p.control game dt now).2.1 with
        bombs := moveBombs (p.control game dt now).2.1 dt (p.control game dt now).2.1.bombs
        rockets := moveRockets dt (p.control game dt now).2.1.rockets
        invaders := r.1 } dt { x := vx, y := 0 } hv1
    rw [← hadv] at hq
    refine ⟨q.collide (p.control game dt now).1 dt rnd (p.control game dt now).2.2, ?_, ?_, ?_,
      -(p.invaderCurrentVelocity + game.config.invaderAcceleration), ?_, ?_, ?_, ?_⟩
    · unfold PlayState.simulate
      simp only [hq]
    · rw [(collide_frame _ q dt rnd _).2.2.2.2.2.1, q1]
    · rw [(collide_frame _ q dt rnd _).2.2.1, q3]
      simp only [ccur, ccfg]
    · rw [(collide_frame _ q dt rnd _).2.2.2.1, q4]
      simp only [ccur, ccfg]
    · intro h; exact absurd hposv (not_lt.mpr (le_of_lt h))
    · intro _; rfl
    · exact ⟨mul_neg_of_neg_of_pos (neg_neg_of_pos hsum) hposv,
        by rw [abs_neg]; exact abs_of_pos hsum,
        by rw [abs_neg, ← hc]; exact abs_of_pos hsum⟩

/-! ## Bombs, the wall and the ship -/

/-- With the ship at or above the bottom bound and a wall block 70 below that
bound, as `PlayState.enter` builds them, no point is in both rectangles. -/
theorem wall_below_ship (ship : Ship) (wall : Wall) (bomb : Bomb) (bottom : ℚ)
    (hsy : ∀ sy, ship.y = some sy → sy ≤ bottom) (hh : ship.height = 50)
    (hwy : wall.y = bottom + 70) (hwh : wall.height = 30)
    (hw : bombHitsWall bomb wall = true) : bombHitsShip ship bomb = false := by
  unfold bombHitsWall at hw
  unfold bombHitsShip
  cases hy : ship.y with
  | none => rfl
  | some sy =>
    have hle := hsy sy hy
    simp only [hh]
    simp only [hwy, hwh, Bool.and_eq_true, decide_eq_true_eq] at hw
    obtain ⟨⟨⟨-, -⟩, h3⟩, -⟩ := hw
    have : ¬ bomb.y ≤ sy + 50 / 2 := by
      intro hle2
      linarith
    simp [this]

/-- The ship and the wall as `PlayState.enter` builds them: the ship stands on
the bottom bound and is 50 high, every wall block is 30 high and 70 below the
bound. -/
theorem enter_geometry (game : Game) (L : Int) :
    (PlayState.enter game L).ship.y = some game.gameBounds.bottom ∧
    (PlayState.enter game L).ship.height = 50 ∧
    ∀ w ∈ (PlayState.enter game L).wallBlocks,
      w.y = game.gameBounds.bottom + 70 ∧ w.height = 30 := by
  refine ⟨rfl, rfl, ?_⟩
  intro w hw
  simp only [PlayState.enter, List.mem_flatMap, List.mem_map] at hw
  obtain ⟨_, _, file, _, rfl⟩ := hw
  exact ⟨rfl, rfl⟩

/-- C13 (the wall absorbs before the ship). Take the third part of a Play
update on the state it finds at collision time, the ship and the wall as the
program makes them: the ship 50 high, anywhere along x, with its `y` at or
above the bottom bound (where `enter` puts it and from where the jump only
lifts it), and every wall block 30 high and 70 below the bound (as `enter`
builds them; no update changes them).  Then every bomb `b` of the bomb list at
collision time that lies inside some wall block is outside the rectangle of
the ship and is not among the bombs left: it is removed.  The bombs counted as
hits on the ship (one `lives` increment each) are all bombs outside the wall
blocks, so no bomb inside a block is counted; the bomb/wall pass removes
exactly the bombs inside a block, and the score falls by 5 for each of
them. -/
theorem wall_absorbs_bomb (game : Game) (p : PlayState) (dt : ℚ) (rnd : Nat → ℚ)
    (fired : Bool) (hh : p.ship.height = 50)
    (hy : ∀ sy, p.ship.y = some sy → sy ≤ game.gameBounds.bottom)
    (hw : ∀ w ∈ p.wallBlocks, w.y = game.gameBounds.bottom + 70 ∧ w.height = 30) :
    (∀ b ∈ (dropBombs p dt rnd (frontRankInvaders (p.collide game dt rnd fired).2.1.invaders)
          game.config.invaderFiles p.bombs).1,
      p.wallBlocks.any (bombHitsWall b) = true →
      bombHitsShip p.ship b = false ∧ b ∉ (p.collide game dt rnd fired).2.1.bombs) ∧
    (p.collide game dt rnd fired).2.2.bombsCaught =
      ((dropBombs p dt rnd (frontRankInvaders (p.collide game dt rnd fired).2.1.invaders)
          game.config.invaderFiles p.bombs).1.filter
        fun b => !p.wallBlocks.any (bombHitsWall b)).countP (bombHitsShip p.ship) ∧
    (p.collide game dt rnd fired).1.lives =
      (if (p.collide game dt rnd fired).2.1.invaders.any (invaderHitsShip p.ship) then 0
        else game.lives + (p.collide game dt rnd fired).2.2.bombsCaught) ∧
    (p.collide game dt rnd fired).2.2.bombsWalled =
      (dropBombs p dt rnd (frontRankInvaders (p.collide game dt rnd fired).2.1.invaders)
          game.config.invaderFiles p.bombs).1.countP
        (fun b => p.wallBlocks.any (bombHitsWall b)) ∧
    (p.collide game dt rnd fired).1.score =
      (rocketInvaderCollisions game.config p.rockets game.score p.invaders).1.2
        - 5 * ((p.collide game dt rnd fired).2.2.bombsWalled : ℚ) := by
  have hsafe : ∀ b : Bomb, p.wallBlocks.any (bombHitsWall b) = true →
      bombHitsShip p.ship b = false := by
    intro b hb
    obtain ⟨w, hmem, hit⟩ := List.any_eq_true.mp hb
    exact wall_below_ship p.ship w b game.gameBounds.bottom hy hh (hw w hmem).1 (hw w hmem).2 hit
  have hwalled : ∀ b : Bomb,
      (!bombHitsShip p.ship b && p.wallBlocks.any (bombHitsWall b))
        = p.wallBlocks.any (bombHitsWall b) := by
    intro b
    cases hb : p.wallBlocks.any (bombHitsWall b)
    · simp
    · simp [hsafe b hb]
  have hcaught : ∀ b : Bomb,
      (bombHitsShip p.ship b && !p.wallBlocks.any (bombHitsWall b)) = bombHitsShip p.ship b := by
    intro b
    cases hb : p.wallBlocks.any (bombHitsWall b)
    · simp
    · simp [hsafe b hb]
  obtain ⟨h1, h2, h3, h4, h5⟩ := bomb_passes p.ship p.wallBlocks game.lives
    (rocketInvaderCollisions game.config p.rockets game.score p.invaders).1.2
    (dropBombs p dt rnd
      (frontRankInvaders (rocketInvaderCollisions game.config p.rockets game.score p.invaders).2)
      game.config.invaderFiles p.bombs).1
  simp only [hwalled] at h3 h5
  unfold PlayState.collide
  simp only []
  refine ⟨?_, ?_, ?_, h5, ?_⟩
  · intro b _ hin
    refine ⟨hsafe b hin, ?_⟩
    rw [h1]
    intro hmem
    have := (List.mem_filter.mp hmem).2
    simp [hin] at this
  · rw [h4, List.countP_filter]
    simp only [hcaught]
  · rw [h2, h4]
  · rw [h3, h5]

/-- C13 witness: in the update of `bombGame` the ship stands on the bottom bound,
450, and the wall block is at 520; the bomb that the update moves to (400,
520) is inside the block, outside the ship, and not among the bombs left; the
update leaves `lives` as it was and the score 5 lower. -/
theorem wall_absorbs_bomb_witness :
    bombPlay.simulate bombGame (1 / 50) 0 (fun _ => 1)
      = some (bombPlayMoved.collide bombGame (1 / 50) (fun _ => 1) false) ∧
    bombPlayMoved.ship.y = some bombGame.gameBounds.bottom ∧
    (bombPlayMoved.collide bombGame (1 / 50) (fun _ => 1) false).1.lives = bombGame.lives ∧
    (bombPlayMoved.collide bombGame (1 / 50) (fun _ => 1) false).1.score
      = bombGame.score - 5 ∧
    bombHitsShip bombPlayMoved.ship { x := 400, y := 520, velocity := 50, image := 1 }
      = false ∧
    { x := 400, y := 520, velocity := 50, image := 1 } ∉
      (bombPlayMoved.collide bombGame (1 / 50) (fun _ => 1) false).2.1.bombs :=
  ⟨by decide!, by decide!, by decide!, by decide!,
    (wall_absorbs_bomb bombGame bombPlayMoved (1 / 50) (fun _ => 1) false
      (by decide!) (by decide!) (by decide!)).1
      { x := 400, y := 520, velocity := 50, image := 1 } (by decide!) (by decide!)⟩

/-- C14 (wall blocks), amended: no update changes `wallBlocks`; a bomb that
collides with a wall block is removed and costs 5 points, and the block stays. -/
theorem wall_blocks_unchanged (game : Game) (p : PlayState) (dt now : ℚ) (rnd : Nat → ℚ)
    (out : Game × PlayState × TickReport)
    (hsim : p.simulate game dt now rnd = some out) :
    out.2.1.wallBlocks = p.wallBlocks := by
  obtain ⟨p4, hadv, hout⟩ := simulate_parts game p dt now rnd out hsim
  obtain ⟨-, hw, -⟩ := advance_spec _ _ _ _ hadv
  rw [hout, (collide_frame _ p4 dt rnd _).2.1, hw, (control_frame game p dt now).1]

/-- C14 witness: the update of `bombGame`, in which the wall pass removes a
bomb, leaves the one wall block in place. -/
theorem wall_blocks_unchanged_witness :
    bombPlay.simulate bombGame (1 / 50) 0 (fun _ => 1) = some bombOutcome ∧
    bombOutcome.2.2.bombsWalled = 1 ∧ bombOutcome.1.score = bombGame.score - 5 ∧
    bombOutcome.2.1.wallBlocks = bombPlay.wallBlocks :=
  ⟨by decide!, by decide!, by decide!,
    wall_blocks_unchanged bombGame bombPlay (1 / 50) 0 (fun _ => 1) bombOutcome (by decide!)⟩

/-- C14 as stated fails: it is not the case that every update leaves one wall
block fewer for each bomb the wall pass absorbs; the update of `bombGame`
absorbs one bomb and leaves the wall at one block. -/
theorem wall_block_not_removed :
    ¬ ∀ (game : Game) (p : PlayState) (dt now : ℚ) (rnd : Nat → ℚ)
        (out : Game × PlayState × TickReport),
        p.simulate game dt now rnd = some out →
        out.2.1.wallBlocks.length + out.2.2.bombsWalled = p.wallBlocks.length := by
  intro h
  have h1 := h bombGame bombPlay (1 / 50) 0 (fun _ => 1) bombOutcome (by decide!)
  have h2 : bombOutcome.2.1.wallBlocks.length = 1 := by decide!
  have h3 : bombOutcome.2.2.bombsWalled = 1 := by decide!
  have h4 : bombPlay.wallBlocks.length = 1 := by decide!
  omega

/-! ## The ship and the projectiles -/

/-- C15 (the ship stays in the play area). For every set of pressed keys, every
`dt`, ship speed and starting position of the ship: when the left bound is not
to the right of the right bound, the ship of the Play state after the update
has `gameBounds.left <= ship.x <= gameBounds.right`. -/
theorem ship_in_bounds (game : Game) (p : PlayState) (dt now : ℚ) (rnd : Nat → ℚ)
    (out : Game × PlayState × TickReport)
    (hsim : p.simulate game dt now rnd = some out)
    (hb : game.gameBounds.left ≤ game.gameBounds.right) :
    game.gameBounds.left ≤ out.2.1.ship.x ∧ out.2.1.ship.x ≤ game.gameBounds.right := by
  obtain ⟨p4, hadv, hout⟩ := simulate_parts game p dt now rnd out hsim
  obtain ⟨hs, -⟩ := advance_spec _ _ _ _ hadv
  rw [hout, (collide_frame _ p4 dt rnd _).1, hs]
  exact control_ship_x game p dt now hb

/-- C15 witness: the ship of `leftEdgePlay` stands on the left bound with the
left arrow key down; the update leaves it on the bound. -/
theorem ship_in_bounds_witness :
    leftEdgePlay.simulate leftEdgeGame (1 / 50) 0 (fun _ => 1) = some leftEdgeOutcome ∧
    leftEdgeGame.gameBounds.left ≤ leftEdgeGame.gameBounds.right ∧
    leftEdgePlay.ship.x - leftEdgePlay.shipSpeed * (1 / 50) < leftEdgeGame.gameBounds.left ∧
    leftEdgeGame.gameBounds.left ≤ leftEdgeOutcome.2.1.ship.x ∧
    leftEdgeOutcome.2.1.ship.x ≤ leftEdgeGame.gameBounds.right :=
  ⟨by decide!, by decide!, by decide!,
    ship_in_bounds leftEdgeGame leftEdgePlay (1 / 50) 0 (fun _ => 1) leftEdgeOutcome
      (by decide!) (by decide!)⟩

/-- C16 (rocket advance and clean-up). For every rocket list and every `dt`, the
rocket loop leaves exactly the rockets of the list, each advanced once
(`y - velocity * dt`), whose new `y` is not below 0, in their original order;
for a rocket with a numeric `y` that is `new y >= 0`.  The update applies the
loop to its rocket list, and the collision pass only removes rockets, so no
rocket with `y < 0` remains after any update. -/
theorem rocket_cleanup :
    (∀ (dt : ℚ) (rockets : List Rocket),
      moveRockets dt rockets = (rockets.map (Rocket.advance dt)).filter fun r => !ltNum r.y 0) ∧
    (∀ (dt : ℚ) (r : Rocket) (v : ℚ), r.y = some v →
      (Rocket.advance dt r).y = some (v - dt * r.velocity) ∧
      ((!ltNum (Rocket.advance dt r).y 0) = true ↔ 0 ≤ v - dt * r.velocity)) ∧
    (∀ (game : Game) (p : PlayState) (dt now : ℚ) (rnd : Nat → ℚ)
        (out : Game × PlayState × TickReport),
      p.simulate game dt now rnd = some out →
      out.2.1.rockets.Sublist (moveRockets dt (p.control game dt now).2.1.rockets) ∧
      ∀ r ∈ out.2.1.rockets, ltNum r.y 0 = false) := by
  refine ⟨moveRockets_eq, ?_, ?_⟩
  · intro dt r v hv
    simp only [Rocket.advance, hv, subNum, ltNum, true_and, Bool.not_eq_true',
      decide_eq_false_iff_not, not_lt]
  · intro game p dt now rnd out hsim
    obtain ⟨p4, hadv, hout⟩ := simulate_parts game p dt now rnd out hsim
    obtain ⟨-, -, hr, -⟩ := advance_spec _ _ _ _ hadv
    have hsub : out.2.1.rockets.Sublist (moveRockets dt (p.control game dt now).2.1.rockets) := by
      rw [hout, (collide_frame _ p4 dt rnd _).2.2.2.2.2.2.1, ← hr]
      exact (rocketInvader_sublist _ _ _ _).1
    refine ⟨hsub, ?_⟩
    intro r hmem
    have hm := hsub.subset hmem
    rw [moveRockets_eq] at hm
    have := (List.mem_filter.mp hm).2
    simpa using this

/-- C16 witness: of three rockets at heights 1, 2 and 3, advanced by 2.4, only
the third is left, at 0.6; and no rocket is below 0 after the update of
`lastKillGame`. -/
theorem rocket_cleanup_witness :
    moveRockets (1 / 50)
        [{ x := 1, y := some 1, velocity := 120 }, { x := 2, y := some 2, velocity := 120 },
         { x := 3, y := some 3, velocity := 120 }]
      = [{ x := 3, y := some (3 / 5), velocity := 120 }] ∧
    ∀ r ∈ lastKillOutcome.2.1.rockets, ltNum r.y 0 = false :=
  ⟨by rw [rocket_cleanup.1]; decide!,
    (rocket_cleanup.2.2 lastKillGame samplePlay (1 / 50) 0 (fun _ => 1) lastKillOutcome
      (by decide!)).2⟩

/-- C17 (bomb clean-up), on the code: in the update of `bombGame` the second
bomb moves from y = 599.5 to y = 600.5, below the bottom of the 600-high
screen, and is still in the bomb list after the update: the loop compares
`bomb.y` with `this.height`, which a Play state does not have. -/
theorem bomb_below_screen_kept :
    bombPlay.simulate bombGame (1 / 50) 0 (fun _ => 1) = some bombOutcome ∧
    bombGame.height = 600 ∧
    bombPlay.update bombGame (1 / 50) 0 (fun _ => 1)
      = some (bombOutcome.1.setCurrent (.play bombOutcome.2.1)) ∧
    (bombOutcome.1.setCurrent (.play bombOutcome.2.1)).currentState
      = some (.play bombOutcome.2.1) ∧
    bombOutcome.2.1.bombs = [{ x := 100, y := 1201 / 2, velocity := 50, image := 2 }] ∧
    bombOutcome.2.1.bombs.any (fun b => decide (b.y > bombGame.height)) = true := by
  refine ⟨?_, ?_, ?_, ?_, ?_, ?_⟩ <;> decide!

/-- C18 witness: the swarm of `edgePlay` moves left at 32.5 and its second
invader would cross the left bound; after the update it drops at 32.5 and the
queued velocity is 32.5 to the right. -/
theorem swarm_bounce_witness :
    edgePlay.invaderVelocity = some { x := -(65 / 2), y := 0 } ∧
    edgePlay.invaderCurrentVelocity = 65 / 2 ∧ edgeGame.config.invaderAcceleration = 0 ∧
    (∃ inv ∈ edgePlay.invaders, inv.x + -(65 / 2) * (1 / 50) < edgeGame.gameBounds.left) ∧
    ∃ out, edgePlay.simulate edgeGame (1 / 50) 0 (fun _ => 1) = some out ∧
      out.2.1.invadersAreDropping = true ∧
      out.2.1.invaderVelocity
        = some { x := 0,
                 y := edgePlay.invaderCurrentVelocity + edgeGame.config.invaderAcceleration } ∧
      ∃ nx, out.2.1.invaderNextVelocity = some { x := nx, y := 0 } ∧
        (-(65 / 2) < (0 : ℚ) →
          nx = edgePlay.invaderCurrentVelocity + edgeGame.config.invaderAcceleration) ∧
        ((0 : ℚ) < -(65 / 2) →
          nx = -(edgePlay.invaderCurrentVelocity + edgeGame.config.invaderAcceleration)) ∧
        nx * -(65 / 2) < 0 ∧
        |nx| = edgePlay.invaderCurrentVelocity + edgeGame.config.invaderAcceleration ∧
        |nx| = |(-(65 / 2) : ℚ)| + edgeGame.config.invaderAcceleration :=
  ⟨by decide!, by decide!, by decide!, by decide!,
    swarm_bounce edgeGame edgePlay (1 / 50) 0 (fun _ => 1) (-(65 / 2)) (by decide!)
      (by rw [abs_neg, abs_of_pos (by norm_num)]; decide!) (by decide!) (by decide!)
      (Or.inl ⟨by norm_num, by decide!, by decide!⟩)⟩

/-- C18 as stated fails: `brakeGame` has the acceleration -40 and the swarm of
`edgePlay` moves left at speed `c = 32.5`; its second invader would cross the
left bound and no invader the right one.  After the update the swarm is in the
dropping phase with velocity `(0, c + a) = (0, -7.5)`, and the queued velocity
is `(-7.5, 0)`: it points left, as the velocity before the bounce did, and its
magnitude 7.5 is not `c + a = -7.5`. -/
theorem bounce_keeps_direction :
    edgePlay.invaderVelocity = some { x := -(65 / 2), y := 0 } ∧
    edgePlay.invaderCurrentVelocity = 65 / 2 ∧ brakeGame.config.invaderAcceleration = -40 ∧
    edgePlay.invaders.any
      (fun inv => decide (inv.x + -(65 / 2) * (1 / 50) < brakeGame.gameBounds.left)) = true ∧
    edgePlay.invaders.any
      (fun inv => decide (inv.x + -(65 / 2) * (1 / 50) > brakeGame.gameBounds.right)) = false ∧
    (edgePlay.simulate brakeGame (1 / 50) 0 (fun _ => 1)).map
        (fun out => (out.2.1.invadersAreDropping, out.2.1.invaderVelocity,
          out.2.1.invaderNextVelocity))
      = some (true, some { x := 0, y := -(15 / 2) }, some { x := -(15 / 2), y := 0 }) := by
  refine ⟨?_, ?_, ?_, ?_, ?_, ?_⟩ <;> decide!

/-- C19 (bounce tick), on the code: in the update of `edgeGame` the second
invader's prospective x, 50.2 - 0.65, is left of the left bound 50, so the
tick is a bounce tick; the first invader of the list has nevertheless been
moved, from x = 400 to x = 399.35, because the loop commits each move before
it has looked at the invaders that follow. -/
theorem bounce_tick_moves_earlier_invaders :
    edgePlay.simulate edgeGame (1 / 50) 0 (fun _ => 1) = some edgeOutcome ∧
    edgePlay.invaderVelocity = some { x := -(65 / 2), y := 0 } ∧
    edgePlay.invaders.any
      (fun inv => decide (inv.x + -(65 / 2) * (1 / 50) < edgeGame.gameBounds.left)) = true ∧
    edgePlay.invaders.map Invader.x = [400, 251 / 5] ∧
    edgeOutcome.2.1.invaders.map Invader.x = [7987 / 20, 251 / 5] ∧
    edgeOutcome.2.1.invadersAreDropping = true := by
  refine ⟨?_, ?_, ?_, ?_, ?_, ?_⟩ <;> decide!

theorem updateInvaderVelocities_some (config : Config) (p : PlayState) (dt : ℚ) (v : Vec)
    (hitLeft hitRight : Bool) (hv : p.invaderVelocity = some v) :
    ∃ q, updateInvaderVelocities config p dt hitLeft hitRight = some q := by
  unfold updateInvaderVelocities
  simp only [hv]
  by_cases hd : p.invadersAreDropping = true
  · by_cases hdist : config.invaderDropDistance ≤ fl (p.invaderCurrentDropDistance + fl (v.y * dt))
    · simp only [hd, hdist, if_true]
      exact ⟨_, rfl⟩
    · simp only [hd, hdist, if_true, if_false]
      exact ⟨_, rfl⟩
  · simp only [hd, if_false]
    exact ⟨_, rfl⟩

/-- An update executed while the swarm is dropping (`invaderVelocity = (0, v)`)
completes and moves no invader: the invaders after it are invaders of before
it, each with its x and y unchanged, in the same order (the rocket/invader
pass may have removed some). -/
theorem drop_phase_moves_nothing (game : Game) (p : PlayState) (dt now : ℚ) (rnd : Nat → ℚ)
    (v : ℚ) (hvel : p.invaderVelocity = some { x := 0, y := v }) :
    ∃ out, p.simulate game dt now rnd = some out ∧ out.2.1.invaders.Sublist p.invaders := by
  obtain ⟨-, cinv, -, cv, -⟩ := control_frame game p dt now
  have hv1 : (p.control game dt now).2.1.invaderVelocity = some { x := 0, y := v } := by
    rw [cv, hvel]
  obtain ⟨r, hr, hadv⟩ := advance_flags (p.control game dt now).1 (p.control game dt now).2.1
    dt { x := 0, y := v } hv1
  have hstill := moveInvaders_still _ _ _ _ _ _ _ hr
  obtain ⟨q, hq⟩ := updateInvaderVelocities_some (p.control game dt now).1.config
    { (p.control game dt now).2.1 with
      bombs := moveBombs (p.control game dt now).2.1 dt (p.control game dt now).2.1.bombs
      rockets := moveRockets dt (p.control game dt now).2.1.rockets
      invaders := r.1 } dt { x := 0, y := v } r.2.1 r.2.2 hv1
  have hqi := (updateInvaderVelocities_frame _ _ _ _ _ _ hq).2.2.2.2
  rw [← hadv] at hq
  refine ⟨q.collide (p.control game dt now).1 dt rnd (p.control game dt now).2.2, ?_, ?_⟩
  · unfold PlayState.simulate
    simp only [hq]
  · rw [(collide_frame _ q dt rnd _).2.2.2.2.2.2.2]
    have hsub := (rocketInvader_sublist (p.control game dt now).1.config q.rockets
      (p.control game dt now).1.score q.invaders).2.1
    have hq_inv : q.invaders = p.invaders := by
      rw [hqi]
      simp only [hstill, cinv]
    exact hsub.trans (by simp [hq_inv])

/-- C20 (the swarm descends during the drop phase), on the code: it is not the
case that in every update executed while the swarm is dropping at `(0, v)`
with `v > 0` the y of the invaders increases by `v * dt`.  In the update of
`dropGame` (v = 32.5, dt = 1/50, no invader removed) every invader keeps
y = 190: the move loop computes `newy` and assigns only `invader.x`. -/
theorem drop_phase_no_descent :
    ¬ ∀ (game : Game) (p : PlayState) (dt now : ℚ) (rnd : Nat → ℚ) (v : ℚ)
        (out : Game × PlayState × TickReport),
        p.invaderVelocity = some { x := 0, y := v } → 0 < v →
        p.simulate game dt now rnd = some out → out.2.2.invadersRemoved = 0 →
        out.2.1.invaders.map Invader.y = p.invaders.map fun inv => inv.y + v * dt := by
  intro h
  have h1 := h dropGame dropPlay (1 / 50) 0 (fun _ => 1) (65 / 2) dropOutcome (by decide!)
    (by norm_num) (by decide!) (by decide!)
  have h2 : ¬ dropOutcome.2.1.invaders.map Invader.y
      = dropPlay.invaders.map fun inv => inv.y + 65 / 2 * (1 / 50) := by decide!
  exact h2 h1

/-! ## Invader identity -/

/-- The invader loop changes nothing but `x`: the (rank, file) pairs stay. -/
theorem moveInvaders_keys (bounds : Bounds) (velocity : Option Vec) (dt : ℚ) :
    ∀ (invaders : List Invader) (hitLeft hitRight : Bool) (r : List Invader × Bool × Bool),
      moveInvaders bounds velocity dt invaders hitLeft hitRight = some r →
      r.1.map Invader.key = invaders.map Invader.key := by
  intro invaders
  induction invaders with
  | nil =>
    intro hl hr r h
    simp only [moveInvaders, Option.some.injEq] at h
    subst h
    rfl
  | cons inv rest ih =>
    intro hl hr r h
    cases velocity with
    | none => simp [moveInvaders] at h
    | some v =>
      simp only [moveInvaders] at h
      split at h
      · cases h
      · rename_i rest1 l r1 hrec
        simp only [Option.some.injEq] at h
        subst h
        have := ih _ _ (rest1, l, r1) hrec
        simp only at this
        simp only [List.map_cons, this]
        congr 1
        split_ifs <;> rfl

/-- C21 (invader identity). For every configuration, `PlayState.enter` creates
exactly `invaderRanks * invaderFiles` invaders (50 by default), whose
(rank, file) pairs are, in list order, all pairs in rank-major order, hence
pairwise distinct.  Every update keeps this: the (rank, file) pairs of the
invaders after it are a sub-sequence of those before it (invaders are only
removed, and none changes its rank or file), so they stay pairwise distinct. -/
theorem invader_identity :
    (∀ (game : Game) (level : Int),
      (PlayState.enter game level).invaders.map Invader.key
        = ((List.range game.config.invaderRanks).flatMap fun rank =>
            (List.range game.config.invaderFiles).map fun file => (rank, file)) ∧
      (PlayState.enter game level).invaders.length
        = game.config.invaderRanks * game.config.invaderFiles ∧
      ((PlayState.enter game level).invaders.map Invader.key).Nodup) ∧
    (PlayState.enter { sampleGame with config := Config.default } 1).invaders.length = 50 ∧
    (∀ (game : Game) (p : PlayState) (dt now : ℚ) (rnd : Nat → ℚ)
        (out : Game × PlayState × TickReport),
      p.simulate game dt now rnd = some out →
      (out.2.1.invaders.map Invader.key).Sublist (p.invaders.map Invader.key) ∧
      ((p.invaders.map Invader.key).Nodup → (out.2.1.invaders.map Invader.key).Nodup)) := by
  have hkeys : ∀ (game : Game) (level : Int),
      (PlayState.enter game level).invaders.map Invader.key
        = ((List.range game.config.invaderRanks).flatMap fun rank =>
            (List.range game.config.invaderFiles).map fun file => (rank, file)) := by
    intro game level
    simp only [PlayState.enter, List.map_flatMap, List.map_map]
    rfl
  have hprod : ∀ (m n : Nat),
      ((List.range m).flatMap fun rank => (List.range n).map fun file => (rank, file))
        = (List.range m) ×ˢ (List.range n) := fun _ _ => rfl
  have hlen : ∀ (game : Game) (level : Int),
      (PlayState.enter game level).invaders.length
        = game.config.invaderRanks * game.config.invaderFiles := by
    intro game level
    have := congrArg List.length (hkeys game level)
    rw [List.length_map, hprod, List.length_product, List.length_range, List.length_range] at this
    exact this
  refine ⟨fun game level => ⟨hkeys game level, hlen game level, ?_⟩, ?_, ?_⟩
  · rw [hkeys, hprod]
    exact List.Nodup.product (List.nodup_range _) (List.nodup_range _)
  · rw [hlen]; rfl
  · intro game p dt now rnd out hsim
    obtain ⟨p4, hadv, hout⟩ := simulate_parts game p dt now rnd out hsim
    obtain ⟨-, -, -, -, r, hm, hinv, -⟩ := advance_spec _ _ _ _ hadv
    have hk := moveInvaders_keys _ _ _ _ _ _ _ hm
    rw [(control_frame game p dt now).2.1] at hk
    have hsub : (out.2.1.invaders.map Invader.key).Sublist (p.invaders.map Invader.key) := by
      rw [hout, (collide_frame _ p4 dt rnd _).2.2.2.2.2.2.2, ← hk, ← hinv]
      exact (rocketInvader_sublist _ _ _ _).2.1.map _
    exact ⟨hsub, fun hnd => hsub.nodup hnd⟩

/-! ## Victory -/

theorem checkVictory_shipSpeed (g : Game) :
    (PlayState.checkVictory g).config.shipSpeed = g.config.shipSpeed := by
  unfold PlayState.checkVictory
  split
  · rw [(moveToState_fields _ _).2.2.1]
  · rfl

/-- C22 (victory and the ship's speed), on the code: the victory in the update
of `lastKillGame` leaves `config.shipSpeed` at 150; it creates the property
`config.shipspeed` (lower case), whose value is not a number.  The Play state
entered for level 2 therefore has the ship speed 150 of the level just won. -/
theorem victory_keeps_ship_speed :
    samplePlay.shipSpeed = 150 ∧ lastKillGame.config.shipSpeed = 150 ∧
    (samplePlay.update lastKillGame (1 / 50) 0 (fun _ => 1)).map
        (fun g => (g.level, g.config.shipSpeed, g.config.shipspeed,
          (PlayState.enter g 2).shipSpeed))
      = some (2, 150, none, 150) := by
  refine ⟨?_, ?_, ?_⟩ <;> decide!

/-- C24 (rebased score). For every victory tick, with `N` the level just
advanced to, the score after the update is `max(5, 50 - 5 * N)`; it is
therefore at least 5, and exactly 5 when `N >= 9`; and of two victories the
one that advances to the higher level leaves the score that is not higher. -/
theorem rebased_score_floor :
    (∀ (game : Game) (p : PlayState) (dt now : ℚ) (rnd : Nat → ℚ)
        (out : Game × PlayState × TickReport),
      p.simulate game dt now rnd = some out → 100 ≤ out.1.score →
      ∃ g2, p.update game dt now rnd = some g2 ∧ g2.level = game.level + 1 ∧
        g2.score = max 5 (50 - 5 * ((g2.level : Int) : ℚ)) ∧ 5 ≤ g2.score ∧
        (9 ≤ g2.level → g2.score = 5)) ∧
    (∀ (g1 g2 : Game), 100 ≤ g1.score → 100 ≤ g2.score → g1.level ≤ g2.level →
      (PlayState.checkVictory g2).score ≤ (PlayState.checkVictory g1).score) := by
  have hmax : ∀ N : Int,
      (if N ≤ 9 then 50 - 5 * ((N : Int) : ℚ) else 5) = max 5 (50 - 5 * ((N : Int) : ℚ)) := by
    intro N
    by_cases h : N ≤ 9
    · have : ((N : Int) : ℚ) ≤ 9 := by exact_mod_cast h
      rw [if_pos h, max_eq_right (by linarith)]
    · have : (9 : ℚ) < ((N : Int) : ℚ) := by exact_mod_cast not_le.mp h
      rw [if_neg h, max_eq_left (by linarith)]
  constructor
  · intro game p dt now rnd out hsim hscore
    refine ⟨_, update_eq game p dt now rnd out hsim, ?_⟩
    have hs := simulate_spec game p dt now rnd out hsim
    have hf := checkFailure_fields (out.1.setCurrent (.play out.2.1)) out.2.1
    have hc := setCurrent_fields out.1 (.play out.2.1)
    have hge : 100 ≤ (out.2.1.checkFailure (out.1.setCurrent (.play out.2.1))).score := by
      rw [hf.2.1, hc.2.1]; exact hscore
    have hv := checkVictory_of_ge _ hge
    have hl : (out.2.1.checkFailure (out.1.setCurrent (.play out.2.1))).level = game.level := by
      rw [hf.1, hc.1, hs.1]
    rw [hl] at hv
    obtain ⟨hv1, hv2, -⟩ := hv
    have hform : (PlayState.checkVictory
        (out.2.1.checkFailure (out.1.setCurrent (.play out.2.1)))).score
        = max 5 (50 - 5 * (((PlayState.checkVictory
          (out.2.1.checkFailure (out.1.setCurrent (.play out.2.1)))).level : Int) : ℚ)) := by
      rw [hv2, hv1, hmax]
    refine ⟨hv1, hform, ?_, ?_⟩
    · rw [hform]; exact le_max_left _ _
    · intro h9
      rw [hform]
      have : (9 : ℚ) ≤ (((PlayState.checkVictory
          (out.2.1.checkFailure (out.1.setCurrent (.play out.2.1)))).level : Int) : ℚ) := by
        exact_mod_cast h9
      exact max_eq_left (by linarith)
  · intro g1 g2 h1 h2 hle
    rw [(checkVictory_of_ge g1 h1).2.1, (checkVictory_of_ge g2 h2).2.1, hmax, hmax]
    have : ((g1.level + 1 : Int) : ℚ) ≤ ((g2.level + 1 : Int) : ℚ) := by
      exact_mod_cast Int.add_le_add_right hle 1
    exact max_le_max (le_refl _) (by linarith)

/-- C24 witness: the victory of `lastKillGame` advances to level 2 and leaves
`max(5, 50 - 5 * 2) = 40`. -/
theorem rebased_score_floor_witness :
    samplePlay.simulate lastKillGame (1 / 50) 0 (fun _ => 1) = some lastKillOutcome ∧
    100 ≤ lastKillOutcome.1.score ∧
    ∃ g2, samplePlay.update lastKillGame (1 / 50) 0 (fun _ => 1) = some g2 ∧
      g2.level = lastKillGame.level + 1 ∧
      g2.score = max 5 (50 - 5 * ((g2.level : Int) : ℚ)) ∧ 5 ≤ g2.score ∧
      (9 ≤ g2.level → g2.score = 5) :=
  ⟨by decide!, by decide!,
    rebased_score_floor.1 lastKillGame samplePlay (1 / 50) 0 (fun _ => 1) lastKillOutcome
      (by decide!) (by decide!)⟩

/-- C21 witness: the update of `lastKillGame` destroys the one invader; the
pairs left, none, are a sub-sequence of the pair before. -/
theorem invader_identity_witness :
    samplePlay.simulate lastKillGame (1 / 50) 0 (fun _ => 1) = some lastKillOutcome ∧
    (samplePlay.invaders.map Invader.key).Nodup ∧
    (lastKillOutcome.2.1.invaders.map Invader.key).Sublist
      (samplePlay.invaders.map Invader.key) ∧
    (lastKillOutcome.2.1.invaders.map Invader.key).Nodup :=
  ⟨by decide!, by decide!,
    (invader_identity.2.2 lastKillGame samplePlay (1 / 50) 0 (fun _ => 1) lastKillOutcome
      (by decide!)).1,
    (invader_identity.2.2 lastKillGame samplePlay (1 / 50) 0 (fun _ => 1) lastKillOutcome
      (by decide!)).2 (by decide!)⟩

/-! ## The front rank and the bomb spawn -/

/-- The invariant of the loop that builds the front-rank map, after the
invaders `seen`: a file without entry has no invader in `seen`, and the entry
of a file is an invader of `seen` in that file whose rank none exceeds. -/
theorem frontRank_fold :
    ∀ (rest seen : List Invader) (m : Nat → Option Invader),
      ((∀ f, m f = none → ∀ inv ∈ seen, inv.file ≠ f) ∧
        ∀ f top, m f = some top →
          top ∈ seen ∧ top.file = f ∧ ∀ o ∈ seen, o.file = f → o.rank ≤ top.rank) →
      ((∀ f, (rest.foldl
          (fun m invader =>
            match m invader.file with
            | none => Function.update m invader.file (some invader)
            | some front =>
              if front.rank < invader.rank then Function.update m invader.file (some invader)
              else m) m) f = none → ∀ inv ∈ seen ++ rest, inv.file ≠ f) ∧
        ∀ f top, (rest.foldl
          (fun m invader =>
            match m invader.file with
            | none => Function.update m invader.file (some invader)
            | some front =>
              if front.rank < invader.rank then Function.update m invader.file (some invader)
              else m) m) f = some top →
          top ∈ seen ++ rest ∧ top.file = f ∧
            ∀ o ∈ seen ++ rest, o.file = f → o.rank ≤ top.rank) := by
  intro rest
  induction rest with
  | nil => intro seen m h; simpa using h
  | cons inv rest ih =>
    intro seen m h
    obtain ⟨hnone, hsome⟩ := h
    simp only [List.foldl_cons]
    have hstep : (∀ f, (match m inv.file with
          | none => Function.update m inv.file (some inv)
          | some front =>
            if front.rank < inv.rank then Function.update m inv.file (some inv) else m) f = none →
          ∀ i ∈ seen ++ [inv], i.file ≠ f) ∧
        ∀ f top, (match m inv.file with
          | none => Function.update m inv.file (some inv)
          | some front =>
            if front.rank < inv.rank then Function.update m inv.file (some inv) else m) f
            = some top →
          top ∈ seen ++ [inv] ∧ top.file = f ∧
            ∀ o ∈ seen ++ [inv], o.file = f → o.rank ≤ top.rank := by
      cases hm : m inv.file with
      | none =>
        simp only []
        constructor
        · intro f hf i hi
          by_cases hfe : f = inv.file
          · subst hfe; simp at hf
          · rw [Function.update_noteq hfe] at hf
            rcases List.mem_append.mp hi with hi | hi
            · exact hnone f hf i hi
            · simp only [List.mem_singleton] at hi
              subst hi
              exact fun h => hfe h.symm
        · intro f top hf
          by_cases hfe : f = inv.file
          · subst hfe
            simp only [Function.update_same, Option.some.injEq] at hf
            subst hf
            refine ⟨by simp, rfl, ?_⟩
            intro o ho hof
            rcases List.mem_append.mp ho with ho | ho
            · exact absurd hof (hnone _ hm o ho)
            · simp only [List.mem_singleton] at ho
              subst ho
              exact le_refl _
          · rw [Function.update_noteq hfe] at hf
            obtain ⟨h1, h2, h3⟩ := hsome f top hf
            refine ⟨List.mem_append_left _ h1, h2, ?_⟩
            intro o ho hof
            rcases List.mem_append.mp ho with ho | ho
            · exact h3 o ho hof
            · simp only [List.mem_singleton] at ho
              subst ho
              exact absurd hof.symm hfe
      | some front =>
        simp only []
        obtain ⟨g1, g2, g3⟩ := hsome _ front hm
        by_cases hlt : front.rank < inv.rank
        · simp only [hlt, if_true]
          constructor
          · intro f hf i hi
            by_cases hfe : f = inv.file
            · subst hfe; simp at hf
            · rw [Function.update_noteq hfe] at hf
              rcases List.mem_append.mp hi with hi | hi
              · exact hnone f hf i hi
              · simp only [List.mem_singleton] at hi
                subst hi
                exact fun h => hfe h.symm
          · intro f top hf
            by_cases hfe : f = inv.file
            · subst hfe
              simp only [Function.update_same, Option.some.injEq] at hf
              subst hf
              refine ⟨by simp, rfl, ?_⟩
              intro o ho hof
              rcases List.mem_append.mp ho with ho | ho
              · exact le_of_lt (lt_of_le_of_lt (g3 o ho hof) hlt)
              · simp only [List.mem_singleton] at ho
                subst ho
                exact le_refl _
            · rw [Function.update_noteq hfe] at hf
              obtain ⟨h1, h2, h3⟩ := hsome f top hf
              refine ⟨List.mem_append_left _ h1, h2, ?_⟩
              intro o ho hof
              rcases List.mem_append.mp ho with ho | ho
              · exact h3 o ho hof
              · simp only [List.mem_singleton] at ho
                subst ho
                exact absurd hof.symm hfe
        · simp only [hlt, if_false]
          constructor
          · intro f hf i hi
            rcases List.mem_append.mp hi with hi | hi
            · exact hnone f hf i hi
            · simp only [List.mem_singleton] at hi
              subst hi
              intro hfe
              rw [← hfe, hm] at hf
              cases hf
          · intro f top hf
            obtain ⟨h1, h2, h3⟩ := hsome f top hf
            refine ⟨List.mem_append_left _ h1, h2, ?_⟩
            intro o ho hof
            rcases List.mem_append.mp ho with ho | ho
            · exact h3 o ho hof
            · simp only [List.mem_singleton] at ho
              subst ho
              rw [← hof, hm] at hf
              cases hf
              exact not_lt.mp hlt
    have := ih (seen ++ [inv]) _ hstep
    simpa using this

/-- The bomb spawn as a fold over the columns: each column yields at most one
bomb, at its front invader, and none when it has no front invader. -/
theorem dropBombs_fold (p : PlayState) (dt : ℚ) (rnd : Nat → ℚ)
    (front : Nat → Option Invader) :
    ∀ (columns : List Nat) (s : List Bomb × Nat),
      ∃ outs : List (Option Bomb),
        List.Forall₂
          (fun i o => ∀ b, o = some b →
            ∃ inv, front i = some inv ∧ b.x = inv.x ∧ b.y = inv.y + inv.height / 2)
          columns outs ∧
        (columns.foldl
          (fun (s : List Bomb × Nat) i =>
            match front i with
            | none => s
            | some invader =>
              let chance := p.bombRate * dt
              if rnd s.2 < chance then
                (s.1 ++ [Bomb.new invader.x (invader.y + invader.height / 2)
                    (p.bombMinVelocity + rnd (s.2 + 1) * (p.bombMaxVelocity - p.bombMinVelocity))
                    (rnd (s.2 + 2))],
                  s.2 + 3)
              else (s.1, s.2 + 1)) s).1 = s.1 ++ outs.reduceOption := by
  intro columns
  induction columns with
  | nil => intro s; exact ⟨[], List.Forall₂.nil, by simp⟩
  | cons i rest ih =>
    intro s
    simp only [List.foldl_cons]
    cases hf : front i with
    | none =>
      simp only []
      obtain ⟨outs, h1, h2⟩ := ih s
      refine ⟨none :: outs, List.Forall₂.cons (fun b hb => by cases hb) h1, ?_⟩
      rw [h2, List.reduceOption_cons_of_none]
    | some inv =>
      simp only []
      by_cases hc : rnd s.2 < p.bombRate * dt
      · simp only [hc, if_true]
        obtain ⟨outs, h1, h2⟩ := ih
          (s.1 ++ [Bomb.new inv.x (inv.y + inv.height / 2)
            (p.bombMinVelocity + rnd (s.2 + 1) * (p.bombMaxVelocity - p.bombMinVelocity))
            (rnd (s.2 + 2))], s.2 + 3)
        refine ⟨some (Bomb.new inv.x (inv.y + inv.height / 2)
            (p.bombMinVelocity + rnd (s.2 + 1) * (p.bombMaxVelocity - p.bombMinVelocity))
            (rnd (s.2 + 2))) :: outs, List.Forall₂.cons ?_ h1, ?_⟩
        · intro b hb
          simp only [Option.some.injEq] at hb
          subst hb
          exact ⟨inv, hf, rfl, rfl⟩
        · rw [h2, List.reduceOption_cons_of_some]
          simp
      · simp only [hc, if_false]
        obtain ⟨outs, h1, h2⟩ := ih (s.1, s.2 + 1)
        refine ⟨none :: outs, List.Forall₂.cons (fun b hb => by cases hb) h1, ?_⟩
        rw [h2, List.reduceOption_cons_of_none]

/-- C25 (front invader per column). For every list of live invaders: the
front-rank map has no entry for a file index without live invader, and for a
file index `f` with a live invader its entry is a live invader of file `f`
whose rank no live invader of that file exceeds; when the (rank, file) pairs
are pairwise distinct every other live invader of file `f` has a smaller rank,
so the entry is the one live invader of greatest rank in the file.  The bomb
spawn adds to the bomb list, column by column, at most one bomb per column, at
the front invader of the column, and none for a column without live invader. -/
theorem front_invader_per_column (invaders : List Invader) :
    (∀ f, (∀ inv ∈ invaders, inv.file ≠ f) → frontRankInvaders invaders f = none) ∧
    (∀ f, (∃ inv ∈ invaders, inv.file = f) →
      ∃ top, frontRankInvaders invaders f = some top ∧ top ∈ invaders ∧ top.file = f ∧
        (∀ o ∈ invaders, o.file = f → o.rank ≤ top.rank) ∧
        ((invaders.map Invader.key).Nodup →
          ∀ o ∈ invaders, o.file = f → o ≠ top → o.rank < top.rank)) ∧
    (∀ (p : PlayState) (dt : ℚ) (rnd : Nat → ℚ) (files : Nat) (bombs : List Bomb),
      ∃ outs : List (Option Bomb),
        List.Forall₂
          (fun i o => ∀ b, o = some b →
            ∃ inv, frontRankInvaders invaders i = some inv ∧ b.x = inv.x ∧
              b.y = inv.y + inv.height / 2)
          (List.range files) outs ∧
        (dropBombs p dt rnd (frontRankInvaders invaders) files bombs).1
          = bombs ++ outs.reduceOption) := by
  have hinv := frontRank_fold invaders [] (fun _ => none)
    ⟨fun _ _ inv hi => (by cases hi), fun f top h => (by cases h)⟩
  simp only [List.nil_append] at hinv
  obtain ⟨hnone, hsome⟩ := hinv
  refine ⟨?_, ?_, ?_⟩
  · intro f hf
    cases hfr : frontRankInvaders invaders f with
    | none => rfl
    | some top =>
      obtain ⟨h1, h2, -⟩ := hsome f top hfr
      exact absurd h2 (hf top h1)
  · rintro f ⟨inv, hmem, hfile⟩
    cases hfr : frontRankInvaders invaders f with
    | none => exact absurd hfile (hnone f hfr inv hmem)
    | some top =>
      obtain ⟨h1, h2, h3⟩ := hsome f top hfr
      refine ⟨top, rfl, h1, h2, h3, ?_⟩
      intro hnd o ho hof hne
      rcases Nat.lt_or_ge o.rank top.rank with hlt | hge
      · exact hlt
      · exfalso
        have hrank : o.rank = top.rank := le_antisymm (h3 o ho hof) hge
        have hkey : o.key = top.key := by
          unfold Invader.key
          rw [hrank, hof, h2]
        exact hne (List.inj_on_of_nodup_map hnd ho h1 hkey)
  · intro p dt rnd files bombs
    exact dropBombs_fold p dt rnd (frontRankInvaders invaders) (List.range files) (bombs, 0)

/-- C25 witness: of the `pairInvaders` the files 0, 1 and 2 hold one invader
each, which is the front invader of its file, and file 3 holds none. -/
theorem front_invader_per_column_witness :
    (∃ inv ∈ pairInvaders, inv.file = 1) ∧ (pairInvaders.map Invader.key).Nodup ∧
    (∀ inv ∈ pairInvaders, inv.file ≠ 3) ∧
    frontRankInvaders pairInvaders 3 = none ∧
    ∃ top, frontRankInvaders pairInvaders 1 = some top ∧ top ∈ pairInvaders ∧ top.file = 1 ∧
      (∀ o ∈ pairInvaders, o.file = 1 → o.rank ≤ top.rank) ∧
      ((pairInvaders.map Invader.key).Nodup →
        ∀ o ∈ pairInvaders, o.file = 1 → o ≠ top → o.rank < top.rank) :=
  ⟨by decide!, by decide!, by decide!,
    (front_invader_per_column pairInvaders).1 3 (by decide!),
    (front_invader_per_column pairInvaders).2.1 1 (by decide!)⟩

/-! ## Runs of Play updates -/

theorem fire_ship (c : Prop) [Decidable c] (g : Game) (p : PlayState) (now : ℚ) :
    (if c then p.fireRocket g now else (g, p)).2.ship = p.ship := by
  split
  · exact (fireRocket_frame g p now).2.2.2.1
  · rfl

theorem fire_shipSpeedY (c : Prop) [Decidable c] (g : Game) (p : PlayState) (now : ℚ) :
    (if c then p.fireRocket g now else (g, p)).2.shipSpeedY = p.shipSpeedY := by
  split
  · exact (fireRocket_frame g p now).2.2.2.2.1
  · rfl

theorem fire_jumping (c : Prop) [Decidable c] (g : Game) (p : PlayState) (now : ℚ) :
    (if c then p.fireRocket g now else (g, p)).1.jumping = g.jumping := by
  split
  · exact (fireRocket_frame g p now).2.2.2.2.2.2.2.2.2.2.2
  · rfl

theorem fire_pressedKeys (c : Prop) [Decidable c] (g : Game) (p : PlayState) (now : ℚ) :
    (if c then p.fireRocket g now else (g, p)).1.pressedKeys = g.pressedKeys := by
  split
  · unfold PlayState.fireRocket; split <;> rfl
  · rfl

theorem clamp_ship_y (s : Ship) (l r : ℚ) :
    (if r < (if s.x < l then { s with x := l } else s).x
          then { (if s.x < l then { s with x := l } else s) with x := r }
          else (if s.x < l then { s with x := l } else s)).y = s.y := by
  split_ifs <;> rfl

/-- The jump statements of the update: the ship's `y`, `shipSpeedY` and the
flag `jumping` after the first part of the update. -/
theorem control_jump (game : Game) (p : PlayState) (dt now : ℚ) :
    (p.control game dt now).2.1.ship.y =
      (if (game.jumping || decide (38 ∈ game.pressedKeys)) = true
        then subNum p.ship.y
          (if (decide (38 ∈ game.pressedKeys) && !game.jumping) = true then some 20
            else p.shipSpeedY)
        else p.ship.y) ∧
    (p.control game dt now).2.1.shipSpeedY =
      (if (game.jumping || decide (38 ∈ game.pressedKeys)) = true
        then subNum
          (if (decide (38 ∈ game.pressedKeys) && !game.jumping) = true then some 20
            else p.shipSpeedY) (some (25 / 10))
        else (if (decide (38 ∈ game.pressedKeys) && !game.jumping) = true then some 20
            else p.shipSpeedY)) ∧
    (p.control game dt now).1.jumping =
      ((game.jumping || decide (38 ∈ game.pressedKeys)) &&
        !geNum (p.control game dt now).2.1.ship.y game.gameBounds.bottom) ∧
    (p.control game dt now).1.pressedKeys = game.pressedKeys := by
  unfold PlayState.control
  simp only [clamp_ship_y, fire_ship, fire_shipSpeedY, fire_jumping, fire_pressedKeys]
  refine ⟨?_, trivial, trivial, trivial⟩
  split_ifs <;> rfl

theorem updateInvaderVelocities_shipSpeedY (config : Config) (p p1 : PlayState) (dt : ℚ)
    (hitLeft hitRight : Bool)
    (h : updateInvaderVelocities config p dt hitLeft hitRight = some p1) :
    p1.shipSpeedY = p.shipSpeedY := by
  unfold updateInvaderVelocities at h
  simp only [] at h
  split at h
  · cases h
  · rename_i q hq
    simp only [Option.some.injEq] at h
    have hq' : q.shipSpeedY = p.shipSpeedY := by
      split at hq
      · split at hq
        · cases hq
        · split at hq <;> simp only [Option.some.injEq] at hq <;> subst hq <;> rfl
      · simp only [Option.some.injEq] at hq
        subst hq
        rfl
    subst h
    cases hitLeft <;> cases hitRight <;> simpa using hq'

/-- The ship and the flag `jumping` after the part of the update before the
end-of-tick checks are those left by its first part. -/
theorem simulate_ship (game : Game) (p : PlayState) (dt now : ℚ) (rnd : Nat → ℚ)
    (out : Game × PlayState × TickReport) (h : p.simulate game dt now rnd = some out) :
    out.2.1.ship = (p.control game dt now).2.1.ship ∧
    out.2.1.shipSpeedY = (p.control game dt now).2.1.shipSpeedY ∧
    out.1.jumping = (p.control game dt now).1.jumping ∧
    out.1.pressedKeys = game.pressedKeys ∧
    out.1.gameBounds = game.gameBounds := by
  obtain ⟨p4, hadv, hout⟩ := simulate_parts game p dt now rnd out h
  obtain ⟨hs, -, -, -, r, -, -, hu⟩ := advance_spec _ _ _ _ hadv
  have hsp := updateInvaderVelocities_shipSpeedY _ _ _ _ _ _ hu
  subst hout
  refine ⟨?_, ?_, ?_, ?_, ?_⟩
  · rw [(collide_frame _ p4 dt rnd _).1, hs]
  · unfold PlayState.collide
    exact hsp
  · unfold PlayState.collide
    rfl
  · unfold PlayState.collide
    exact (control_jump game p dt now).2.2.2
  · unfold PlayState.collide
    exact (control_frame game p dt now).2.2.2.2.2.2.2.2

/-- A call of `GameLoop` with a Play state current before and after it: the
Play state after it is the one left by the update, and no transition occurred. -/
theorem gameLoop_play_step (g g1 : Game) (p p1 : PlayState) (i : TickInput)
    (hcur : g.currentState = some (.play p))
    (hloop : GameLoop g i.dt i.now i.rnd = some g1)
    (hcur1 : g1.currentState = some (.play p1)) :
    ∃ out, p.simulate g i.dt i.now i.rnd = some out ∧ p1 = out.2.1 ∧
      g1 = out.1.setCurrent (.play out.2.1) := by
  unfold GameLoop at hloop
  rw [hcur] at hloop
  simp only [] at hloop
  cases hsim : p.simulate g i.dt i.now i.rnd with
  | none =>
    unfold PlayState.update at hloop
    rw [hsim] at hloop
    cases hloop
  | some out =>
    rw [update_eq g p i.dt i.now i.rnd out hsim, Option.some.injEq] at hloop
    have hne : out.1.stateStack ≠ [] := by
      rw [(simulate_spec g p i.dt i.now i.rnd out hsim).2.2.1]
      exact stack_ne_nil_of_current g _ hcur
    have hcs := setCurrent_currentState out.1 (.play out.2.1) hne
    refine ⟨out, rfl, ?_⟩
    by_cases hv : 100 ≤ (out.2.1.checkFailure (out.1.setCurrent (.play out.2.1))).score
    · have := (checkVictory_of_ge _ hv).2.2
      rw [hloop, hcur1] at this
      cases this
    · rw [checkVictory_of_lt _ (not_le.mp hv)] at hloop
      unfold PlayState.checkFailure at hloop
      by_cases hf : out.2.1.failure (out.1.setCurrent (.play out.2.1)) = true
      · rw [if_pos hf] at hloop
        obtain ⟨gx, -, -, -, hgo⟩ := moveToState_currentState
          (out.1.setCurrent (.play out.2.1)) .gameOver
        rw [hloop, hcur1] at hgo
        simp [NewState.entered] at hgo
      · rw [if_neg hf] at hloop
        subst hloop
        rw [hcs] at hcur1
        simp only [Option.some.injEq, State.play.injEq] at hcur1
        exact ⟨hcur1.symm, rfl⟩

/-! ## The jump -/

theorem jumpHeight_facts (j : Nat) (hj : j < 17) :
    0 ≤ jumpHeight j ∧ jumpHeight j ≤ 90 ∧ (j ≠ 0 → 0 < jumpHeight j) ∧
      jumpHeight (j + 1) = jumpHeight j + (20 - 25 / 10 * (j : ℚ)) := by
  refine ⟨?_, ?_, ?_, ?_⟩
  · interval_cases j <;> norm_num [jumpHeight]
  · interval_cases j <;> norm_num [jumpHeight]
  · intro h0
    interval_cases j <;> first | exact absurd rfl h0 | norm_num [jumpHeight]
  · unfold jumpHeight
    push_cast
    ring

theorem jumpHeight_seventeen : jumpHeight 17 = 0 ∧ jumpHeight 0 = 0 ∧ jumpHeight 8 = 90 := by
  refine ⟨?_, ?_, ?_⟩ <;> norm_num [jumpHeight]

theorem setCurrent_globals (g : Game) (s : State) :
    (g.setCurrent s).jumping = g.jumping ∧ (g.setCurrent s).pressedKeys = g.pressedKeys ∧
      (g.setCurrent s).gameBounds = g.gameBounds ∧ (g.setCurrent s).config = g.config := by
  unfold Game.setCurrent
  cases g.stateStack <;> exact ⟨rfl, rfl, rfl, rfl⟩

theorem jumpPhase_lt (j : Nat) (keys : List Nat) : jumpPhase j keys < 17 := by
  unfold jumpPhase
  split_ifs <;> omega

/-- One update of the jump in phase `j` (`j = 0`: on the ground; `1 <= j <= 16`:
airborne after `j` updates) leads to phase `jumpPhase j keys`: from the ground
into phase 1 if the up key is down, from phase `j >= 1` into phase `j + 1`, from
phase 16 back to the ground. -/
theorem jump_step (game : Game) (p : PlayState) (dt now : ℚ) (rnd : Nat → ℚ)
    (out : Game × PlayState × TickReport) (j : Nat) (hj : j < 17)
    (hsim : p.simulate game dt now rnd = some out)
    (hy : p.ship.y = some (game.gameBounds.bottom - jumpHeight j))
    (hjump : game.jumping = decide (j ≠ 0))
    (hspeed : j ≠ 0 → p.shipSpeedY = some (20 - 25 / 10 * (j : ℚ))) :
    out.2.1.ship.y
      = some (game.gameBounds.bottom - jumpHeight (jumpPhase j game.pressedKeys)) ∧
    out.1.jumping = decide (jumpPhase j game.pressedKeys ≠ 0) ∧
    (jumpPhase j game.pressedKeys ≠ 0 →
      out.2.1.shipSpeedY
        = some (20 - 25 / 10 * ((jumpPhase j game.pressedKeys : Nat) : ℚ))) := by
  obtain ⟨h1, h2, h3, -, -⟩ := simulate_ship game p dt now rnd out hsim
  obtain ⟨c1, c2, c3, -⟩ := control_jump game p dt now
  rw [h1, h2, h3, c3, c1, c2]
  obtain ⟨-, -, -, hnext⟩ := jumpHeight_facts j hj
  by_cases h0 : j = 0
  · subst h0
    simp only [ne_eq, not_true_eq_false, decide_False] at hjump
    have hh : jumpHeight 1 = 20 := by norm_num [jumpHeight]
    have h00 : jumpHeight 0 = 0 := by norm_num [jumpHeight]
    by_cases hkey : 38 ∈ game.pressedKeys
    · have hph : jumpPhase 0 game.pressedKeys = 1 := by simp [jumpPhase, hkey]
      rw [hph]
      simp only [hjump, hkey, decide_True, Bool.false_or, Bool.not_false, Bool.and_self,
        if_true, hy, subNum, geNum, h00, sub_zero, hh]
      norm_num
    · have hph : jumpPhase 0 game.pressedKeys = 0 := by simp [jumpPhase, hkey]
      rw [hph]
      simp only [hjump, hkey, decide_False, Bool.or_self, Bool.false_eq_true, if_false,
        Bool.false_and, hy, h00, sub_zero, ne_eq, not_true_eq_false, false_implies,
        and_self]
  · have hph : jumpPhase j game.pressedKeys = (j + 1) % 17 := by simp [jumpPhase, h0]
    rw [hph]
    have hs := hspeed h0
    have hjt : game.jumping = true := by rw [hjump]; simp [h0]
    simp only [hjt, Bool.true_or, if_true, Bool.not_true, Bool.and_false, Bool.false_eq_true,
      if_false, hs, hy, subNum, geNum, Bool.true_and]
    by_cases h16 : j = 16
    · subst h16
      have h17 : jumpHeight 17 = 0 := jumpHeight_seventeen.1
      have h16' : jumpHeight 16 = 20 := by norm_num [jumpHeight]
      simp only [Nat.reduceAdd, Nat.mod_self, h16', jumpHeight_seventeen.2.1]
      norm_num
    · have hlt : j + 1 < 17 := by omega
      have hmod : (j + 1) % 17 = j + 1 := Nat.mod_eq_of_lt hlt
      have hpos := (jumpHeight_facts (j + 1) hlt).2.2.1 (by omega)
      rw [hmod, hnext]
      refine ⟨?_, ?_, ?_⟩
      · congr 1; ring
      · have : ¬ game.gameBounds.bottom ≤
            game.gameBounds.bottom - jumpHeight j - (20 - 25 / 10 * (j : ℚ)) := by
          rw [hnext] at hpos
          intro hle
          linarith
        simp [this]
      · intro _
        congr 1
        push_cast
        ring

/-- A run of Play updates that starts in phase `j` of the jump: every update
ends in some phase `m`, and in phase `j + k + 1` (0 for 17) as long as the
first jump lasts, provided that a run from the ground starts with the up key
down. -/
theorem jump_run (b : ℚ) :
    ∀ (ticks : List (List Nat × TickInput)) (g : Game) (p : PlayState) (j : Nat)
      (states : List (Game × PlayState)),
      j < 17 → g.currentState = some (.play p) → g.gameBounds.bottom = b →
      p.ship.y = some (b - jumpHeight j) →
      g.jumping = decide (j ≠ 0) →
      (j ≠ 0 → p.shipSpeedY = some (20 - 25 / 10 * (j : ℚ))) →
      playStatesKeys g ticks = some states →
      ∀ (k : Nat) (gk : Game) (pk : PlayState), states[k]? = some (gk, pk) →
        ∃ m, m < 17 ∧ pk.ship.y = some (b - jumpHeight m) ∧
          gk.jumping = decide (m ≠ 0) ∧
          ((j = 0 → ∃ keys i rest, ticks = (keys, i) :: rest ∧ 38 ∈ keys) →
            j + k + 1 ≤ 17 → m = (j + k + 1) % 17) := by
  intro ticks
  induction ticks with
  | nil =>
    intro g p j states _ _ _ _ _ _ hrun k gk pk hk
    simp only [playStatesKeys, Option.some.injEq] at hrun
    subst hrun
    simp at hk
  | cons t rest ih =>
    intro g p j states hj hcur hb hy hjump hspeed hrun k gk pk hk
    obtain ⟨keys, i⟩ := t
    unfold playStatesKeys at hrun
    rw [hcur] at hrun
    simp only [] at hrun
    split at hrun
    · rename_i g1 hloop
      split at hrun
      · rename_i p1 hcur1
        split at hrun
        · rename_i tr htr
          simp only [Option.some.injEq] at hrun
          subst hrun
          obtain ⟨out, hsim, hp1, hg1⟩ :=
            gameLoop_play_step { g with pressedKeys := keys } g1 p p1 i hcur hloop hcur1
          obtain ⟨s1, s2, s3⟩ := jump_step { g with pressedKeys := keys } p i.dt i.now i.rnd
            out j hj hsim (by rw [← hb] at hy; exact hy) hjump hspeed
          obtain ⟨-, -, -, -, k5⟩ := simulate_ship _ p i.dt i.now i.rnd out hsim
          obtain ⟨q1, -, q3, -⟩ := setCurrent_globals out.1 (.play out.2.1)
          have hb1 : g1.gameBounds.bottom = b := by rw [hg1, q3, k5]; exact hb
          have hj1 : g1.jumping = decide (jumpPhase j keys ≠ 0) := by rw [hg1, q1, s2]
          have hy1 : p1.ship.y = some (b - jumpHeight (jumpPhase j keys)) := by
            rw [hp1, s1]
            exact congrArg (fun x => some (x - jumpHeight (jumpPhase j keys))) hb
          have hphase : (j = 0 → 38 ∈ keys) → jumpPhase j keys = (j + 1) % 17 := by
            intro hkey
            unfold jumpPhase
            by_cases h0 : j = 0
            · subst h0
              simp [hkey rfl]
            · simp [h0]
          cases k with
          | zero =>
            simp only [List.getElem?_cons_zero, Option.some.injEq, Prod.mk.injEq] at hk
            obtain ⟨rfl, rfl⟩ := hk
            refine ⟨jumpPhase j keys, jumpPhase_lt j keys, hy1, hj1, ?_⟩
            intro hfirst _
            apply hphase
            intro h0
            obtain ⟨keys1, i1, rest1, he, hk38⟩ := hfirst h0
            simp only [List.cons.injEq, Prod.mk.injEq] at he
            rw [he.1.1]
            exact hk38
          | succ k =>
            simp only [List.getElem?_cons_succ] at hk
            obtain ⟨m, hm, e1, e2, e3⟩ := ih g1 p1 (jumpPhase j keys) tr (jumpPhase_lt j keys)
              hcur1 hb1 hy1 hj1 (by rw [hp1]; exact s3) htr k gk pk hk
            refine ⟨m, hm, e1, e2, ?_⟩
            intro hfirst hle
            have hph : jumpPhase j keys = (j + 1) % 17 := by
              apply hphase
              intro h0
              obtain ⟨keys1, i1, rest1, he, hk38⟩ := hfirst h0
              simp only [List.cons.injEq, Prod.mk.injEq] at he
              rw [he.1.1]
              exact hk38
            have hmod : (j + 1) % 17 = j + 1 := Nat.mod_eq_of_lt (by omega)
            rw [hph, hmod] at e3
            have := e3 (fun h => absurd h (Nat.succ_ne_zero j)) (by omega)
            rw [this]
            congr 1
            omega
        · cases hrun
      · cases hrun
    · cases hrun

/-- C26 (jump trajectory). Let a Play state be current with the ship on the
ground (`ship.y = gameBounds.bottom`, `jumping` false), and let Play updates
follow one another, with any `dt` and any keys down at each, the up key (38)
among those of the first.  After the k-th update, `1 <= k <= 17`,
`ship.y = gameBounds.bottom - (20k - 1.25k(k-1))`; after each of the first 16
the ship is strictly above the ground and `jumping` is set; after the 17th
`ship.y` is `gameBounds.bottom` exactly and `jumping` is cleared.  The height
never exceeds 90, which it reaches (after the 8th update), and after every
update of the run, of this jump or a later one, the ship is at or above the
ground and at most 90 above it. -/
theorem jump_trajectory (g : Game) (p : PlayState) (keys : List Nat) (i : TickInput)
    (rest : List (List Nat × TickInput)) (states : List (Game × PlayState))
    (hcur : g.currentState = some (.play p)) (hjump : g.jumping = false)
    (hy : p.ship.y = some g.gameBounds.bottom) (hkey : 38 ∈ keys)
    (hrun : playStatesKeys g ((keys, i) :: rest) = some states) :
    (∀ (k : Nat) (gk : Game) (pk : PlayState), states[k]? = some (gk, pk) →
      (k + 1 ≤ 17 → pk.ship.y = some (g.gameBounds.bottom - jumpHeight (k + 1))) ∧
      (k + 1 ≤ 16 → gk.jumping = true ∧
        ∃ y, pk.ship.y = some y ∧ y < g.gameBounds.bottom) ∧
      (k + 1 = 17 → gk.jumping = false ∧ pk.ship.y = some g.gameBounds.bottom) ∧
      ∃ y, pk.ship.y = some y ∧ y ≤ g.gameBounds.bottom ∧ g.gameBounds.bottom - 90 ≤ y) ∧
    jumpHeight 8 = 90 ∧ ∀ k, k ≤ 17 → jumpHeight k ≤ 90 := by
  have h0 : jumpHeight 0 = 0 := jumpHeight_seventeen.2.1
  have hrunk := jump_run g.gameBounds.bottom ((keys, i) :: rest) g p 0 states (by norm_num)
    hcur rfl (by rw [h0, sub_zero]; exact hy) (by rw [hjump]; simp) (fun h => absurd rfl h)
    hrun
  refine ⟨?_, jumpHeight_seventeen.2.2, ?_⟩
  · intro k gk pk hk
    obtain ⟨m, hm, hyk, hjk, hphase⟩ := hrunk k gk pk hk
    have hph : k + 1 ≤ 17 → m = (k + 1) % 17 := by
      intro hle
      have := hphase (fun _ => ⟨keys, i, rest, rfl, hkey⟩) (by omega)
      rw [Nat.zero_add] at this
      exact this
    obtain ⟨f1, f2, f3, -⟩ := jumpHeight_facts m hm
    refine ⟨?_, ?_, ?_, ?_⟩
    · intro hle
      rcases Nat.lt_or_ge (k + 1) 17 with h | h
      · rw [hyk, hph hle, Nat.mod_eq_of_lt h]
      · have h17 : k + 1 = 17 := le_antisymm hle h
        rw [hyk, hph hle, h17, Nat.mod_self, h0, jumpHeight_seventeen.1]
    · intro hle
      have hmk : m = k + 1 := by rw [hph (by omega)]; exact Nat.mod_eq_of_lt (by omega)
      have hne : m ≠ 0 := by omega
      refine ⟨by rw [hjk]; simp [hne], _, hyk, ?_⟩
      have := f3 hne
      linarith
    · intro h17
      have hm0 : m = 0 := by rw [hph (by omega), h17]
      refine ⟨by rw [hjk]; simp [hm0], ?_⟩
      rw [hyk, hm0, h0, sub_zero]
    · exact ⟨_, hyk, by linarith, by linarith⟩
  · intro k hk
    rcases Nat.lt_or_ge k 17 with h | h
    · exact (jumpHeight_facts k h).2.1
    · have : k = 17 := le_antisymm hk h
      rw [this, jumpHeight_seventeen.1]
      norm_num

/-- C26 witness: seventeen updates from `jumpGame`, the up key down at the
first only: the 8th leaves the ship 90 above the ground, the 17th on the
ground with `jumping` cleared. -/
theorem jump_trajectory_witness :
    jumpGame.currentState = some (.play fivePlay) ∧ jumpGame.jumping = false ∧
    fivePlay.ship.y = some jumpGame.gameBounds.bottom ∧
    playStatesKeys jumpGame jumpTicks = some jumpTrace ∧
    jumpTrace.length = 17 ∧
    (∀ (gk : Game) (pk : PlayState), jumpTrace[7]? = some (gk, pk) →
      pk.ship.y = some (jumpGame.gameBounds.bottom - jumpHeight 8)) ∧
    (∀ (gk : Game) (pk : PlayState), jumpTrace[16]? = some (gk, pk) →
      gk.jumping = false ∧ pk.ship.y = some jumpGame.gameBounds.bottom) :=
  ⟨by decide!, by decide!, by decide!, by decide!, by decide!,
    fun gk pk h =>
      ((jump_trajectory jumpGame fivePlay [38] fixedTick
        (List.replicate 8 ([], fixedTick) ++ List.replicate 8 ([39], fixedTick)) jumpTrace
        (by decide!) (by decide!) (by decide!) (by decide!) (by decide!)).1 7 gk pk h).1
        (by norm_num),
    fun gk pk h =>
      ((jump_trajectory jumpGame fivePlay [38] fixedTick
        (List.replicate 8 ([], fixedTick) ++ List.replicate 8 ([39], fixedTick)) jumpTrace
        (by decide!) (by decide!) (by decide!) (by decide!) (by decide!)).1 16 gk pk h).2.2.1
        rfl⟩
/-! ## The drop phase -/

/-- The velocity statements in a tick of the drop phase without bounce. -/
theorem updateInvaderVelocities_drop (config : Config) (p : PlayState) (dt : ℚ) (v : Vec)
    (hd : p.invadersAreDropping = true) (hv : p.invaderVelocity = some v) :
    ∃ q, updateInvaderVelocities config p dt false false = some q ∧
      q.invaders = p.invaders ∧
      q.invaderNextVelocity = p.invaderNextVelocity ∧
      (fl (p.invaderCurrentDropDistance + fl (v.y * dt)) < config.invaderDropDistance →
        q.invadersAreDropping = true ∧ q.invaderVelocity = some v ∧
        q.invaderCurrentDropDistance = fl (p.invaderCurrentDropDistance + fl (v.y * dt))) ∧
      (config.invaderDropDistance ≤ fl (p.invaderCurrentDropDistance + fl (v.y * dt)) →
        q.invadersAreDropping = false ∧ q.invaderVelocity = p.invaderNextVelocity ∧
        q.invaderCurrentDropDistance = 0) := by
  unfold updateInvaderVelocities
  simp only [hv, hd, if_true, Bool.false_eq_true, if_false]
  by_cases hdist : config.invaderDropDistance ≤ fl (p.invaderCurrentDropDistance + fl (v.y * dt))
  · simp only [hdist, if_true]
    exact ⟨_, rfl, rfl, rfl, fun h => absurd hdist (not_le.mpr h), fun _ => ⟨rfl, rfl, rfl⟩⟩
  · simp only [hdist, if_false]
    exact ⟨_, rfl, rfl, rfl, fun _ => ⟨rfl, rfl, rfl⟩, fun h => h.elim⟩

theorem collide_dropDistance (game : Game) (p : PlayState) (dt : ℚ) (rnd : Nat → ℚ)
    (fired : Bool) :
    (p.collide game dt rnd fired).2.1.invaderCurrentDropDistance
      = p.invaderCurrentDropDistance := by
  unfold PlayState.collide
  rfl

/-- One update of the drop phase, the swarm inside the play area. -/
theorem drop_step (game : Game) (p : PlayState) (dt now : ℚ) (rnd : Nat → ℚ)
    (out : Game × PlayState × TickReport) (v : ℚ) (q : Vec)
    (hsim : p.simulate game dt now rnd = some out)
    (hd : p.invadersAreDropping = true)
    (hvel : p.invaderVelocity = some { x := 0, y := v })
    (hnext : p.invaderNextVelocity = some q)
    (hin : ∀ inv ∈ p.invaders,
      game.gameBounds.left ≤ inv.x ∧ inv.x ≤ game.gameBounds.right) :
    out.2.1.invaders.Sublist p.invaders ∧
    out.2.1.invaderNextVelocity = some q ∧
    (fl (p.invaderCurrentDropDistance + fl (v * dt)) < game.config.invaderDropDistance →
      out.2.1.invadersAreDropping = true ∧
      out.2.1.invaderVelocity = some { x := 0, y := v } ∧
      out.2.1.invaderCurrentDropDistance = fl (p.invaderCurrentDropDistance + fl (v * dt))) ∧
    (game.config.invaderDropDistance ≤ fl (p.invaderCurrentDropDistance + fl (v * dt)) →
      out.2.1.invadersAreDropping = false ∧ out.2.1.invaderVelocity = some q ∧
      out.2.1.invaderCurrentDropDistance = 0) := by
  obtain ⟨-, cinv, -, cv, cn, -, cd, cdist, cb⟩ := control_frame game p dt now
  have ccfg := (control_game game p dt now).2.1
  have hv1 : (p.control game dt now).2.1.invaderVelocity = some { x := 0, y := v } := by
    rw [cv, hvel]
  obtain ⟨r, hr, hadv⟩ := advance_flags (p.control game dt now).1 (p.control game dt now).2.1
    dt { x := 0, y := v } hv1
  have hstill := moveInvaders_still _ _ _ _ _ _ _ hr
  rw [cb, cinv] at hr
  have hl := moveInvaders_hitLeft _ _ _ _ _ _ _ hr
  have hr2 := moveInvaders_hitRight_none _ _ _ _ _ _ _
    (fun inv hi => by
      have := (hin inv hi).2
      simp only [zero_mul, add_zero, gt_iff_lt, not_lt]
      exact this) hr
  have hl1 : r.2.1 = false := by
    rw [hl]
    simp only [Bool.false_or]
    apply List.any_eq_false.mpr
    intro inv hi
    have := (hin inv hi).1
    simp only [zero_mul, add_zero, decide_eq_true_eq, not_lt]
    exact this
  rw [hl1, hr2] at hadv
  obtain ⟨q4, hq4, qinv, qn, qstay, qexit⟩ := updateInvaderVelocities_drop
    (p.control game dt now).1.config
    { (p.control game dt now).2.1 with
      bombs := moveBombs (p.control game dt now).2.1 dt (p.control game dt now).2.1.bombs
      rockets := moveRockets dt (p.control game dt now).2.1.rockets
      invaders := r.1 } dt { x := 0, y := v } (cd.trans hd) hv1
  rw [hq4] at hadv
  obtain ⟨-, -, kv, kn, -, kd, -, kinv⟩ :=
    collide_frame (p.control game dt now).1 q4 dt rnd (p.control game dt now).2.2
  have kdist := collide_dropDistance (p.control game dt now).1 q4 dt rnd
    (p.control game dt now).2.2
  obtain ⟨p4, hp4, hout⟩ := simulate_parts game p dt now rnd out hsim
  rw [hadv, Option.some.injEq] at hp4
  subst hp4
  subst hout
  simp only [] at qinv qn qstay qexit
  rw [ccfg, cdist] at qstay qexit
  rw [cn, hnext] at qn qexit
  rw [hstill, cinv] at qinv
  refine ⟨?_, ?_, ?_, ?_⟩
  · rw [kinv]
    exact (rocketInvader_sublist _ _ _ _).2.1.trans (by rw [qinv])
  · rw [kn, qn]
  · intro h
    obtain ⟨h1, h2, h3⟩ := qstay h
    exact ⟨by rw [kd, h1], by rw [kv, h2], by rw [kdist, h3]⟩
  · intro h
    obtain ⟨h1, h2, h3⟩ := qexit h
    exact ⟨by rw [kd, h1], by rw [kv, h2], by rw [kdist, h3]⟩

/-- The update of a Play state whose swarm has a velocity returns. -/
theorem simulate_some (game : Game) (p : PlayState) (dt now : ℚ) (rnd : Nat → ℚ) (v : Vec)
    (hv : p.invaderVelocity = some v) :
    ∃ out, p.simulate game dt now rnd = some out := by
  have cv := (control_frame game p dt now).2.2.2.1
  obtain ⟨r, -, hadv⟩ := advance_flags (p.control game dt now).1 (p.control game dt now).2.1
    dt v (by rw [cv, hv])
  obtain ⟨q4, hq4⟩ := updateInvaderVelocities_some (p.control game dt now).1.config
    { (p.control game dt now).2.1 with
      bombs := moveBombs (p.control game dt now).2.1 dt (p.control game dt now).2.1.bombs
      rockets := moveRockets dt (p.control game dt now).2.1.rockets
      invaders := r.1 } dt v r.2.1 r.2.2 (by simp only []; rw [cv, hv])
  rw [hq4] at hadv
  unfold PlayState.simulate
  simp only [hadv]
  exact ⟨_, rfl⟩

theorem gameLoop_play_some (g : Game) (p : PlayState) (v : Vec)
    (hcur : g.currentState = some (.play p)) (hv : p.invaderVelocity = some v)
    (i : TickInput) : (GameLoop g i.dt i.now i.rnd).isSome = true := by
  obtain ⟨out, hsim⟩ := simulate_some g p i.dt i.now i.rnd v hv
  unfold GameLoop
  rw [hcur]
  simp only []
  rw [update_eq g p i.dt i.now i.rnd out hsim]
  rfl

theorem simulate_config (game : Game) (p : PlayState) (dt now : ℚ) (rnd : Nat → ℚ)
    (out : Game × PlayState × TickReport) (h : p.simulate game dt now rnd = some out) :
    out.1.config = game.config := by
  obtain ⟨p4, -, hout⟩ := simulate_parts game p dt now rnd out h
  subst hout
  have := (control_game game p dt now).2.1
  unfold PlayState.collide
  exact this

/-- The accumulator is the multiple of `v * dt` when no product or sum is rounded. -/
theorem dropSum_exact (v dt : ℚ) (n : Nat)
    (h : ∀ i, i ≤ n → fl ((i : ℚ) * (v * dt)) = (i : ℚ) * (v * dt)) :
    ∀ i, i ≤ n → dropSum v dt i = (i : ℚ) * (v * dt) := by
  intro i
  induction i with
  | zero => intro _; simp [dropSum]
  | succ i ih =>
    intro hi
    have h1 := h 1 (by omega)
    simp only [Nat.cast_one, one_mul] at h1
    have hs := h (i + 1) hi
    simp only [dropSum, ih (by omega), h1]
    push_cast at hs ⊢
    have e : (i : ℚ) * (v * dt) + v * dt = ((i : ℚ) + 1) * (v * dt) := by ring
    rw [e, hs]

/-- A run of Play updates in the drop phase that starts with the accumulator
left by `j` updates. -/
theorem drop_run (v dt D : ℚ) (q : Vec) (bnds : Bounds) :
    ∀ (ticks : List (List Nat × TickInput)) (g : Game) (p : PlayState) (j : Nat)
      (states : List (Game × PlayState)),
      g.currentState = some (.play p) → g.config.invaderDropDistance = D →
      g.gameBounds = bnds → p.invadersAreDropping = true →
      p.invaderVelocity = some { x := 0, y := v } → p.invaderNextVelocity = some q →
      p.invaderCurrentDropDistance = dropSum v dt j →
      (∀ inv ∈ p.invaders, bnds.left ≤ inv.x ∧ inv.x ≤ bnds.right) →
      (∀ t ∈ ticks, t.2.dt = dt) →
      playStatesKeys g ticks = some states →
      ∀ (k : Nat) (gk : Game) (pk : PlayState), states[k]? = some (gk, pk) →
        (∀ i, j < i → i ≤ j + k → dropSum v dt i < D) →
        gk.currentState = some (.play pk) ∧
        pk.invaders.Sublist p.invaders ∧
        (dropSum v dt (j + k + 1) < D →
          pk.invadersAreDropping = true ∧ pk.invaderVelocity = some { x := 0, y := v } ∧
          pk.invaderNextVelocity = some q ∧
          pk.invaderCurrentDropDistance = dropSum v dt (j + k + 1)) ∧
        (D ≤ dropSum v dt (j + k + 1) →
          pk.invadersAreDropping = false ∧ pk.invaderVelocity = some q ∧
          pk.invaderCurrentDropDistance = 0) := by
  intro ticks
  induction ticks with
  | nil =>
    intro g p j states _ _ _ _ _ _ _ _ _ hrun k gk pk hk
    simp only [playStatesKeys, Option.some.injEq] at hrun
    subst hrun
    simp at hk
  | cons t rest ih =>
    intro g p j states hcur hD hb hd hvel hnext hacc hin hticks hrun k gk pk hk hlt
    obtain ⟨keys, i⟩ := t
    unfold playStatesKeys at hrun
    rw [hcur] at hrun
    simp only [] at hrun
    split at hrun
    · rename_i g1 hloop
      split at hrun
      · rename_i p1 hcur1
        split at hrun
        · rename_i tr htr
          simp only [Option.some.injEq] at hrun
          subst hrun
          obtain ⟨out, hsim, hp1, hg1⟩ :=
            gameLoop_play_step { g with pressedKeys := keys } g1 p p1 i hcur hloop hcur1
          have hidt : i.dt = dt := hticks (keys, i) (List.mem_cons_self _ _)
          rw [hidt] at hsim
          obtain ⟨s1, s2, s3, s4⟩ := drop_step { g with pressedKeys := keys } p dt i.now i.rnd
            out v q hsim hd hvel hnext (by rw [← hb] at hin; exact hin)
          simp only [] at s3 s4
          rw [hD, hacc] at s3 s4
          rw [← hp1] at s1 s2 s3 s4
          have hnextSum : fl (dropSum v dt j + fl (v * dt)) = dropSum v dt (j + 1) := rfl
          rw [hnextSum] at s3 s4
          cases k with
          | zero =>
            simp only [List.getElem?_cons_zero, Option.some.injEq, Prod.mk.injEq] at hk
            obtain ⟨rfl, rfl⟩ := hk
            exact ⟨hcur1, s1, fun h => ⟨(s3 h).1, (s3 h).2.1, s2, (s3 h).2.2⟩, s4⟩
          | succ k =>
            simp only [List.getElem?_cons_succ] at hk
            have hstay : dropSum v dt (j + 1) < D := hlt (j + 1) (by omega) (by omega)
            obtain ⟨t1, t2, t3⟩ := s3 hstay
            obtain ⟨q1, q2, q3, q4⟩ := setCurrent_globals out.1 (.play out.2.1)
            have k5 := (simulate_ship _ p dt i.now i.rnd out hsim).2.2.2.2
            have kc := simulate_config _ p dt i.now i.rnd out hsim
            have := ih g1 p1 (j + 1) tr hcur1 (by rw [hg1, q4, kc]; exact hD)
              (by rw [hg1, q3, k5]; exact hb) t1 t2 s2 t3
              (fun inv hi => hin inv (s1.subset hi))
              (fun x hx => hticks x (List.mem_cons_of_mem _ hx)) htr k gk pk hk
              (fun x h1 h2 => hlt x (by omega) (by omega))
            obtain ⟨u0, u1, u2, u3⟩ := this
            have e : j + 1 + k + 1 = j + (k + 1) + 1 := by omega
            rw [e] at u2 u3
            exact ⟨u0, u1.trans s1, u2, u3⟩
        · cases hrun
      · cases hrun
    · cases hrun

/-- The invader move loop keeps a swarm that is inside the play area inside. -/
theorem moveInvaders_inBounds (bounds : Bounds) (v : Vec) (dt : ℚ) :
    ∀ (invaders : List Invader) (hitLeft hitRight : Bool) (r : List Invader × Bool × Bool),
      (∀ inv ∈ invaders, bounds.left ≤ inv.x ∧ inv.x ≤ bounds.right) →
      moveInvaders bounds (some v) dt invaders hitLeft hitRight = some r →
      ∀ inv ∈ r.1, bounds.left ≤ inv.x ∧ inv.x ≤ bounds.right := by
  intro invaders
  induction invaders with
  | nil =>
    intro hl hr r _ h
    simp only [moveInvaders, Option.some.injEq] at h
    subst h
    intro inv hi
    cases hi
  | cons invader rest ih =>
    intro hl hr r hin h
    simp only [moveInvaders] at h
    split at h
    · cases h
    · rename_i rest1 l r1 hrest
      simp only [Option.some.injEq] at h
      subst h
      intro inv hi
      rcases List.mem_cons.mp hi with rfl | hi
      · have h0 := hin invader (List.mem_cons_self _ _)
        by_cases a : invader.x + v.x * dt < bounds.left <;>
          by_cases b : invader.x + v.x * dt > bounds.right <;>
          cases hl <;> cases hr <;>
          simp only [a, b, decide_True, decide_False, Bool.or_true, Bool.or_false,
            Bool.not_true, Bool.not_false, Bool.and_true, Bool.and_false, Bool.true_and,
            Bool.false_and, Bool.false_eq_true, if_true, if_false, Bool.true_or,
            Bool.false_or] <;>
          first
          | exact h0
          | exact ⟨not_lt.mp a, not_lt.mp b⟩
      · exact ih _ _ (rest1, l, r1) (fun x hx => hin x (List.mem_cons_of_mem _ hx)) hrest inv hi

/-- Every update keeps a swarm that is inside the play area inside: the drop
phase of a game that started inside begins inside. -/
theorem swarm_stays_in_bounds (game : Game) (p : PlayState) (dt now : ℚ) (rnd : Nat → ℚ)
    (out : Game × PlayState × TickReport) (h : p.simulate game dt now rnd = some out)
    (hin : ∀ inv ∈ p.invaders,
      game.gameBounds.left ≤ inv.x ∧ inv.x ≤ game.gameBounds.right) :
    ∀ inv ∈ out.2.1.invaders,
      out.1.gameBounds.left ≤ inv.x ∧ inv.x ≤ out.1.gameBounds.right := by
  obtain ⟨-, cinv, -, cv, -, -, -, -, cb⟩ := control_frame game p dt now
  obtain ⟨p4, hadv, hout⟩ := simulate_parts game p dt now rnd out h
  obtain ⟨-, -, -, -, r, hr, hinv, -⟩ := advance_spec _ _ _ _ hadv
  have hb := (simulate_ship game p dt now rnd out h).2.2.2.2
  rw [hb]
  subst hout
  rw [cb, cinv] at hr
  cases hv : (p.control game dt now).2.1.invaderVelocity with
  | none =>
    rw [hv] at hr
    cases hp : p.invaders with
    | nil =>
      rw [hp] at hr
      simp only [moveInvaders, Option.some.injEq] at hr
      intro inv hi
      rw [(collide_frame _ p4 dt rnd _).2.2.2.2.2.2.2] at hi
      have := (rocketInvader_sublist (p.control game dt now).1.config p4.rockets
        (p.control game dt now).1.score p4.invaders).2.1.subset hi
      rw [hinv, ← hr] at this
      cases this
    | cons x xs =>
      rw [hp] at hr
      simp only [moveInvaders] at hr
      cases hr
  | some v =>
    rw [hv] at hr
    have hmoved := moveInvaders_inBounds game.gameBounds v dt p.invaders false false r hin hr
    intro inv hi
    rw [(collide_frame _ p4 dt rnd _).2.2.2.2.2.2.2] at hi
    have := (rocketInvader_sublist (p.control game dt now).1.config p4.rockets
      (p.control game dt now).1.score p4.invaders).2.1.subset hi
    rw [hinv] at this
    exact hmoved inv this

/-- C23 (drop phase length and exit), amended. Let a Play state be current whose
swarm is in the drop phase with velocity `(0, v)`, `v > 0`, accumulator 0 and
queued velocity `q`, every invader inside the play area (`left <= x <= right`,
as every update leaves a swarm that was inside), and let Play updates with the
same `dt > 0`, any keys down at each, follow one another; `D > 0` is
`config.invaderDropDistance`.  The accumulator is a sum of doubles
(`dropSum`): every update adds the rounded product `v * dt` and rounds the sum.
The update of the first state returns.  After the `(k+1)`-th update, the
accumulator having stayed below `D` in the `k` updates before, the invader
list is a sub-sequence of the first one, so no `x` has changed.  If the
accumulator is still below `D` the swarm is still dropping with velocity
`(0, v)` and queued velocity `q`, the accumulator is `dropSum v dt (k+1)` and
the next update returns.  If it has reached `D`, the dropping flag is cleared,
the velocity is `q` and the accumulator is 0; and when no product or sum up to
there is rounded, this update is number `ceil (D / (v * dt))`. -/
theorem drop_phase_exit (g : Game) (p : PlayState) (v dt : ℚ) (q : Vec)
    (ticks : List (List Nat × TickInput)) (states : List (Game × PlayState))
    (hcur : g.currentState = some (.play p)) (hd : p.invadersAreDropping = true)
    (hvel : p.invaderVelocity = some { x := 0, y := v })
    (hnext : p.invaderNextVelocity = some q) (hacc : p.invaderCurrentDropDistance = 0)
    (hv : 0 < v) (hdt : 0 < dt) (hD : 0 < g.config.invaderDropDistance)
    (hin : ∀ inv ∈ p.invaders, g.gameBounds.left ≤ inv.x ∧ inv.x ≤ g.gameBounds.right)
    (hticks : ∀ t ∈ ticks, t.2.dt = dt) (hrun : playStatesKeys g ticks = some states) :
    (∀ i : TickInput, (GameLoop g i.dt i.now i.rnd).isSome = true) ∧
    ∀ (k : Nat) (gk : Game) (pk : PlayState), states[k]? = some (gk, pk) →
      (∀ i, 1 ≤ i → i ≤ k → dropSum v dt i < g.config.invaderDropDistance) →
      pk.invaders.Sublist p.invaders ∧
      (dropSum v dt (k + 1) < g.config.invaderDropDistance →
        pk.invadersAreDropping = true ∧ pk.invaderVelocity = some { x := 0, y := v } ∧
        pk.invaderNextVelocity = some q ∧
        pk.invaderCurrentDropDistance = dropSum v dt (k + 1) ∧
        ∀ i : TickInput, (GameLoop gk i.dt i.now i.rnd).isSome = true) ∧
      (g.config.invaderDropDistance ≤ dropSum v dt (k + 1) →
        pk.invadersAreDropping = false ∧ pk.invaderVelocity = some q ∧
        pk.invaderCurrentDropDistance = 0 ∧
        ((∀ i, i ≤ k + 1 → fl ((i : ℚ) * (v * dt)) = (i : ℚ) * (v * dt)) →
          k + 1 = ⌈g.config.invaderDropDistance / (v * dt)⌉₊)) := by
  have hpos : 0 < v * dt := mul_pos hv hdt
  refine ⟨gameLoop_play_some g p _ hcur hvel, ?_⟩
  intro k gk pk hk hlt
  obtain ⟨r0, r1, r2, r3⟩ := drop_run v dt g.config.invaderDropDistance q g.gameBounds
    ticks g p 0 states hcur rfl rfl hd hvel hnext hacc hin hticks hrun k gk pk hk
    (fun i h1 h2 => hlt i h1 (by omega))
  rw [Nat.zero_add] at r2 r3
  refine ⟨r1, fun h => ?_, fun h => ?_⟩
  · obtain ⟨a1, a2, a3, a4⟩ := r2 h
    exact ⟨a1, a2, a3, a4, gameLoop_play_some gk pk _ r0 a2⟩
  · obtain ⟨a1, a2, a3⟩ := r3 h
    refine ⟨a1, a2, a3, fun hexact => ?_⟩
    have hsum := dropSum_exact v dt (k + 1) hexact
    symm
    rw [Nat.ceil_eq_iff (Nat.succ_ne_zero k)]
    refine ⟨?_, ?_⟩
    · rw [lt_div_iff₀ hpos]
      rcases Nat.eq_zero_or_pos k with h0 | hk1
      · subst h0
        simp only [Nat.zero_add, Nat.sub_self, Nat.cast_zero, zero_mul]
        exact hD
      · have := hlt k hk1 (le_refl k)
        rw [hsum k (by omega)] at this
        simpa using this
    · rw [div_le_iff₀ hpos]
      rw [hsum (k + 1) (le_refl _)] at h
      exact h

/-- C23 witness: the two half-second updates `dropTicks` from `dropGame` (`v = 32.5`,
`D = 20`), where no sum is rounded: after the first the swarm is still dropping
with accumulator 16.25, after the second, `2 = ceil (20 / 16.25)`, it moves
with the queued velocity. -/
theorem drop_phase_exit_witness :
    dropGame.currentState = some (.play dropPlay) ∧
    playStatesKeys dropGame dropTicks = some dropTrace ∧
    dropTrace.length = 2 ∧
    (∀ (gk : Game) (pk : PlayState), dropTrace[0]? = some (gk, pk) →
      pk.invadersAreDropping = true ∧ pk.invaderCurrentDropDistance = 65 / 4) ∧
    (∀ (gk : Game) (pk : PlayState), dropTrace[1]? = some (gk, pk) →
      pk.invadersAreDropping = false ∧ pk.invaderVelocity = some { x := 65 / 2, y := 0 } ∧
      pk.invaderCurrentDropDistance = 0 ∧
      1 + 1 = ⌈dropGame.config.invaderDropDistance / (65 / 2 * (1 / 2))⌉₊) :=
  ⟨by decide!, by decide!, by decide!,
    fun gk pk h =>
      have r := ((drop_phase_exit dropGame dropPlay (65 / 2) (1 / 2) { x := 65 / 2, y := 0 }
        dropTicks dropTrace (by decide!) (by decide!) (by decide!)
        (by decide!) (by decide!) (by norm_num) (by norm_num) (by decide!) (by decide!)
        (by decide!) (by decide!)).2 0 gk pk h (by decide!)).2.1 (by decide!)
      ⟨r.1, by rw [r.2.2.2.1]; decide!⟩,
    fun gk pk h =>
      have r := ((drop_phase_exit dropGame dropPlay (65 / 2) (1 / 2) { x := 65 / 2, y := 0 }
        dropTicks dropTrace (by decide!) (by decide!) (by decide!)
        (by decide!) (by decide!) (by norm_num) (by norm_num) (by decide!) (by decide!)
        (by decide!) (by decide!)).2 1 gk pk h (by decide!)).2.2 (by decide!)
      ⟨r.1, r.2.1, r.2.2.1, r.2.2.2 (by decide!)⟩⟩

/-- C23 as stated fails, in two ways.  At 45 frames per second `dt` is the
double nearest to `1 / 45`.  With `v = 100` and `D = 20`, `8 * v * dt` is
below `D` and `9 * v * dt` is not (also with `dt = 1 / 45` exactly), so the 9th
update is the first with `n * v * dt >= D`; but the nine rounded additions of
`v * dt` leave an accumulator below 20, and after the 9th update of
`fastDropGame` the swarm is still dropping: the flag is cleared by the 10th.
And in `strayGame` (`v = 32.5`, `dt = 1 / 2`, `D = 20`, no sum rounded) an
invader of the dropping swarm is left of the left bound: the second update,
the first with `n * v * dt >= D`, raises the edge flag, and after it the swarm
is dropping again with velocity `(0, 32.5)`, not moving with the queued
velocity `(32.5, 0)`. -/
theorem drop_phase_as_stated_fails :
    (fastDropGame.currentState = some (.play fastDropPlay) ∧
      fastDropPlay.invadersAreDropping = true ∧
      fastDropPlay.invaderVelocity = some { x := 0, y := 100 } ∧
      fastDropPlay.invaderCurrentDropDistance = 0 ∧
      fastDropGame.config.invaderDropDistance = 20 ∧
      8 * (100 * fastTick.dt) < 20 ∧ 20 ≤ 9 * (100 * fastTick.dt) ∧
      (20 : ℚ) ≤ 9 * (100 * (1 / 45)) ∧ dropSum 100 fastTick.dt 9 < 20 ∧
      ((playStatesKeys fastDropGame (List.replicate 10 ([], fastTick))).getD []).map
          (fun s =>
            (s.2.invadersAreDropping, s.2.invaderVelocity, s.2.invaderCurrentDropDistance))
        = (List.range 9).map
            (fun k => (true, some { x := 0, y := 100 }, dropSum 100 fastTick.dt (k + 1)))
          ++ [(false, some { x := 100, y := 0 }, 0)]) ∧
    (strayGame.currentState = some (.play strayPlay) ∧
      strayPlay.invadersAreDropping = true ∧
      strayPlay.invaderVelocity = some { x := 0, y := 65 / 2 } ∧
      strayPlay.invaderNextVelocity = some { x := 65 / 2, y := 0 } ∧
      strayPlay.invaderCurrentDropDistance = 0 ∧
      strayGame.config.invaderDropDistance = 20 ∧
      (1 : ℚ) * (65 / 2 * halfTick.dt) < 20 ∧ (20 : ℚ) ≤ 2 * (65 / 2 * halfTick.dt) ∧
      strayPlay.invaders.any (fun inv => decide (inv.x < strayGame.gameBounds.left)) = true ∧
      ((playStatesKeys strayGame dropTicks).getD []).map
          (fun s =>
            (s.2.invadersAreDropping, s.2.invaderVelocity, s.2.invaderCurrentDropDistance))
        = [(true, some { x := 0, y := 65 / 2 }, 65 / 4),
           (true, some { x := 0, y := 65 / 2 }, 0)]) := by
  refine ⟨⟨?_, ?_, ?_, ?_, ?_, ?_, ?_, ?_, ?_, ?_⟩,
    ⟨?_, ?_, ?_, ?_, ?_, ?_, ?_, ?_, ?_, ?_⟩⟩ <;> decide!

end SpaceInvaders
